import Mathlib

/-!
# vnfood-handbook-website: mini-game state machines and comment pagination

A shallow embedding of the client-side logic of

* `src/components/games/FoodMemoryGame.js` (memory match),
* `src/components/games/PuzzleGame.js` (bank/board jigsaw),
* `src/components/games/HangmanGame.js` (hangman),
* `src/pages/DetailPage.js` and `src/pages/BlogPage.js` (comment pagination and
  deep-link highlight),

followed by theorems about it.  React state is modelled by explicit state
records; every event handler is a function from the state of the render in
which it fires to the state after all of its queued updates have been applied.
Calls to `Math.random` are modelled by explicit parameters that range over all
possible outcomes.
-/

/-! ## Memory game (`FoodMemoryGame.js`) -/

namespace FoodMemoryGame

/-- The constant `TIME_LIMIT` (seconds). -/
def TIME_LIMIT : Nat := 60

/-- The constant `MAX_LIVES`. -/
def MAX_LIVES : Nat := 15

/-- The constant `TOTAL_PAIRS`. -/
def TOTAL_PAIRS : Nat := 8

/-- A catalog entry of `foodData`, restricted to the fields the game reads.
A missing (`undefined`) or empty `slug` / `imageUrl` is the empty string: both
are falsy in the source. -/
structure Food where
  name : String
  slug : String
  imageUrl : String
  deriving DecidableEq, Repr

/-- A card of the deck: the spread catalog entry plus `uniqueId` and
`imageSrc`. -/
structure Card where
  name : String
  slug : String
  imageUrl : String
  uniqueId : Nat
  imageSrc : String
  deriving DecidableEq, Repr

/-- The values of the `gameState` state variable. -/
inductive GameStatus where
  | intro
  | playing
  | won
  | lost
  deriving DecidableEq, Repr

/-- The React state of the component.  `pendingFlipBacks` counts the 800 ms
flip-back timeouts that `checkForMatch` has scheduled and that have not fired
yet (the source never clears them). -/
structure State where
  cards : List Card
  flippedCards : List Card
  matchedCards : List Nat
  timeLeft : Nat
  lives : Nat
  gameState : GameStatus
  disableClick : Bool
  openDialog : Bool
  pendingFlipBacks : Nat
  deriving DecidableEq, Repr

/-- The state of a freshly mounted component (the `useState` initial values). -/
def initialState : State :=
  { cards := [], flippedCards := [], matchedCards := [], timeLeft := TIME_LIMIT,
    lives := MAX_LIVES, gameState := GameStatus.intro, disableClick := false,
    openDialog := false, pendingFlipBacks := 0 }

/-- The helper `getImageUrl`: `food.imageUrl || "/assets/placeholder.png"`. -/
def getImageUrl (food : Food) : String :=
  if food.imageUrl ≠ "" then food.imageUrl else "/assets/placeholder.png"

/-- The loop `while (pool.length < TOTAL_PAIRS) pool = [...pool, ...validFoods]`
of `setupGameData`.  Each evaluation of the loop condition costs one unit of
fuel; `none` means the fuel ran out before the loop was left. -/
def padPool (validFoods : List Food) : Nat → List Food → Option (List Food)
  | 0, _ => none
  | fuel + 1, pool =>
    if pool.length < TOTAL_PAIRS then padPool validFoods fuel (pool ++ validFoods)
    else some pool

/-- The first half of the body of `setupGameData`: filter the catalog, pad the
pool, shuffle it and keep the first `TOTAL_PAIRS` entries.  `shuffle1` is the
outcome of `pool.sort(() => 0.5 - Math.random())`. -/
def selectFoods (foodData : List Food) (shuffle1 : List Food → List Food)
    (fuel : Nat) : Option (List Food) :=
  let validFoods := foodData.filter (fun f => decide (f.slug ≠ ""))
  match padPool validFoods fuel validFoods with
  | none => none
  | some pool => some ((shuffle1 pool).take TOTAL_PAIRS)

/-- The second half: duplicate every selected entry, shuffle, and number the
cards by their position.  `shuffle2` is the outcome of the second `sort`. -/
def buildDeck (selected : List Food) (shuffle2 : List Food → List Food) : List Card :=
  (shuffle2 (selected.flatMap (fun item => [item, item]))).mapIdx
    (fun index food =>
      { name := food.name, slug := food.slug, imageUrl := food.imageUrl,
        uniqueId := index, imageSrc := getImageUrl food })

/-- The timeout callback of `setupGameData`: build the deck and reset the
state.  The result is `none` when the padding loop does not terminate within
the fuel.  Pending flip-back timeouts of the previous round survive. -/
def setupGameData (foodData : List Food) (shuffle1 shuffle2 : List Food → List Food)
    (fuel : Nat) (s : State) : Option State :=
  match selectFoods foodData shuffle1 fuel with
  | none => none
  | some selected =>
    some { cards := buildDeck selected shuffle2, flippedCards := [], matchedCards := [],
           timeLeft := TIME_LIMIT, lives := MAX_LIVES, disableClick := false,
           gameState := GameStatus.playing, openDialog := false,
           pendingFlipBacks := s.pendingFlipBacks }

/-- The function `endGame`: set the status and open the dialog. -/
def endGame (status : GameStatus) (s : State) : State :=
  { s with gameState := status, openDialog := true }

/-- The function `checkForMatch([card1, card2])`, applied on top of the updates
already queued by `handleCardClick`. -/
def checkForMatch (s : State) (card1 card2 : Card) : State :=
  if card1.slug = card2.slug then
    let newMatched := s.matchedCards ++ [card1.uniqueId, card2.uniqueId]
    let s1 := { s with matchedCards := newMatched, flippedCards := [], disableClick := false }
    if newMatched.length = s.cards.length then endGame GameStatus.won s1 else s1
  else if s.lives > 1 then
    { s with lives := s.lives - 1, pendingFlipBacks := s.pendingFlipBacks + 1 }
  else
    endGame GameStatus.lost { s with lives := 0 }

/-- The click handler `handleCardClick(card)`. -/
def handleCardClick (s : State) (card : Card) : State :=
  if s.gameState ≠ GameStatus.playing ∨ s.disableClick = true then s
  else if s.matchedCards.contains card.uniqueId = true
      ∨ s.flippedCards.any (fun c => decide (c.uniqueId = card.uniqueId)) = true then s
  else
    match s.flippedCards ++ [card] with
    | [card1, card2] =>
      checkForMatch { s with flippedCards := [card1, card2], disableClick := true } card1 card2
    | newFlipped => { s with flippedCards := newFlipped }

/-- The body of the 800 ms timeout scheduled on a mismatch: clear the flipped
cards and re-enable input.  It can only fire when one is pending. -/
def flipBackTimeout (s : State) : State :=
  if s.pendingFlipBacks = 0 then s
  else { s with flippedCards := [], disableClick := false,
                pendingFlipBacks := s.pendingFlipBacks - 1 }

/-- One firing of the one-second interval of the timer effect.  The interval
exists only while `gameState === 'playing' && timeLeft > 0`. -/
def timerTick (s : State) : State :=
  if s.gameState = GameStatus.playing ∧ s.timeLeft > 0 then
    if s.timeLeft ≤ 1 then endGame GameStatus.lost { s with timeLeft := 0 }
    else { s with timeLeft := s.timeLeft - 1 }
  else s

/-- The `onClose` of the result dialog (and its close button):
`setOpenDialog(false)`. -/
def closeDialog (s : State) : State :=
  { s with openDialog := false }

/-- The states the component can be in once a setup has completed: the result
of the first setup (Start on the intro screen), followed by card taps (on cards
of the current deck), flip-back timeouts, timer ticks, closing the result
dialog and further setups (RESET / Play Again). -/
inductive Reachable : State → Prop where
  | setup (foodData : List Food) (shuffle1 shuffle2 : List Food → List Food) (fuel : Nat)
      (s : State) (h1 : ∀ l, (shuffle1 l).Perm l) (h2 : ∀ l, (shuffle2 l).Perm l)
      (hs : setupGameData foodData shuffle1 shuffle2 fuel initialState = some s) : Reachable s
  | reset (foodData : List Food) (shuffle1 shuffle2 : List Food → List Food) (fuel : Nat)
      (s0 s : State) (hr : Reachable s0)
      (h1 : ∀ l, (shuffle1 l).Perm l) (h2 : ∀ l, (shuffle2 l).Perm l)
      (hs : setupGameData foodData shuffle1 shuffle2 fuel s0 = some s) : Reachable s
  | tap (s : State) (card : Card) (hr : Reachable s) (hc : card ∈ s.cards) :
      Reachable (handleCardClick s card)
  | flipBack (s : State) (hr : Reachable s) : Reachable (flipBackTimeout s)
  | tick (s : State) (hr : Reachable s) : Reachable (timerTick s)
  | dialog (s : State) (hr : Reachable s) : Reachable (closeDialog s)

/-- The number of cards of a deck that carry the identity `slug`. -/
def slugCount (slug : String) (deck : List Card) : Nat :=
  (deck.map Card.slug).count slug

/-- The number of distinct identities on a deck. -/
def distinctSlugs (deck : List Card) : Nat :=
  (deck.map Card.slug).dedup.length

/-- A catalog of exactly three dishes. -/
def threeDishes : List Food :=
  [ { name := "Pho", slug := "pho", imageUrl := "/food_images/pho.jpg" },
    { name := "Banh mi", slug := "banh_mi", imageUrl := "/food_images/banh_mi.jpg" },
    { name := "Bun cha", slug := "bun_cha", imageUrl := "/food_images/bun_cha.jpg" } ]

/-- A catalog of eight dishes with pairwise distinct slugs; the images are
missing, so the cards show the placeholder. -/
def eightDishes : List Food :=
  ["pho", "banh_mi", "bun_cha", "com_tam", "goi_cuon", "hu_tieu", "mi_quang", "bo_ne"].map
    (fun slug => { name := "Pho", slug := slug, imageUrl := "" })

/-- A card without image, as the setup builds it from an entry of
`eightDishes`. -/
def plainCard (slug : String) (uniqueId : Nat) : Card :=
  { name := "Pho", slug := slug, imageUrl := "", uniqueId := uniqueId,
    imageSrc := "/assets/placeholder.png" }

/-- The state after the first setup on `eightDishes` when both shuffles leave
the order unchanged: cards 0 and 1 show "pho", cards 2 and 3 "banh_mi", and so
on. -/
def eightDishesGame : State :=
  { cards := buildDeck eightDishes id, flippedCards := [], matchedCards := [],
    timeLeft := TIME_LIMIT, lives := MAX_LIVES, disableClick := false,
    gameState := GameStatus.playing, openDialog := false, pendingFlipBacks := 0 }

/-- The state `eightDishesGame` after a tap on card 0 ("pho"). -/
def phoFlipped : State :=
  handleCardClick eightDishesGame (plainCard "pho" 0)

/-- The state `phoFlipped` after a tap on card 2 ("banh_mi"): a mismatch. -/
def mismatchFlipped : State :=
  handleCardClick phoFlipped (plainCard "banh_mi" 2)

/-- The invariant behind the input lock: at most two cards are flipped, and at
most one while input is enabled. -/
def FlipInv (s : State) : Prop :=
  s.flippedCards.length ≤ 2 ∧ (s.disableClick = false → s.flippedCards.length ≤ 1)

/-- Well-formedness of a deck, a matched list and a flipped list: cards are
numbered by position, the matched ids are distinct ids of the deck, and flipped
cards are unmatched cards of the deck. -/
def DeckOK (cards : List Card) (matched : List Nat) (flipped : List Card) : Prop :=
  (∀ i (h : i < cards.length), (cards.get ⟨i, h⟩).uniqueId = i) ∧
  matched.Nodup ∧
  (∀ id ∈ matched, id < cards.length) ∧
  (∀ c ∈ flipped, c ∈ cards ∧ c.uniqueId ∉ matched)

/-- The deck invariant of a state. -/
def DeckInv (s : State) : Prop :=
  DeckOK s.cards s.matchedCards s.flippedCards

/-- The events of a round: a tap on a card, the firing of a flip-back timeout,
a firing of the one-second interval, and closing the result dialog. -/
inductive Event where
  | tap (card : Card)
  | flipBack
  | tick
  | dialog
  deriving DecidableEq, Repr

/-- The state after one event of a round. -/
def step (s : State) : Event → State
  | Event.tap card => handleCardClick s card
  | Event.flipBack => flipBackTimeout s
  | Event.tick => timerTick s
  | Event.dialog => closeDialog s

/-- The state after a list of events of a round, applied from left to right. -/
def run (s : State) : List Event → State
  | [] => s
  | e :: es => run (step s e) es

/-- The number of timer ticks in a list of events. -/
def tickCount : List Event → Nat
  | [] => 0
  | Event.tick :: es => tickCount es + 1
  | _ :: es => tickCount es

/-- While a round is being played, lives and time are left. -/
def PlayInv (s : State) : Prop :=
  s.gameState ≠ GameStatus.intro ∧
    (s.gameState = GameStatus.playing → 0 < s.lives ∧ 0 < s.timeLeft)

/-- The clock of a round that has seen `n` ticks since its setup: the game has
left the intro screen and, while it is being played, the time left and the
ticks add up to `TIME_LIMIT`, with time left. -/
def ClockInv (s : State) (n : Nat) : Prop :=
  s.gameState ≠ GameStatus.intro ∧
    (s.gameState = GameStatus.playing → s.timeLeft + n = TIME_LIMIT ∧ 0 < s.timeLeft)

/-- The state `eightDishesGame` after 59 ticks: one second is left. -/
def lastSecond : State :=
  run eightDishesGame (List.replicate 59 Event.tick)

/-- The catalog entry a card was made from: the spread `...food` without the
two fields added by `setupGameData`. -/
def Card.toFood (c : Card) : Food :=
  { name := c.name, slug := c.slug, imageUrl := c.imageUrl }

/-- A catalog whose only entry has an empty slug. -/
def noSlugCatalog : List Food :=
  [{ name := "Pho", slug := "", imageUrl := "/assets/pho.jpg" }]

/-- The state after RESET is pressed in `mismatchFlipped` and the setup
callback has run (both shuffles leaving the order unchanged): a fresh round,
while the flip-back timeout of the old mismatch is still pending. -/
def resetWhilePending : State :=
  { cards := buildDeck eightDishes id, flippedCards := [], matchedCards := [],
    timeLeft := TIME_LIMIT, lives := MAX_LIVES, disableClick := false,
    gameState := GameStatus.playing, openDialog := false, pendingFlipBacks := 1 }

/-- The state `resetWhilePending` after taps on card 0 ("pho") and card 2
("banh_mi"): a mismatch of the new round, whose own flip-back timeout has just
been scheduled behind the old one. -/
def secondMismatch : State :=
  handleCardClick (handleCardClick resetWhilePending (plainCard "pho" 0))
    (plainCard "banh_mi" 2)

/-- The state `secondMismatch` after the old flip-back timeout, scheduled
before the RESET, has fired. -/
def clearedEarly : State :=
  flipBackTimeout secondMismatch

end FoodMemoryGame

/-! ## Puzzle game (`PuzzleGame.js`) -/

namespace PuzzleGame

/-- The constant `COLS`. -/
def COLS : Nat := 4

/-- The constant `ROWS`. -/
def ROWS : Nat := 3

/-- The constant `TOTAL_PIECES = COLS * ROWS`. -/
def TOTAL_PIECES : Nat := COLS * ROWS

/-- A puzzle piece `{ id: i }`. -/
structure Piece where
  id : Nat
  deriving DecidableEq, Repr

/-- The `source` objects built by the render: `{ type: 'left' }`,
`{ type: 'right' }`, `{ type: 'bottom' }` and `{ type: 'board', index: i }`. -/
inductive Source where
  | left
  | right
  | bottom
  | board (index : Nat)
  deriving DecidableEq, Repr

/-- Whether the source is one of the three banks. -/
def Source.isBank : Source → Bool
  | Source.board _ => false
  | _ => true

/-- The record `{ item, source }` stored in `draggedItem` and `selectedPiece`. -/
structure Held where
  item : Piece
  source : Source
  deriving DecidableEq, Repr

/-- The React state of the component that the game logic reads or writes (the
image, window size and piece sizes are presentation only).  A board slot is
`none` for `null`.  Board indices come from `board.map((piece, i) => ...)`, so
they are always below the length of the board; on such indices `List.set` is
the array assignment `n[i] = v`. -/
structure State where
  board : List (Option Piece)
  leftBank : List Piece
  rightBank : List Piece
  bottomBank : List Piece
  isSolved : Bool
  draggedItem : Option Held
  selectedPiece : Option Held
  deriving DecidableEq, Repr

/-- The state of a freshly mounted component (the `useState` initial values). -/
def initialState : State :=
  { board := List.replicate TOTAL_PIECES none, leftBank := [], rightBank := [],
    bottomBank := [], isSolved := false, draggedItem := none, selectedPiece := none }

/-- The win test `newBoard.every((p, i) => p && p.id === i)`. -/
def boardSolved (board : List (Option Piece)) : Bool :=
  board.enum.all (fun ip =>
    match ip.2 with
    | some p => decide (p.id = ip.1)
    | none => false)

/-- The function `startNewGame`.  `shuffle` is the outcome of
`allPieces.sort(() => Math.random() - 0.5)`.  Only `isSolved`, the board and
the three banks are written. -/
def startNewGame (shuffle : List Piece → List Piece) (s : State) : State :=
  let allPieces := shuffle ((List.range TOTAL_PIECES).map (fun i => { id := i }))
  { s with isSolved := false,
           board := List.replicate TOTAL_PIECES none,
           leftBank := (allPieces.take 4).drop 0,
           rightBank := (allPieces.take 8).drop 4,
           bottomBank := (allPieces.take 12).drop 8 }

/-- The handler `handleDragStart(e, item, source)`. -/
def handleDragStart (s : State) (item : Piece) (source : Source) : State :=
  { s with draggedItem := some { item := item, source := source } }

/-- The function `removeFromSource(source, item)`. -/
def removeFromSource (s : State) (source : Source) (item : Piece) : State :=
  match source with
  | Source.left => { s with leftBank := s.leftBank.filter (fun p => decide (p.id ≠ item.id)) }
  | Source.right => { s with rightBank := s.rightBank.filter (fun p => decide (p.id ≠ item.id)) }
  | Source.bottom =>
    { s with bottomBank := s.bottomBank.filter (fun p => decide (p.id ≠ item.id)) }
  | Source.board index => { s with board := s.board.set index none }

/-- The part shared, line for line, by `handleDropToBoard` and
`handleBoardClick`: read `existing = board[targetIndex]` from the rendered
state, remove the item from its recorded source, send a displaced piece to the
source slot (board source) or to the bottom bank, place the item and run the
win test on the board so obtained. -/
def placeOnBoard (s : State) (held : Held) (targetIndex : Nat) : State :=
  let existing : Option Piece := (s.board.get? targetIndex).join
  let s1 := removeFromSource s held.source held.item
  let s2 : State :=
    match existing with
    | some e =>
      match held.source with
      | Source.board index => { s1 with board := s1.board.set index (some e) }
      | _ => { s1 with bottomBank := s1.bottomBank ++ [e] }
    | none => s1
  let newBoard := s2.board.set targetIndex (some held.item)
  { s2 with board := newBoard, isSolved := s2.isSolved || boardSolved newBoard }

/-- The handler `handleDropToBoard(e, targetIndex)`. -/
def handleDropToBoard (s : State) (targetIndex : Nat) : State :=
  match s.draggedItem with
  | none => s
  | some held => { placeOnBoard s held targetIndex with draggedItem := none }

/-- The handler `handlePieceClick(piece, source)`. -/
def handlePieceClick (s : State) (piece : Piece) (source : Source) : State :=
  if s.isSolved = true then s
  else
    match s.selectedPiece with
    | some sel =>
      if sel.item.id = piece.id then { s with selectedPiece := none }
      else { s with selectedPiece := some { item := piece, source := source } }
    | none => { s with selectedPiece := some { item := piece, source := source } }

/-- The handler `handleBoardClick(targetIndex)`. -/
def handleBoardClick (s : State) (targetIndex : Nat) : State :=
  if s.isSolved = true then s
  else
    match s.selectedPiece with
    | none => s
    | some held => { placeOnBoard s held targetIndex with selectedPiece := none }

/-- A click on a piece that lies on board slot `index`: the click handler of the
piece runs `handlePieceClick`, then the event bubbles to the slot, whose handler
runs `handleBoardClick(index)`; both read the same rendered state and their
updates are applied in that order. -/
def handleBoardPieceClick (s : State) (piece : Piece) (index : Nat) : State :=
  if s.isSolved = true then s
  else
    match s.selectedPiece with
    | none => handlePieceClick s piece (Source.board index)
    | some _ => handleBoardClick s index

/-- The `onClose` of the victory modal (and its close button):
`setIsSolved(false)`. -/
def closeVictoryModal (s : State) : State :=
  { s with isSolved := false }

/-- The number of places (bank entries and board slots) that hold a piece with
the given id. -/
def occurrences (s : State) (id : Nat) : Nat :=
  (s.leftBank.filter (fun p => decide (p.id = id))).length
  + (s.rightBank.filter (fun p => decide (p.id = id))).length
  + (s.bottomBank.filter (fun p => decide (p.id = id))).length
  + (s.board.filter (fun slot =>
      match slot with
      | some p => decide (p.id = id)
      | none => false)).length

/-- Every piece id `0..11` occurs exactly once across the banks and the
board. -/
def Partitioned (s : State) : Prop :=
  ∀ id, id < TOTAL_PIECES → occurrences s id = 1

instance (s : State) : Decidable (Partitioned s) := by
  unfold Partitioned; exact Nat.decidableBallLT _ _

/-- The piece `p` is rendered at `source` in state `s`: it is in that bank, or
it is the piece on that board slot. -/
def locatedAt (s : State) (p : Piece) (source : Source) : Prop :=
  match source with
  | Source.left => p ∈ s.leftBank
  | Source.right => p ∈ s.rightBank
  | Source.bottom => p ∈ s.bottomBank
  | Source.board index => s.board.get? index = some (some p)

instance (s : State) (p : Piece) (source : Source) : Decidable (locatedAt s p source) := by
  unfold locatedAt; cases source <;> exact inferInstance

/-- The user operations of the component. -/
inductive Event where
  | newGame (shuffle : List Piece → List Piece)
  | dragStart (piece : Piece) (source : Source)
  | drop (targetIndex : Nat)
  | pieceClick (piece : Piece) (source : Source)
  | boardPieceClick (piece : Piece) (index : Nat)
  | slotClick (targetIndex : Nat)
  | closeModal

/-- When the rendered page offers the operation: a shuffle returns a
permutation, a piece is dragged or clicked where it is rendered (pieces are
draggable only while unsolved; a click on a board piece is `boardPieceClick`),
and slots are the twelve board slots. -/
def Event.enabled (s : State) : Event → Prop
  | Event.newGame shuffle => ∀ l, (shuffle l).Perm l
  | Event.dragStart piece source => s.isSolved = false ∧ locatedAt s piece source
  | Event.drop targetIndex => targetIndex < TOTAL_PIECES
  | Event.pieceClick piece source => locatedAt s piece source ∧ source.isBank = true
  | Event.boardPieceClick piece index => locatedAt s piece (Source.board index)
  | Event.slotClick targetIndex => targetIndex < TOTAL_PIECES
  | Event.closeModal => True

/-- The state after one operation. -/
def step (s : State) : Event → State
  | Event.newGame shuffle => startNewGame shuffle s
  | Event.dragStart piece source => handleDragStart s piece source
  | Event.drop targetIndex => handleDropToBoard s targetIndex
  | Event.pieceClick piece source => handlePieceClick s piece source
  | Event.boardPieceClick piece index => handleBoardPieceClick s piece index
  | Event.slotClick targetIndex => handleBoardClick s targetIndex
  | Event.closeModal => closeVictoryModal s

/-- The states reachable from a new game by operations the page offers. -/
inductive Reachable : State → Prop where
  | start (shuffle : List Piece → List Piece) (h : ∀ l, (shuffle l).Perm l) :
      Reachable (startNewGame shuffle initialState)
  | next (s : State) (e : Event) (hr : Reachable s) (he : Event.enabled s e) :
      Reachable (step s e)

/-- The state after a list of operations, applied from left to right. -/
def run (s : State) : List Event → State
  | [] => s
  | e :: es => run (step s e) es

/-- Every operation of the list is offered by the page in the state in which
it is performed. -/
def runEnabled (s : State) : List Event → Prop
  | [] => True
  | e :: es => Event.enabled s e ∧ runEnabled (step s e) es

/-- The new game dealt when the shuffle leaves the order unchanged: pieces
0..3 in the left bank, 4..7 in the right bank, 8..11 in the bottom bank. -/
def orderedDeal : State :=
  startNewGame id initialState

/-- Select piece 0 in the left bank by a click, drag that same piece onto board
slot 0, then click the empty board slot 1. -/
def staleSelectionMoves : List Event :=
  [ Event.pieceClick { id := 0 } Source.left,
    Event.dragStart { id := 0 } Source.left,
    Event.drop 0,
    Event.slotClick 1 ]

/-- An unsolved state one move from the solution: pieces 0..10 lie on their
slots, slot 11 is empty, and piece 11 lies in the bottom bank, where it is both
the dragged and the selected piece. -/
def oneMoveLeft : State :=
  { board := ((List.range 11).map (fun i => some { id := i })) ++ [none],
    leftBank := [], rightBank := [], bottomBank := [{ id := 11 }], isSolved := false,
    draggedItem := some { item := { id := 11 }, source := Source.bottom },
    selectedPiece := some { item := { id := 11 }, source := Source.bottom } }

/-- A decision procedure for `Event.enabled` on the operations other than a
new game (whose shuffle is not a finite object). -/
def Event.offered (s : State) : Event → Bool
  | Event.newGame _ => false
  | Event.dragStart piece source => decide (s.isSolved = false ∧ locatedAt s piece source)
  | Event.drop targetIndex => decide (targetIndex < TOTAL_PIECES)
  | Event.pieceClick piece source => decide (locatedAt s piece source ∧ source.isBank = true)
  | Event.boardPieceClick piece index => decide (locatedAt s piece (Source.board index))
  | Event.slotClick targetIndex => decide (targetIndex < TOTAL_PIECES)
  | Event.closeModal => true

/-- The check `Event.offered` along a list of operations. -/
def runOffered (s : State) : List Event → Bool
  | [] => true
  | e :: es => Event.offered s e && runOffered (step s e) es

/-- Drag piece 0 from the left bank onto board slot 0, then start dragging it
again from that slot. -/
def ownSlotMoves : List Event :=
  [ Event.dragStart { id := 0 } Source.left,
    Event.drop 0,
    Event.dragStart { id := 0 } (Source.board 0) ]

/-- The state after `ownSlotMoves`: piece 0 lies on slot 0 and is being
dragged from there. -/
def heldOnOwnSlot : State :=
  run orderedDeal ownSlotMoves

/-- Drag piece 1 from the left bank onto board slot 0, then start dragging
piece 0 from the left bank. -/
def displaceMoves : List Event :=
  [ Event.dragStart { id := 1 } Source.left,
    Event.drop 0,
    Event.dragStart { id := 0 } Source.left ]

/-- The state after `displaceMoves`: piece 1 lies on slot 0 and piece 0 is
being dragged from the left bank. -/
def displaceReady : State :=
  run orderedDeal displaceMoves

/-- The state after dropping the dragged piece 0 of `displaceReady` on the
occupied slot 0. -/
def displaced : State :=
  handleDropToBoard displaceReady 0

/-- Drag every piece from its bank onto its own slot, piece 0 first. -/
def solveMoves : List Event :=
  (List.range 12).flatMap (fun i =>
    [ Event.dragStart { id := i }
        (if i < 4 then Source.left else if i < 8 then Source.right else Source.bottom),
      Event.drop i ])

/-- The state after `solveMoves`: the puzzle is solved. -/
def solvedGame : State :=
  run orderedDeal solveMoves

/-- The state after a click on piece 0 in the left bank of `orderedDeal`:
piece 0 is selected. -/
def pieceZeroSelected : State :=
  handlePieceClick orderedDeal { id := 0 } Source.left

/-- The new game started from `pieceZeroSelected` when the shuffle reverses the
order: pieces 11..8 in the left bank, 7..4 in the right bank, 3..0 in the
bottom bank. -/
def reversedDeal : State :=
  startNewGame List.reverse pieceZeroSelected

/-- Drag piece 1 from the left bank onto board slot 0, then select piece 0 in
the left bank by a click. -/
def boardClickMoves : List Event :=
  [ Event.dragStart { id := 1 } Source.left,
    Event.drop 0,
    Event.pieceClick { id := 0 } Source.left ]

/-- The state after `boardClickMoves`: piece 1 lies on slot 0 and piece 0, in
the left bank, is selected. -/
def boardClickReady : State :=
  run orderedDeal boardClickMoves

/-- Whether a board slot holds a piece with the given id. -/
def holds (id : Nat) : Option Piece → Bool
  | some p => decide (p.id = id)
  | none => false

/-- One drag-and-drop move: `dragstart` on a piece, recorded with the source
it was rendered in, followed by `drop` on a board slot. -/
def dragDrop (s : State) (piece : Piece) (source : Source) (targetIndex : Nat) : State :=
  handleDropToBoard (handleDragStart s piece source) targetIndex

/-- The states reached from a new game by drag-and-drop moves only: every drag
starts on a piece where it is rendered (its bank, or the board slot it
occupies) and ends on one of the twelve board slots, empty or not. -/
inductive DragReachable : State → Prop where
  | start (shuffle : List Piece → List Piece) (s0 : State) (h : ∀ l, (shuffle l).Perm l) :
      DragReachable (startNewGame shuffle s0)
  | move (s : State) (piece : Piece) (source : Source) (targetIndex : Nat)
      (hr : DragReachable s) (hloc : locatedAt s piece source)
      (ht : targetIndex < TOTAL_PIECES) :
      DragReachable (dragDrop s piece source targetIndex)

/-- A game of four drag-and-drop moves from `orderedDeal`: piece 0 to slot 0,
piece 1 onto the occupied slot 0, piece 1 onto its own slot 0, and piece 1 from
slot 0 to slot 5. -/
def fourDrags : State :=
  dragDrop (dragDrop (dragDrop (dragDrop orderedDeal { id := 0 } Source.left 0)
    { id := 1 } Source.left 0) { id := 1 } (Source.board 0) 0) { id := 1 } (Source.board 0) 5

end PuzzleGame

/-! ## Hangman (`HangmanGame.js`) -/

namespace HangmanGame

/-- The constant `MAX_WRONG`. -/
def MAX_WRONG : Nat := 4

/-- The constant `KEYBOARD`. -/
def KEYBOARD : List Char := "ABCDEFGHIJKLMNOPQRSTUVWXYZ".toList

/-- The values of `gameState.status`. -/
inductive Status where
  | playing
  | won
  | lost
  deriving DecidableEq, Repr

/-- The `gameState` record.  `guessedLetters` is the JavaScript `Set` in
insertion order (no duplicates are ever added). -/
structure State where
  targetWord : String
  vietnameseName : String
  guessedLetters : List Char
  wrongCount : Nat
  status : Status
  hintUsed : Bool
  deriving DecidableEq, Repr

/-- The regular expression test `/[A-Z]/.test(char)` on a single character. -/
def isAZ (c : Char) : Bool :=
  decide ('A' ≤ c ∧ c ≤ 'Z')

/-- The characters matched by the separator `/[–-]/`: en dash and hyphen. -/
def isSeparator (c : Char) : Bool :=
  c == '–' || c == '-'

/-- The white space and line terminators removed by `String.prototype.trim`. -/
def isJsWhitespace (c : Char) : Bool :=
  let n := c.toNat
  n == 0x09 || n == 0x0A || n == 0x0B || n == 0x0C || n == 0x0D || n == 0x20 || n == 0xA0
    || n == 0x1680 || (0x2000 ≤ n && n ≤ 0x200A) || n == 0x2028 || n == 0x2029
    || n == 0x202F || n == 0x205F || n == 0x3000 || n == 0xFEFF

/-- The method `String.prototype.trim`. -/
def trim (s : String) : String :=
  String.mk (((s.toList.dropWhile isJsWhitespace).reverse.dropWhile isJsWhitespace).reverse)

/-- The method `String.prototype.split` for a separator that is a single
character of a class, on the list of characters of the string: the pieces
between consecutive separators, empty pieces included. -/
def splitParts (sep : Char → Bool) : List Char → List (List Char)
  | [] => [[]]
  | c :: cs =>
    if sep c = true then [] :: splitParts sep cs
    else
      match splitParts sep cs with
      | [] => [[c]]
      | part :: parts => (c :: part) :: parts

/-- The function `startNewGame`, for the catalog entry the random index picked
(`name` is `randomFood.name`).  `toUpperCase` stands for the built-in
`String.prototype.toUpperCase`. -/
def startNewGame (toUpperCase : String → String) (name : String) : State :=
  let parts := (splitParts isSeparator name.toList).map String.mk
  let vnName := trim (parts.headD "")
  let second := (parts.get? 1).getD ""
  let enName := toUpperCase (trim (if second ≠ "" then second else vnName))
  { targetWord := enName, vietnameseName := vnName, guessedLetters := [],
    wrongCount := 0, status := Status.playing, hintUsed := false }

/-- The state updater of `handleGuess(letter)`.  A letter is a one-character
string (a key of `KEYBOARD` or a character of the target word), so
`targetWord.includes(letter)` is membership of the character. -/
def handleGuess (prev : State) (letter : Char) : State :=
  if prev.status ≠ Status.playing then prev
  else if prev.guessedLetters.contains letter = true then
    let newWrong := prev.wrongCount + 1
    { prev with wrongCount := newWrong,
                status := if newWrong ≥ MAX_WRONG then Status.lost else prev.status }
  else
    let newGuessed := prev.guessedLetters ++ [letter]
    let isCorrect := prev.targetWord.toList.contains letter
    if isCorrect = false then
      let newWrong := prev.wrongCount + 1
      { prev with guessedLetters := newGuessed, wrongCount := newWrong,
                  status := if newWrong ≥ MAX_WRONG then Status.lost else prev.status }
    else
      let isWon := prev.targetWord.toList.all
        (fun char => !(isAZ char) || newGuessed.contains char)
      { prev with guessedLetters := newGuessed,
                  status := if isWon = true then Status.won else prev.status }

/-- The list `unguessed` of `useHint`. -/
def unguessed (s : State) : List Char :=
  s.targetWord.toList.filter (fun char => isAZ char && !(s.guessedLetters.contains char))

/-- The function `useHint`.  `random` stands for the outcome of
`Math.floor(Math.random() * unguessed.length)`, which is `random % length` for
a suitable natural number and ranges over every index of the list. -/
def useHint (s : State) (random : Nat) : State :=
  if s.hintUsed = true ∨ s.status ≠ Status.playing then s
  else
    match (unguessed s).get? (random % (unguessed s).length) with
    | some randomChar => { handleGuess s randomChar with hintUsed := true }
    | none => s

/-- The states reachable from `startNewGame` by letter guesses and hints. -/
inductive Reachable : State → Prop where
  | start (toUpperCase : String → String) (name : String) :
      Reachable (startNewGame toUpperCase name)
  | guess (s : State) (letter : Char) (hr : Reachable s) : Reachable (handleGuess s letter)
  | hint (s : State) (random : Nat) (hr : Reachable s) : Reachable (useHint s random)

/-- Upper-casing of the ASCII letters only; on strings whose other characters
have no upper-case form it agrees with `String.prototype.toUpperCase`. -/
def asciiUpper (s : String) : String :=
  String.mk (s.toList.map Char.toUpper)

/-- The round for the dish name "Phở – Beef Noodle" after the guess `B`. -/
def beefRound : State :=
  handleGuess (startNewGame asciiUpper "Phở – Beef Noodle") 'B'

/-- The invariant of a round: the wrong counter is at most `MAX_WRONG`, and
the round is lost exactly when the counter has reached it. -/
def RoundInv (s : State) : Prop :=
  s.wrongCount ≤ MAX_WRONG ∧ (s.status = Status.lost ↔ s.wrongCount = MAX_WRONG)

/-- The round for a dish name made of digits only, "36": the target word has
no letter A–Z. -/
def digitsRound : State :=
  startNewGame asciiUpper "36"

/-- The round `beefRound` after the wrong guesses `X`, `Q`, `Z` and `W`: it is
lost. -/
def lostRound : State :=
  handleGuess (handleGuess (handleGuess (handleGuess beefRound 'X') 'Q') 'Z') 'W'

/-- The target word of the state has an A–Z letter that is not guessed yet. -/
def HasUnguessed (s : State) : Prop :=
  ∃ c ∈ s.targetWord.toList, isAZ c = true ∧ c ∉ s.guessedLetters

/-- While a round is being played, a target word with an A–Z letter has one
that is not guessed yet. -/
def OpenInv (s : State) : Prop :=
  s.status = Status.playing → (∃ c ∈ s.targetWord.toList, isAZ c = true) → HasUnguessed s

/-- The text the answer is made from, `(parts[1] || vnName).trim()`: the
target word of `startNewGame` before `toUpperCase`. -/
def answerText (name : String) : String :=
  let parts := (splitParts isSeparator name.toList).map String.mk
  let vnName := trim (parts.headD "")
  let second := (parts.get? 1).getD ""
  trim (if second ≠ "" then second else vnName)

/-- The number of separator characters (hyphen or en dash) of a name. -/
def separatorCount (name : String) : Nat :=
  (name.toList.filter isSeparator).length

/-- In the words of the specification: the text before the separator, that is
before the first hyphen or en dash (the whole name when there is none). -/
def textBeforeSeparator (name : String) : String :=
  String.mk (name.toList.takeWhile (fun c => !(isSeparator c)))

/-- In the words of the specification: the text after the separator, that is
everything after the first hyphen or en dash (empty when there is none). -/
def textAfterSeparator (name : String) : String :=
  String.mk ((name.toList.dropWhile (fun c => !(isSeparator c))).drop 1)

/-- The flag `isGuessed` of the Letter Boxes render, for the character of one
box. -/
def isGuessed (s : State) (char : Char) : Bool :=
  s.guessedLetters.contains char

/-- The flag `isSpace` of the Letter Boxes render: `!/[A-Z]/.test(char)`. -/
def isSpace (char : Char) : Bool :=
  !(isAZ char)

/-- The flag `showChar` of the Letter Boxes render. -/
def showChar (s : State) (char : Char) : Bool :=
  isGuessed s char || isSpace char || decide (s.status = Status.lost)

/-- The flag `isMissing` of the Letter Boxes render. -/
def isMissing (s : State) (char : Char) : Bool :=
  decide (s.status = Status.lost) && !(isGuessed s char) && !(isSpace char)

/-- In a won round every A–Z character of the target word is guessed. -/
def WonInv (s : State) : Prop :=
  s.status = Status.won → ∀ c ∈ s.targetWord.toList, isAZ c = true → c ∈ s.guessedLetters

/-- The player operations of a round: a letter guess (a key of the on-screen
keyboard or of the physical keyboard) and the hint button. -/
inductive Event where
  | guess (letter : Char)
  | hint (random : Nat)

/-- Whether the page offers the operation: both keyboards pass only letters of
`KEYBOARD` to `handleGuess`. -/
def Event.offered : Event → Bool
  | Event.guess letter => KEYBOARD.contains letter
  | Event.hint _ => true

/-- The state after one operation. -/
def step (s : State) : Event → State
  | Event.guess letter => handleGuess s letter
  | Event.hint random => useHint s random

/-- The state after a list of operations, applied from left to right. -/
def run (s : State) : List Event → State
  | [] => s
  | e :: es => run (step s e) es

/-- The number of letter guesses in a list of operations. -/
def guessCount : List Event → Nat
  | [] => 0
  | Event.guess _ :: es => guessCount es + 1
  | Event.hint _ :: es => guessCount es

/-- The state after guessing the letters of a list one after the other. -/
def guessAll (s : State) (letters : List Char) : State :=
  letters.foldl handleGuess s

/-- The distinct A–Z letters of the target word, in order of first
occurrence from the right. -/
def targetLetters (s : State) : List Char :=
  (s.targetWord.toList.filter isAZ).dedup

/-- The round for the dish name "Phở 24 – 24/7": the answer is "24/7". -/
def numberRound : State :=
  startNewGame asciiUpper "Phở 24 – 24/7"

/-- The round for the dish name "Ốc – Ô Ố", whose answer is made of two
accented letters and a space. -/
def accentRound : State :=
  startNewGame asciiUpper "Ốc – Ô Ố"

/-- The guesses `O`, `O` again, `A` and `B`, with a hint after the first. -/
def accentMoves : List Event :=
  [Event.guess 'O', Event.hint 0, Event.guess 'O', Event.guess 'A', Event.guess 'B']

end HangmanGame

/-! ## Comment pagination and highlight (`DetailPage.js`, `BlogPage.js`) -/

namespace Comments

/-- The constant `COMMENTS_PER_PAGE` of both pages. -/
def COMMENTS_PER_PAGE : Nat := 10

/-- A comment as returned by the comments API, restricted to the fields the
logic reads. -/
structure Comment where
  id : Nat
  parentId : Option Nat
  userUid : String
  content : String
  deriving DecidableEq, Repr

/-- The method `Array.prototype.slice(start, end)` with integer arguments. -/
def slice {α : Type} (xs : List α) (start stop : Int) : List α :=
  let len : Int := xs.length
  let k : Int := if start < 0 then max (len + start) 0 else min start len
  let final : Int := if stop < 0 then max (len + stop) 0 else min stop len
  (xs.take final.toNat).drop k.toNat

/-- The expression `currentComments`:
`comments.slice((page - 1) * COMMENTS_PER_PAGE, page * COMMENTS_PER_PAGE)`. -/
def currentComments (comments : List Comment) (page : Nat) : List Comment :=
  slice comments (((page : Int) - 1) * COMMENTS_PER_PAGE) ((page : Int) * COMMENTS_PER_PAGE)

/-- The page count passed to the `Pagination` control:
`Math.ceil(comments.length / COMMENTS_PER_PAGE)`. -/
def pageCount (comments : List Comment) : Nat :=
  (comments.length + (COMMENTS_PER_PAGE - 1)) / COMMENTS_PER_PAGE

/-- The call `comments.findIndex(c => c.id.toString() === hId)`; `none` is the
result `-1`. -/
def findIndex (comments : List Comment) (hId : String) : Option Nat :=
  let idx := comments.findIdx (fun c => toString c.id == hId)
  if idx < comments.length then some idx else none

/-- The expression `Math.ceil((idx + 1) / COMMENTS_PER_PAGE)`.  The quotient of
two integers below `2^53` is rounded by less than the distance of an inexact
quotient to the next integer, so the floating-point result is the integer
ceiling. -/
def targetPage (idx : Nat) : Nat :=
  (idx + 1 + (COMMENTS_PER_PAGE - 1)) / COMMENTS_PER_PAGE

/-- The `interact` record of `DetailPage` (and, with `searchTerm`, of
`BlogPage`). -/
structure Interact where
  newComment : String
  isSending : Bool
  searchTerm : String
  page : Nat
  activeReplyId : Option Nat
  replyText : String
  deriving DecidableEq, Repr

/-- The initial value of `interact`. -/
def Interact.initial : Interact :=
  { newComment := "", isSending := false, searchTerm := "", page := 1,
    activeReplyId := none, replyText := "" }

/-- A list of 23 comments with ids 100, 101, ..., 122. -/
def sampleComments : List Comment :=
  (List.range 23).map (fun i => { id := 100 + i, parentId := none, userUid := "u", content := "" })

end Comments

namespace DetailPage

open Comments

/-- The state of `DetailPage` that the comment logic uses: the dish slug shown,
the comment list and `interact`. -/
structure State where
  dish : Option String
  comments : List Comment
  interact : Interact
  deriving DecidableEq, Repr

/-- The state of a freshly mounted page. -/
def initialState : State :=
  { dish := none, comments := [], interact := Interact.initial }

/-- The state write of `fetchComments(slug)` when the request succeeds with
`data`: `setComments(data.reverse())`. -/
def fetchComments (s : State) (data : List Comment) : State :=
  { s with comments := data.reverse }

/-- The success path of `fetchDishDetail` for a dish that is not a forum topic:
`setDish(res.data)`, then `fetchComments(res.data.slug)` answering `data`. -/
def fetchDishDetail (s : State) (slug : String) (data : List Comment) : State :=
  fetchComments { s with dish := some slug } data

/-- The state write of the highlight effect.  `hId` is
`new URLSearchParams(location.search).get('highlight')` (`none` for `null`). -/
def highlightEffect (s : State) (hId : Option String) : State :=
  match hId with
  | none => s
  | some h =>
    if h ≠ "" ∧ s.comments.length ≠ 0 then
      match findIndex s.comments h with
      | some idx => { s with interact := { s.interact with page := targetPage idx } }
      | none => s
    else s

/-- The `onChange` of the `Pagination` control. -/
def changePage (s : State) (v : Nat) : State :=
  { s with interact := { s.interact with page := v } }

/-- The state write of `submitComment()` for a new top-level comment once the
request succeeded and the list was fetched again. -/
def submitTopLevel (s : State) (data : List Comment) : State :=
  let s1 := fetchComments s data
  { s1 with interact := { s1.interact with newComment := "", page := 1, isSending := false } }

/-- The page of a dish with the 23 comments of `sampleComments`, the reader
being on comment page 3. -/
def onPageThree : State :=
  { dish := some "pho", comments := Comments.sampleComments,
    interact := { Interact.initial with page := 3 } }

/-- Five comments with ids 1..5, oldest first as the API returns them. -/
def fiveComments : List Comment :=
  (List.range 5).map (fun i => { id := i + 1, parentId := none, userUid := "u", content := "" })

end DetailPage

namespace BlogPage

open Comments

/-- The values of `viewMode`. -/
inductive ViewMode where
  | blog
  | forum_detail
  deriving DecidableEq, Repr

/-- The state of `BlogPage` that the comment logic uses.  A forum topic is
represented by its slug. -/
structure State where
  viewMode : ViewMode
  selectedForum : Option String
  forumPage : Nat
  comments : List Comment
  interact : Interact
  deriving DecidableEq, Repr

/-- The state of a freshly mounted page. -/
def initialState : State :=
  { viewMode := ViewMode.blog, selectedForum := none, forumPage := 1, comments := [],
    interact := Interact.initial }

/-- The synchronous part of the slug effect, for the route parameter `slug` and
the loaded topic list `forums`. -/
def slugEffect (s : State) (forums : List String) (slug : Option String) : State :=
  match slug with
  | some sl =>
    if sl ≠ "" ∧ forums.length ≠ 0 then
      match forums.find? (fun f => f == sl) with
      | some found => { s with selectedForum := some found, viewMode := ViewMode.forum_detail }
      | none => s
    else if sl = "" then { s with viewMode := ViewMode.blog, selectedForum := none }
    else s
  | none => { s with viewMode := ViewMode.blog, selectedForum := none }

/-- The state write when a comments request (sent by the slug effect or by
`fetchComments`) succeeds with `data`: `setComments(data.reverse())`. -/
def fetchComments (s : State) (data : List Comment) : State :=
  { s with comments := data.reverse }

/-- The click handler of the Back button of a topic. -/
def backClick (s : State) : State :=
  { s with viewMode := ViewMode.blog, selectedForum := none, comments := [],
           interact := { s.interact with activeReplyId := none } }

/-- The state write of the highlight effect. -/
def highlightEffect (s : State) (hId : Option String) : State :=
  match hId with
  | none => s
  | some h =>
    if h ≠ "" ∧ s.viewMode = ViewMode.forum_detail ∧ s.comments.length ≠ 0 then
      match findIndex s.comments h with
      | some idx =>
        let targetPage := Comments.targetPage idx
        if s.interact.page ≠ targetPage then
          { s with interact := { s.interact with page := targetPage } }
        else s
      | none => s
    else s

/-- The `onChange` of the comment `Pagination` control. -/
def changePage (s : State) (v : Nat) : State :=
  { s with interact := { s.interact with page := v } }

/-- The `onChange` of the topic search field: the sibling list resets its page
index, `setForumPage(1)`, when its filter changes. -/
def searchChange (s : State) (term : String) : State :=
  { s with interact := { s.interact with searchTerm := term }, forumPage := 1 }

/-- The topic view of "topic-a" with the 23 comments of `sampleComments`, the
reader being on comment page 3. -/
def onPageThree : State :=
  { viewMode := ViewMode.forum_detail, selectedForum := some "topic-a", forumPage := 1,
    comments := Comments.sampleComments, interact := { Interact.initial with page := 3 } }

/-- The reader of `onPageThree` opens "topic-b", which has five comments: the
slug effect runs and the comments request is answered. -/
def switchedTopic : State :=
  fetchComments (slugEffect onPageThree ["topic-a", "topic-b"] (some "topic-b"))
    DetailPage.fiveComments

end BlogPage

/-! ## Theorems: memory game -/

namespace FoodMemoryGame

/-- The padding loop terminates on a non-empty list of valid foods: with enough
fuel it returns a pool of at least `TOTAL_PAIRS` entries, all taken from the
starting pool or the valid foods, and it returns the starting pool unchanged
when that is already long enough. -/
theorem padPool_some (validFoods : List Food) (hne : validFoods ≠ []) :
    ∀ (fuel : Nat) (pool : List Food), 0 < fuel → TOTAL_PAIRS < fuel + pool.length →
      ∃ out, padPool validFoods fuel pool = some out ∧ TOTAL_PAIRS ≤ out.length ∧
        (TOTAL_PAIRS ≤ pool.length → out = pool) := by
  intro fuel
  induction fuel with
  | zero => intro pool h0; exact absurd h0 (Nat.lt_irrefl 0)
  | succ n ih =>
    intro pool _ hlen
    by_cases hp : pool.length < TOTAL_PAIRS
    · have hvf : 0 < validFoods.length := List.length_pos.mpr hne
      have hn : 0 < n := by omega
      have hlen2 : TOTAL_PAIRS < n + (pool ++ validFoods).length := by
        rw [List.length_append]; omega
      obtain ⟨out, ho, hl, _⟩ := ih (pool ++ validFoods) hn hlen2
      refine ⟨out, ?_, hl, ?_⟩
      · simp only [padPool, hp, if_true]; exact ho
      · intro h; omega
    · refine ⟨pool, ?_, by omega, fun _ => rfl⟩
      simp only [padPool, hp, if_false]

/-- The identities on the deck are the identities of the shuffled duplicated
selection, in order. -/
theorem buildDeck_map_slug (selected : List Food) (shuffle2 : List Food → List Food) :
    (buildDeck selected shuffle2).map Card.slug
      = (shuffle2 (selected.flatMap (fun item => [item, item]))).map Food.slug := by
  unfold buildDeck
  apply List.ext_getElem
  · simp
  · intro i h1 h2
    simp

/-- The card at position `i` of the deck has `uniqueId = i`. -/
theorem buildDeck_uniqueId (selected : List Food) (shuffle2 : List Food → List Food)
    (i : Nat) (h : i < (buildDeck selected shuffle2).length) :
    ((buildDeck selected shuffle2).get ⟨i, h⟩).uniqueId = i := by
  unfold buildDeck
  simp

/-- Duplicating every entry doubles the count of every identity. -/
theorem count_slug_duplicated (selected : List Food) (x : String) :
    ((selected.flatMap (fun item => [item, item])).map Food.slug).count x
      = 2 * (selected.map Food.slug).count x := by
  induction selected with
  | nil => simp
  | cons a t ih =>
    simp only [List.flatMap_cons, List.map_append, List.count_append, List.map_cons,
      List.map_nil, List.count_cons, List.count_nil, ih]
    split <;> omega

/-- On a deck every identity occurs twice as often as in the selection. -/
theorem slugCount_buildDeck (selected : List Food) (shuffle2 : List Food → List Food)
    (h2 : ∀ l, (shuffle2 l).Perm l) (x : String) :
    slugCount x (buildDeck selected shuffle2) = 2 * (selected.map Food.slug).count x := by
  unfold slugCount
  rw [buildDeck_map_slug, ← count_slug_duplicated]
  exact ((h2 _).map Food.slug).count_eq x

/-- Duplicating every entry doubles the length. -/
theorem length_duplicated (selected : List Food) :
    (selected.flatMap (fun item => [item, item])).length = 2 * selected.length := by
  induction selected with
  | nil => rfl
  | cons a t ih =>
    simp only [List.flatMap_cons, List.length_append, List.length_cons, List.length_nil, ih]
    omega

/-- The deck has twice as many cards as the selection. -/
theorem length_buildDeck (selected : List Food) (shuffle2 : List Food → List Food)
    (h2 : ∀ l, (shuffle2 l).Perm l) :
    (buildDeck selected shuffle2).length = 2 * selected.length := by
  unfold buildDeck
  rw [List.length_mapIdx, (h2 _).length_eq, length_duplicated]

/-- With a catalog entry of non-empty slug and fuel above `TOTAL_PAIRS`, the
selection step returns exactly `TOTAL_PAIRS` entries; they are the first
`TOTAL_PAIRS` of a permutation of the valid foods when there are at least
`TOTAL_PAIRS` of those. -/
theorem selectFoods_some (foodData : List Food) (shuffle1 : List Food → List Food) (fuel : Nat)
    (hcat : ∃ f ∈ foodData, f.slug ≠ "") (h1 : ∀ l, (shuffle1 l).Perm l)
    (hfuel : TOTAL_PAIRS < fuel) :
    ∃ selected, selectFoods foodData shuffle1 fuel = some selected ∧
      selected.length = TOTAL_PAIRS ∧
      (TOTAL_PAIRS ≤ (foodData.filter (fun f => decide (f.slug ≠ ""))).length →
        selected = (shuffle1 (foodData.filter (fun f => decide (f.slug ≠ "")))).take
          TOTAL_PAIRS) := by
  have hne : foodData.filter (fun f => decide (f.slug ≠ "")) ≠ [] := by
    obtain ⟨f, hf, hs⟩ := hcat
    intro h
    have hmem : f ∈ foodData.filter (fun f => decide (f.slug ≠ "")) :=
      List.mem_filter.mpr ⟨hf, by simpa using hs⟩
    rw [h] at hmem
    exact absurd hmem (List.not_mem_nil f)
  obtain ⟨out, ho, hl, hsame⟩ := padPool_some _ hne fuel
    (foodData.filter (fun f => decide (f.slug ≠ ""))) (by omega) (by omega)
  refine ⟨(shuffle1 out).take TOTAL_PAIRS, ?_, ?_, ?_⟩
  · simp only [selectFoods, ho]
  · rw [List.length_take, (h1 out).length_eq]; omega
  · intro h; rw [hsame h]

end FoodMemoryGame

namespace FoodMemoryGame

/-- A completed setup returns a state with no flipped and no matched card,
input enabled, on a deck numbered by position. -/
theorem setupGameData_shape (foodData : List Food) (shuffle1 shuffle2 : List Food → List Food)
    (fuel : Nat) (s0 s : State)
    (hs : setupGameData foodData shuffle1 shuffle2 fuel s0 = some s) :
    s.flippedCards = [] ∧ s.matchedCards = [] ∧ s.disableClick = false ∧
      ∀ i (h : i < s.cards.length), (s.cards.get ⟨i, h⟩).uniqueId = i := by
  unfold setupGameData at hs
  cases hsel : selectFoods foodData shuffle1 fuel with
  | none => rw [hsel] at hs; exact absurd hs (by simp)
  | some selected =>
    rw [hsel] at hs
    simp only [Option.some.injEq] at hs
    subst hs
    exact ⟨rfl, rfl, rfl, fun i h => buildDeck_uniqueId selected shuffle2 i h⟩

/-- A tap preserves the flip invariant. -/
theorem handleCardClick_flipInv (s : State) (card : Card) (h : FlipInv s) :
    FlipInv (handleCardClick s card) := by
  unfold handleCardClick
  split
  · exact h
  · rename_i hguard
    split
    · exact h
    · have hdis : s.disableClick = false := by
        cases hd : s.disableClick with
        | false => rfl
        | true => exact absurd (Or.inr hd) hguard
      have hlen := h.2 hdis
      match hf : s.flippedCards with
      | [] =>
        simp only [List.nil_append]
        exact ⟨by simp, fun _ => by simp⟩
      | [c1] =>
        simp only [List.singleton_append]
        unfold checkForMatch FlipInv endGame
        dsimp only
        split_ifs <;> simp
      | _ :: _ :: _ =>
        rw [hf] at hlen
        simp at hlen

/-- A flip-back timeout preserves the flip invariant. -/
theorem flipBackTimeout_flipInv (s : State) (h : FlipInv s) : FlipInv (flipBackTimeout s) := by
  unfold flipBackTimeout
  split
  · exact h
  · exact ⟨by simp, fun _ => by simp⟩

/-- A timer tick preserves the flip invariant. -/
theorem timerTick_flipInv (s : State) (h : FlipInv s) : FlipInv (timerTick s) := by
  unfold timerTick
  split
  · split
    · exact h
    · exact h
  · exact h

/-- Every reachable state satisfies the flip invariant. -/
theorem reachable_flipInv (s : State) (hr : Reachable s) : FlipInv s := by
  induction hr with
  | setup foodData shuffle1 shuffle2 fuel s _ _ hs =>
    obtain ⟨hf, _, _, _⟩ := setupGameData_shape _ _ _ _ _ _ hs
    exact ⟨by rw [hf]; simp, fun _ => by rw [hf]; simp⟩
  | reset foodData shuffle1 shuffle2 fuel s0 s _ _ _ hs _ =>
    obtain ⟨hf, _, _, _⟩ := setupGameData_shape _ _ _ _ _ _ hs
    exact ⟨by rw [hf]; simp, fun _ => by rw [hf]; simp⟩
  | tap s card _ _ ih => exact handleCardClick_flipInv s card ih
  | flipBack s _ ih => exact flipBackTimeout_flipInv s ih
  | tick s _ ih => exact timerTick_flipInv s ih
  | dialog s _ ih => exact ih

/-- A duplicate-free list of numbers below `n` has length `n` exactly when it
contains every number below `n`. -/
theorem nodup_length_eq_iff (l : List Nat) (n : Nat) (hnd : l.Nodup) (hlt : ∀ x ∈ l, x < n) :
    l.length = n ↔ ∀ i, i < n → i ∈ l := by
  have hsub : l.toFinset ⊆ Finset.range n := by
    intro x hx
    exact Finset.mem_range.mpr (hlt x (List.mem_toFinset.mp hx))
  have hcard : l.toFinset.card = l.length := List.toFinset_card_of_nodup hnd
  constructor
  · intro hlen i hi
    have heq : l.toFinset = Finset.range n :=
      Finset.eq_of_subset_of_card_le hsub (by rw [Finset.card_range, hcard, hlen])
    exact List.mem_toFinset.mp (heq ▸ Finset.mem_range.mpr hi)
  · intro hall
    have h1 : l.toFinset.card ≤ n := by
      have := Finset.card_le_card hsub
      rwa [Finset.card_range] at this
    have h2 : n ≤ l.toFinset.card := by
      have hsup : Finset.range n ⊆ l.toFinset := by
        intro x hx
        exact List.mem_toFinset.mpr (hall x (Finset.mem_range.mp hx))
      have := Finset.card_le_card hsup
      rwa [Finset.card_range] at this
    omega

/-- On a deck numbered by position every card has an id below the deck size. -/
theorem uniqueId_lt_of_mem (s : State) (h : DeckInv s) (c : Card) (hc : c ∈ s.cards) :
    c.uniqueId < s.cards.length := by
  obtain ⟨n, hn⟩ := List.mem_iff_get.mp hc
  have := h.1 n.1 n.2
  rw [← hn, this]
  exact n.2

/-- On a deck numbered by position two cards with the same id are the same
card. -/
theorem eq_of_uniqueId_eq (s : State) (h : DeckInv s) (a b : Card) (ha : a ∈ s.cards)
    (hb : b ∈ s.cards) (hid : a.uniqueId = b.uniqueId) : a = b := by
  obtain ⟨n, hn⟩ := List.mem_iff_get.mp ha
  obtain ⟨m, hm⟩ := List.mem_iff_get.mp hb
  have h1 := h.1 n.1 n.2
  have h2 := h.1 m.1 m.2
  have hnm : n = m := by
    apply Fin.ext
    rw [← h1, ← h2]
    rw [← hn, ← hm] at hid
    exact hid
  rw [← hn, ← hm, hnm]

/-- What `checkForMatch` does to the deck, the matched list and the flipped
list: on a match both ids are appended and the flipped list is cleared,
otherwise nothing changes. -/
theorem checkForMatch_fields (s : State) (c1 c2 : Card) :
    (checkForMatch s c1 c2).cards = s.cards ∧
      (((checkForMatch s c1 c2).matchedCards = s.matchedCards ++ [c1.uniqueId, c2.uniqueId] ∧
          (checkForMatch s c1 c2).flippedCards = []) ∨
        ((checkForMatch s c1 c2).matchedCards = s.matchedCards ∧
          (checkForMatch s c1 c2).flippedCards = s.flippedCards)) := by
  unfold checkForMatch endGame
  dsimp only
  split_ifs <;> simp

/-- A tap on a card of the deck preserves the deck invariant. -/
theorem handleCardClick_deckInv (s : State) (card : Card) (h : DeckInv s)
    (hc : card ∈ s.cards) : DeckInv (handleCardClick s card) := by
  unfold handleCardClick
  split
  · exact h
  · split
    · exact h
    · rename_i hg
      have hnm : card.uniqueId ∉ s.matchedCards := by
        intro hm
        exact hg (Or.inl (by simpa using hm))
      have hnf : ∀ c ∈ s.flippedCards, c.uniqueId ≠ card.uniqueId := by
        intro c hcf hid
        exact hg (Or.inr (List.any_eq_true.mpr ⟨c, hcf, by simpa using hid⟩))
      split
      · rename_i card1 card2 heq
        have hshape : s.flippedCards = [card1] ∧ card = card2 := by
          match hf : s.flippedCards with
          | [] => rw [hf] at heq; simp at heq
          | [a] => rw [hf] at heq; simpa using heq
          | _ :: _ :: _ => rw [hf] at heq; simp at heq
        obtain ⟨hf, hcard⟩ := hshape
        subst hcard
        have h1 := h.2.2.2 card1 (by rw [hf]; exact List.mem_singleton_self _)
        have hne : card1.uniqueId ≠ card.uniqueId :=
          hnf card1 (by rw [hf]; exact List.mem_singleton_self _)
        have hlt1 := uniqueId_lt_of_mem s h card1 h1.1
        have hlt2 := uniqueId_lt_of_mem s h card hc
        obtain ⟨ha, hb, hcc, hd⟩ := h
        obtain ⟨hcards, hcase⟩ := checkForMatch_fields
          { s with flippedCards := [card1, card], disableClick := true } card1 card
        unfold DeckInv
        rw [hcards]
        rcases hcase with ⟨hm, hfl⟩ | ⟨hm, hfl⟩
        · rw [hm, hfl]
          refine ⟨ha, ?_, ?_, by simp⟩
          · show (s.matchedCards ++ [card1.uniqueId, card.uniqueId]).Nodup
            rw [List.nodup_append]
            refine ⟨hb, by simp [hne], ?_⟩
            intro x hx hx2
            simp only [List.mem_cons, List.mem_singleton, List.not_mem_nil, or_false] at hx2
            rcases hx2 with rfl | rfl
            · exact h1.2 hx
            · exact hnm hx
          · intro x hx
            have hx2 : x ∈ s.matchedCards ++ [card1.uniqueId, card.uniqueId] := hx
            simp only [List.mem_append, List.mem_cons, List.mem_singleton, List.not_mem_nil,
              or_false] at hx2
            rcases hx2 with hx2 | rfl | rfl
            · exact hcc x hx2
            · exact hlt1
            · exact hlt2
        · rw [hm, hfl]
          refine ⟨ha, hb, hcc, ?_⟩
          intro c hcm
          have hcm2 : c ∈ [card1, card] := hcm
          simp only [List.mem_cons, List.mem_singleton, List.not_mem_nil, or_false] at hcm2
          rcases hcm2 with rfl | rfl
          · exact h1
          · exact ⟨hc, hnm⟩
      · obtain ⟨ha, hb, hcc, hd⟩ := h
        refine ⟨ha, hb, hcc, ?_⟩
        intro c hcm
        have hcm2 : c ∈ s.flippedCards ++ [card] := hcm
        simp only [List.mem_append, List.mem_singleton] at hcm2
        rcases hcm2 with hcm2 | rfl
        · exact hd c hcm2
        · exact ⟨hc, hnm⟩

/-- Every reachable state satisfies the deck invariant. -/
theorem reachable_deckInv (s : State) (hr : Reachable s) : DeckInv s := by
  induction hr with
  | setup foodData shuffle1 shuffle2 fuel s _ _ hs =>
    obtain ⟨hf, hm, _, hid⟩ := setupGameData_shape _ _ _ _ _ _ hs
    exact ⟨hid, by rw [hm]; exact List.nodup_nil, by rw [hm]; simp, by rw [hf]; simp⟩
  | reset foodData shuffle1 shuffle2 fuel s0 s _ _ _ hs _ =>
    obtain ⟨hf, hm, _, hid⟩ := setupGameData_shape _ _ _ _ _ _ hs
    exact ⟨hid, by rw [hm]; exact List.nodup_nil, by rw [hm]; simp, by rw [hf]; simp⟩
  | tap s card _ hc ih => exact handleCardClick_deckInv s card ih hc
  | flipBack s _ ih =>
    unfold flipBackTimeout
    split
    · exact ih
    · exact ⟨ih.1, ih.2.1, ih.2.2.1, by simp⟩
  | tick s _ ih =>
    unfold timerTick
    split
    · split
      · exact ih
      · exact ih
    · exact ih
  | dialog s _ ih => exact ih

/-- The state `eightDishesGame` is the result of the first setup. -/
theorem eightDishesGame_reachable : Reachable eightDishesGame :=
  Reachable.setup eightDishes id id 9 eightDishesGame (fun l => List.Perm.refl l)
    (fun l => List.Perm.refl l) (by decide)

end FoodMemoryGame

/-- C1 (as stated, refuted): on a catalog of exactly three dishes the deck has
16 cards but only 3 distinct identities, and it is not the case that every
identity on the deck is on exactly two cards (the identity of the first card is
on six). -/
theorem FoodMemoryGame.three_dishes_deck_not_pairs :
    ∃ s, FoodMemoryGame.setupGameData FoodMemoryGame.threeDishes id id 9
        FoodMemoryGame.initialState = some s ∧
      s.cards.length = 16 ∧ FoodMemoryGame.distinctSlugs s.cards = 3 ∧
      FoodMemoryGame.slugCount "pho" s.cards = 6 ∧
      ¬ (∀ c ∈ s.cards, FoodMemoryGame.slugCount c.slug s.cards = 2) := by
  refine ⟨_, rfl, by decide, by decide, by decide, by decide⟩

/-- C1 (amended): for every catalog with an entry of non-empty slug, every
outcome of the two shuffles and fuel above `TOTAL_PAIRS`, the setup returns a
state whose deck has `2 * TOTAL_PAIRS = 16` cards, numbered by position, all
face-down and unmatched, and on which every identity occurs twice as often as
it was selected (so an even number of times).  When the valid entries number at
least `TOTAL_PAIRS` and have pairwise distinct slugs, every identity on the deck
is on exactly two cards and there are `TOTAL_PAIRS = 8` distinct identities. -/
theorem FoodMemoryGame.setupGameData_deck_pairs (foodData : List FoodMemoryGame.Food)
    (shuffle1 shuffle2 : List FoodMemoryGame.Food → List FoodMemoryGame.Food)
    (fuel : Nat) (s0 : FoodMemoryGame.State)
    (hcat : ∃ f ∈ foodData, f.slug ≠ "")
    (h1 : ∀ l, (shuffle1 l).Perm l) (h2 : ∀ l, (shuffle2 l).Perm l)
    (hfuel : FoodMemoryGame.TOTAL_PAIRS < fuel) :
    ∃ selected s,
      FoodMemoryGame.selectFoods foodData shuffle1 fuel = some selected ∧
      FoodMemoryGame.setupGameData foodData shuffle1 shuffle2 fuel s0 = some s ∧
      selected.length = FoodMemoryGame.TOTAL_PAIRS ∧
      s.cards.length = 2 * FoodMemoryGame.TOTAL_PAIRS ∧
      (∀ i (h : i < s.cards.length), (s.cards.get ⟨i, h⟩).uniqueId = i) ∧
      s.flippedCards = [] ∧ s.matchedCards = [] ∧
      (∀ slug, FoodMemoryGame.slugCount slug s.cards
        = 2 * (selected.map FoodMemoryGame.Food.slug).count slug) ∧
      (FoodMemoryGame.TOTAL_PAIRS ≤ (foodData.filter (fun f => decide (f.slug ≠ ""))).length →
        ((foodData.filter (fun f => decide (f.slug ≠ ""))).map
          FoodMemoryGame.Food.slug).Nodup →
        (∀ c ∈ s.cards, FoodMemoryGame.slugCount c.slug s.cards = 2) ∧
        FoodMemoryGame.distinctSlugs s.cards = FoodMemoryGame.TOTAL_PAIRS) := by
  obtain ⟨selected, hsel, hlen, htake⟩ :=
    FoodMemoryGame.selectFoods_some foodData shuffle1 fuel hcat h1 hfuel
  have hs : FoodMemoryGame.setupGameData foodData shuffle1 shuffle2 fuel s0
      = some { cards := FoodMemoryGame.buildDeck selected shuffle2, flippedCards := [],
               matchedCards := [], timeLeft := FoodMemoryGame.TIME_LIMIT,
               lives := FoodMemoryGame.MAX_LIVES, disableClick := false,
               gameState := FoodMemoryGame.GameStatus.playing, openDialog := false,
               pendingFlipBacks := s0.pendingFlipBacks } := by
    simp only [FoodMemoryGame.setupGameData, hsel]
  refine ⟨selected, _, hsel, hs, hlen, ?_, ?_, rfl, rfl, ?_, ?_⟩
  · show (FoodMemoryGame.buildDeck selected shuffle2).length = _
    rw [FoodMemoryGame.length_buildDeck selected shuffle2 h2, hlen]
  · intro i h
    exact FoodMemoryGame.buildDeck_uniqueId selected shuffle2 i h
  · intro slug
    exact FoodMemoryGame.slugCount_buildDeck selected shuffle2 h2 slug
  · intro hbig hnodup
    have hselnd : (selected.map FoodMemoryGame.Food.slug).Nodup := by
      rw [htake hbig, List.map_take]
      exact (((h1 _).map FoodMemoryGame.Food.slug).nodup_iff.mpr hnodup).sublist
        (List.take_sublist _ _)
    have hcount : ∀ x, FoodMemoryGame.slugCount x (FoodMemoryGame.buildDeck selected shuffle2)
        = 2 * (selected.map FoodMemoryGame.Food.slug).count x :=
      fun x => FoodMemoryGame.slugCount_buildDeck selected shuffle2 h2 x
    have hmem : ∀ x, x ∈ (FoodMemoryGame.buildDeck selected shuffle2).map
        FoodMemoryGame.Card.slug ↔ x ∈ selected.map FoodMemoryGame.Food.slug := by
      intro x
      rw [← List.count_pos_iff, ← List.count_pos_iff]
      have := hcount x
      unfold FoodMemoryGame.slugCount at this
      omega
    constructor
    · intro c hc
      show FoodMemoryGame.slugCount c.slug (FoodMemoryGame.buildDeck selected shuffle2) = 2
      have hin : c.slug ∈ selected.map FoodMemoryGame.Food.slug :=
        (hmem c.slug).mp (List.mem_map_of_mem _ hc)
      rw [hcount, List.count_eq_one_of_mem hselnd hin]
    · show ((FoodMemoryGame.buildDeck selected shuffle2).map
        FoodMemoryGame.Card.slug).dedup.length = _
      have hperm : ((FoodMemoryGame.buildDeck selected shuffle2).map
          FoodMemoryGame.Card.slug).dedup.Perm (selected.map FoodMemoryGame.Food.slug) := by
        rw [List.perm_ext_iff_of_nodup (List.nodup_dedup _) hselnd]
        intro x
        rw [List.mem_dedup]
        exact hmem x
      rw [hperm.length_eq, List.length_map, hlen]

/-- C1 (amended), at a catalog of eight dishes with distinct slugs and the
identity shuffles. -/
theorem FoodMemoryGame.setupGameData_deck_pairs_witness :
    ∃ selected s,
      FoodMemoryGame.selectFoods FoodMemoryGame.eightDishes id 9 = some selected ∧
      FoodMemoryGame.setupGameData FoodMemoryGame.eightDishes id id 9
        FoodMemoryGame.initialState = some s ∧
      selected.length = FoodMemoryGame.TOTAL_PAIRS ∧
      s.cards.length = 2 * FoodMemoryGame.TOTAL_PAIRS ∧
      (∀ i (h : i < s.cards.length), (s.cards.get ⟨i, h⟩).uniqueId = i) ∧
      s.flippedCards = [] ∧ s.matchedCards = [] ∧
      (∀ slug, FoodMemoryGame.slugCount slug s.cards
        = 2 * (selected.map FoodMemoryGame.Food.slug).count slug) ∧
      (FoodMemoryGame.TOTAL_PAIRS
          ≤ (FoodMemoryGame.eightDishes.filter (fun f => decide (f.slug ≠ ""))).length →
        ((FoodMemoryGame.eightDishes.filter (fun f => decide (f.slug ≠ ""))).map
          FoodMemoryGame.Food.slug).Nodup →
        (∀ c ∈ s.cards, FoodMemoryGame.slugCount c.slug s.cards = 2) ∧
        FoodMemoryGame.distinctSlugs s.cards = FoodMemoryGame.TOTAL_PAIRS) :=
  FoodMemoryGame.setupGameData_deck_pairs FoodMemoryGame.eightDishes id id 9
    FoodMemoryGame.initialState
    ⟨{ name := "Pho", slug := "pho", imageUrl := "" }, by decide, by decide⟩
    (fun l => List.Perm.refl l) (fun l => List.Perm.refl l) (by decide)

/-- C2: in every state reachable from a completed setup through card taps,
flip-back timeouts, timer ticks and resets, at most two cards are flipped;
whenever exactly two are flipped `disableClick` is true, and then a tap on any
card changes nothing. -/
theorem FoodMemoryGame.reachable_flipped_le_two (s : FoodMemoryGame.State)
    (hr : FoodMemoryGame.Reachable s) :
    s.flippedCards.length ≤ 2 ∧
      (s.flippedCards.length = 2 →
        s.disableClick = true ∧ ∀ card, FoodMemoryGame.handleCardClick s card = s) := by
  have h := FoodMemoryGame.reachable_flipInv s hr
  refine ⟨h.1, fun h2 => ?_⟩
  have hd : s.disableClick = true := by
    cases hdis : s.disableClick with
    | true => rfl
    | false => have := h.2 hdis; omega
  refine ⟨hd, fun card => ?_⟩
  unfold FoodMemoryGame.handleCardClick
  rw [if_pos (Or.inr hd)]

/-- C2, at the state after tapping card 0 ("pho") and card 2 ("banh_mi") of
`eightDishesGame`: two cards are flipped and input is disabled. -/
theorem FoodMemoryGame.reachable_flipped_le_two_witness :
    FoodMemoryGame.mismatchFlipped.flippedCards.length = 2 ∧
    (FoodMemoryGame.mismatchFlipped.flippedCards.length ≤ 2 ∧
      (FoodMemoryGame.mismatchFlipped.flippedCards.length = 2 →
        FoodMemoryGame.mismatchFlipped.disableClick = true ∧
        ∀ card, FoodMemoryGame.handleCardClick FoodMemoryGame.mismatchFlipped card
          = FoodMemoryGame.mismatchFlipped)) :=
  ⟨by decide,
   FoodMemoryGame.reachable_flipped_le_two FoodMemoryGame.mismatchFlipped
    (FoodMemoryGame.Reachable.tap _ _
      (FoodMemoryGame.Reachable.tap _ _ FoodMemoryGame.eightDishesGame_reachable (by decide))
      (by decide))⟩

/-- C10: in a reachable state that is 'playing' with input enabled and exactly
one flipped card `c1`, a tap on a different, unmatched card `c2` of the deck
with the same slug appends both uniqueIds to `matchedCards`, clears
`flippedCards`, leaves `disableClick` false and `lives` (and the deck)
unchanged, and sets the game to 'won' if and only if every card of the deck is
then matched; otherwise the game stays 'playing'. -/
theorem FoodMemoryGame.handleCardClick_match (s : FoodMemoryGame.State)
    (c1 c2 : FoodMemoryGame.Card) (hr : FoodMemoryGame.Reachable s)
    (hplay : s.gameState = FoodMemoryGame.GameStatus.playing)
    (hen : s.disableClick = false) (hflip : s.flippedCards = [c1])
    (hc2 : c2 ∈ s.cards) (hne : c2 ≠ c1) (hun : c2.uniqueId ∉ s.matchedCards)
    (hslug : c2.slug = c1.slug) :
    (FoodMemoryGame.handleCardClick s c2).matchedCards
        = s.matchedCards ++ [c1.uniqueId, c2.uniqueId] ∧
      (FoodMemoryGame.handleCardClick s c2).flippedCards = [] ∧
      (FoodMemoryGame.handleCardClick s c2).disableClick = false ∧
      (FoodMemoryGame.handleCardClick s c2).lives = s.lives ∧
      (FoodMemoryGame.handleCardClick s c2).cards = s.cards ∧
      ((FoodMemoryGame.handleCardClick s c2).gameState = FoodMemoryGame.GameStatus.won ↔
        ∀ c ∈ s.cards, c.uniqueId ∈ (FoodMemoryGame.handleCardClick s c2).matchedCards) ∧
      ((FoodMemoryGame.handleCardClick s c2).gameState ≠ FoodMemoryGame.GameStatus.won →
        (FoodMemoryGame.handleCardClick s c2).gameState
          = FoodMemoryGame.GameStatus.playing) := by
  have hinv := FoodMemoryGame.reachable_deckInv s hr
  have hc1 := hinv.2.2.2 c1 (by rw [hflip]; exact List.mem_singleton_self _)
  have hid : c1.uniqueId ≠ c2.uniqueId := fun h =>
    hne (FoodMemoryGame.eq_of_uniqueId_eq s hinv c1 c2 hc1.1 hc2 h).symm
  have hlt1 := FoodMemoryGame.uniqueId_lt_of_mem s hinv c1 hc1.1
  have hlt2 := FoodMemoryGame.uniqueId_lt_of_mem s hinv c2 hc2
  have hnd : (s.matchedCards ++ [c1.uniqueId, c2.uniqueId]).Nodup := by
    rw [List.nodup_append]
    refine ⟨hinv.2.1, by simp [hid], ?_⟩
    intro x hx hx2
    simp only [List.mem_cons, List.mem_singleton, List.not_mem_nil, or_false] at hx2
    rcases hx2 with rfl | rfl
    · exact hc1.2 hx
    · exact hun hx
  have hbound : ∀ x ∈ s.matchedCards ++ [c1.uniqueId, c2.uniqueId], x < s.cards.length := by
    intro x hx
    simp only [List.mem_append, List.mem_cons, List.mem_singleton, List.not_mem_nil,
      or_false] at hx
    rcases hx with hx | rfl | rfl
    · exact hinv.2.2.1 x hx
    · exact hlt1
    · exact hlt2
  have hiff := FoodMemoryGame.nodup_length_eq_iff _ _ hnd hbound
  have hall : (∀ i, i < s.cards.length → i ∈ s.matchedCards ++ [c1.uniqueId, c2.uniqueId]) ↔
      ∀ c ∈ s.cards, c.uniqueId ∈ s.matchedCards ++ [c1.uniqueId, c2.uniqueId] := by
    constructor
    · intro h c hc
      exact h _ (FoodMemoryGame.uniqueId_lt_of_mem s hinv c hc)
    · intro h i hi
      have := h (s.cards.get ⟨i, hi⟩) (List.get_mem _ _ _)
      rwa [hinv.1 i hi] at this
  have hstep : FoodMemoryGame.handleCardClick s c2
      = FoodMemoryGame.checkForMatch
          { s with flippedCards := [c1, c2], disableClick := true } c1 c2 := by
    unfold FoodMemoryGame.handleCardClick
    rw [if_neg (by simp [hplay, hen]), if_neg (by simp [hflip, hun, hid]), hflip]
    rfl
  rw [hstep]
  unfold FoodMemoryGame.checkForMatch FoodMemoryGame.endGame
  dsimp only
  rw [if_pos hslug.symm]
  by_cases hlen : (s.matchedCards ++ [c1.uniqueId, c2.uniqueId]).length = s.cards.length
  · rw [if_pos hlen]
    refine ⟨rfl, rfl, rfl, rfl, rfl, ?_, fun h => absurd rfl h⟩
    exact ⟨fun _ => hall.mp (hiff.mp hlen), fun _ => rfl⟩
  · rw [if_neg hlen]
    refine ⟨rfl, rfl, rfl, rfl, rfl, ?_, fun _ => hplay⟩
    constructor
    · intro h
      rw [hplay] at h
      exact absurd h (by decide)
    · intro h
      exact absurd (hiff.mpr (hall.mpr h)) hlen

/-- C10, at `phoFlipped` (card 0, "pho", is flipped) and a tap on card 1, the
other "pho" card: ids 0 and 1 become matched and the game stays 'playing',
since 14 cards are still unmatched. -/
theorem FoodMemoryGame.handleCardClick_match_witness :
    (FoodMemoryGame.handleCardClick FoodMemoryGame.phoFlipped
        (FoodMemoryGame.plainCard "pho" 1)).matchedCards
        = FoodMemoryGame.phoFlipped.matchedCards
          ++ [(FoodMemoryGame.plainCard "pho" 0).uniqueId,
              (FoodMemoryGame.plainCard "pho" 1).uniqueId] ∧
      (FoodMemoryGame.handleCardClick FoodMemoryGame.phoFlipped
        (FoodMemoryGame.plainCard "pho" 1)).flippedCards = [] ∧
      (FoodMemoryGame.handleCardClick FoodMemoryGame.phoFlipped
        (FoodMemoryGame.plainCard "pho" 1)).disableClick = false ∧
      (FoodMemoryGame.handleCardClick FoodMemoryGame.phoFlipped
        (FoodMemoryGame.plainCard "pho" 1)).lives = FoodMemoryGame.phoFlipped.lives ∧
      (FoodMemoryGame.handleCardClick FoodMemoryGame.phoFlipped
        (FoodMemoryGame.plainCard "pho" 1)).cards = FoodMemoryGame.phoFlipped.cards ∧
      ((FoodMemoryGame.handleCardClick FoodMemoryGame.phoFlipped
          (FoodMemoryGame.plainCard "pho" 1)).gameState = FoodMemoryGame.GameStatus.won ↔
        ∀ c ∈ FoodMemoryGame.phoFlipped.cards,
          c.uniqueId ∈ (FoodMemoryGame.handleCardClick FoodMemoryGame.phoFlipped
            (FoodMemoryGame.plainCard "pho" 1)).matchedCards) ∧
      ((FoodMemoryGame.handleCardClick FoodMemoryGame.phoFlipped
          (FoodMemoryGame.plainCard "pho" 1)).gameState ≠ FoodMemoryGame.GameStatus.won →
        (FoodMemoryGame.handleCardClick FoodMemoryGame.phoFlipped
          (FoodMemoryGame.plainCard "pho" 1)).gameState
          = FoodMemoryGame.GameStatus.playing) :=
  FoodMemoryGame.handleCardClick_match FoodMemoryGame.phoFlipped
    (FoodMemoryGame.plainCard "pho" 0) (FoodMemoryGame.plainCard "pho" 1)
    (FoodMemoryGame.Reachable.tap _ _ FoodMemoryGame.eightDishesGame_reachable (by decide))
    (by decide) (by decide) (by decide) (by decide) (by decide) (by decide) (by decide)

/-! ## Theorems: puzzle game -/

/-- The win test holds exactly when every slot `i` of the board holds the piece
with id `i`. -/
theorem PuzzleGame.boardSolved_iff (board : List (Option PuzzleGame.Piece)) :
    PuzzleGame.boardSolved board = true ↔
      ∀ i, i < board.length → board.get? i = some (some { id := i }) := by
  unfold PuzzleGame.boardSolved
  rw [List.all_eq_true]
  constructor
  · intro h i hi
    have hmem : (i, board.get ⟨i, hi⟩) ∈ board.enum := by
      rw [List.mk_mem_enum_iff_getElem?]
      simp
    have := h _ hmem
    rw [List.get?_eq_get hi]
    cases hb : board.get ⟨i, hi⟩ with
    | none => rw [hb] at this; simp at this
    | some p =>
      rw [hb] at this
      simp only [decide_eq_true_eq] at this
      cases p
      simp only at this
      subst this
      rfl
  · intro h ip hip
    rw [List.mem_enum_iff_getElem?] at hip
    have hlt : ip.1 < board.length := by
      by_contra hge
      rw [List.getElem?_eq_none (by omega)] at hip
      exact absurd hip (by simp)
    have := h ip.1 hlt
    rw [List.get?_eq_getElem?, hip] at this
    simp only [Option.some.injEq] at this
    rw [this]
    simp

/-- A placement sets `isSolved` to its previous value or the win test of the
board it produces, and keeps the number of slots. -/
theorem PuzzleGame.placeOnBoard_isSolved (s : PuzzleGame.State) (held : PuzzleGame.Held)
    (targetIndex : Nat) :
    (PuzzleGame.placeOnBoard s held targetIndex).isSolved
        = (s.isSolved || PuzzleGame.boardSolved (PuzzleGame.placeOnBoard s held targetIndex).board)
      ∧ (PuzzleGame.placeOnBoard s held targetIndex).board.length = s.board.length := by
  unfold PuzzleGame.placeOnBoard PuzzleGame.removeFromSource
  cases held.source <;> cases (s.board.get? targetIndex).join <;> simp

/-- C3 (failing input): from the new game `orderedDeal`, the page offers the
moves of `staleSelectionMoves` one after the other, the state they lead to is
reachable, and in it piece 0 lies on two board slots, so the pieces are no
longer partitioned. -/
theorem PuzzleGame.stale_selection_duplicates_piece :
    PuzzleGame.runEnabled PuzzleGame.orderedDeal PuzzleGame.staleSelectionMoves ∧
      PuzzleGame.Reachable
        (PuzzleGame.run PuzzleGame.orderedDeal PuzzleGame.staleSelectionMoves) ∧
      (PuzzleGame.run PuzzleGame.orderedDeal PuzzleGame.staleSelectionMoves).board.take 2
        = [some { id := 0 }, some { id := 0 }] ∧
      PuzzleGame.occurrences
        (PuzzleGame.run PuzzleGame.orderedDeal PuzzleGame.staleSelectionMoves) 0 = 2 ∧
      ¬ PuzzleGame.Partitioned
        (PuzzleGame.run PuzzleGame.orderedDeal PuzzleGame.staleSelectionMoves) := by
  have h1 : PuzzleGame.Event.enabled PuzzleGame.orderedDeal
      (PuzzleGame.Event.pieceClick { id := 0 } PuzzleGame.Source.left) := by
    show _ ∧ _
    decide
  have h2 : PuzzleGame.Event.enabled
      (PuzzleGame.step PuzzleGame.orderedDeal
        (PuzzleGame.Event.pieceClick { id := 0 } PuzzleGame.Source.left))
      (PuzzleGame.Event.dragStart { id := 0 } PuzzleGame.Source.left) := by
    show _ ∧ _
    decide
  have h3 : ∀ t, PuzzleGame.Event.enabled t (PuzzleGame.Event.drop 0) := by
    intro t
    show 0 < PuzzleGame.TOTAL_PIECES
    decide
  have h4 : ∀ t, PuzzleGame.Event.enabled t (PuzzleGame.Event.slotClick 1) := by
    intro t
    show 1 < PuzzleGame.TOTAL_PIECES
    decide
  refine ⟨⟨h1, h2, h3 _, h4 _, trivial⟩, ?_, by decide, by decide, by decide⟩
  exact PuzzleGame.Reachable.next _ _
    (PuzzleGame.Reachable.next _ _
      (PuzzleGame.Reachable.next _ _
        (PuzzleGame.Reachable.next _ _
          (PuzzleGame.Reachable.start id (fun l => List.Perm.refl l)) h1) h2) (h3 _)) (h4 _)

/-- C4: in an unsolved state with twelve board slots, a placement on a board
slot, by `handleDropToBoard` with a dragged item or by `handleBoardClick` with
a selected piece, leaves `isSolved` true if and only if in the board it
produces (after the source removal and any swap) each of the twelve slots `i`
holds the piece with id `i`. -/
theorem PuzzleGame.placement_solved_iff (s : PuzzleGame.State) (held : PuzzleGame.Held)
    (targetIndex : Nat) (hun : s.isSolved = false)
    (hlen : s.board.length = PuzzleGame.TOTAL_PIECES)
    (_ht : targetIndex < PuzzleGame.TOTAL_PIECES) :
    (s.draggedItem = some held →
      ((PuzzleGame.handleDropToBoard s targetIndex).isSolved = true ↔
        ∀ i, i < PuzzleGame.TOTAL_PIECES →
          (PuzzleGame.handleDropToBoard s targetIndex).board.get? i = some (some { id := i })) ∧
      (PuzzleGame.handleDropToBoard s targetIndex).board
        = (PuzzleGame.placeOnBoard s held targetIndex).board) ∧
    (s.selectedPiece = some held →
      ((PuzzleGame.handleBoardClick s targetIndex).isSolved = true ↔
        ∀ i, i < PuzzleGame.TOTAL_PIECES →
          (PuzzleGame.handleBoardClick s targetIndex).board.get? i = some (some { id := i })) ∧
      (PuzzleGame.handleBoardClick s targetIndex).board
        = (PuzzleGame.placeOnBoard s held targetIndex).board) := by
  obtain ⟨hsolved, hlen2⟩ := PuzzleGame.placeOnBoard_isSolved s held targetIndex
  have key : (PuzzleGame.placeOnBoard s held targetIndex).isSolved = true ↔
      ∀ i, i < PuzzleGame.TOTAL_PIECES →
        (PuzzleGame.placeOnBoard s held targetIndex).board.get? i = some (some { id := i }) := by
    rw [hsolved, hun, Bool.false_or, PuzzleGame.boardSolved_iff, hlen2, hlen]
  constructor
  · intro hd
    have e : PuzzleGame.handleDropToBoard s targetIndex
        = { PuzzleGame.placeOnBoard s held targetIndex with draggedItem := none } := by
      unfold PuzzleGame.handleDropToBoard
      rw [hd]
    rw [e]
    exact ⟨key, rfl⟩
  · intro hsel
    have e : PuzzleGame.handleBoardClick s targetIndex
        = { PuzzleGame.placeOnBoard s held targetIndex with selectedPiece := none } := by
      unfold PuzzleGame.handleBoardClick
      rw [if_neg (by simp [hun]), hsel]
    rw [e]
    exact ⟨key, rfl⟩

/-- C4, at `oneMoveLeft` and the placement of piece 11 on slot 11: both
handlers set `isSolved`, and the twelve slots then hold their own pieces. -/
theorem PuzzleGame.placement_solved_iff_witness :
    (PuzzleGame.handleDropToBoard PuzzleGame.oneMoveLeft 11).isSolved = true ∧
    (PuzzleGame.handleBoardClick PuzzleGame.oneMoveLeft 11).isSolved = true ∧
    ((PuzzleGame.oneMoveLeft.draggedItem
        = some { item := { id := 11 }, source := PuzzleGame.Source.bottom } →
      ((PuzzleGame.handleDropToBoard PuzzleGame.oneMoveLeft 11).isSolved = true ↔
        ∀ i, i < PuzzleGame.TOTAL_PIECES →
          (PuzzleGame.handleDropToBoard PuzzleGame.oneMoveLeft 11).board.get? i
            = some (some { id := i })) ∧
      (PuzzleGame.handleDropToBoard PuzzleGame.oneMoveLeft 11).board
        = (PuzzleGame.placeOnBoard PuzzleGame.oneMoveLeft
            { item := { id := 11 }, source := PuzzleGame.Source.bottom } 11).board) ∧
    (PuzzleGame.oneMoveLeft.selectedPiece
        = some { item := { id := 11 }, source := PuzzleGame.Source.bottom } →
      ((PuzzleGame.handleBoardClick PuzzleGame.oneMoveLeft 11).isSolved = true ↔
        ∀ i, i < PuzzleGame.TOTAL_PIECES →
          (PuzzleGame.handleBoardClick PuzzleGame.oneMoveLeft 11).board.get? i
            = some (some { id := i })) ∧
      (PuzzleGame.handleBoardClick PuzzleGame.oneMoveLeft 11).board
        = (PuzzleGame.placeOnBoard PuzzleGame.oneMoveLeft
            { item := { id := 11 }, source := PuzzleGame.Source.bottom } 11).board)) :=
  ⟨by decide, by decide,
   PuzzleGame.placement_solved_iff PuzzleGame.oneMoveLeft
    { item := { id := 11 }, source := PuzzleGame.Source.bottom } 11
    (by decide) (by decide) (by decide)⟩

/-! ## Theorems: hangman -/

/-- A guess never lowers the wrong counter. -/
theorem HangmanGame.wrongCount_le_handleGuess (s : HangmanGame.State) (letter : Char) :
    s.wrongCount ≤ (HangmanGame.handleGuess s letter).wrongCount := by
  unfold HangmanGame.handleGuess
  dsimp only
  split_ifs <;> simp

/-- A hint never lowers the wrong counter. -/
theorem HangmanGame.wrongCount_le_useHint (s : HangmanGame.State) (random : Nat) :
    s.wrongCount ≤ (HangmanGame.useHint s random).wrongCount := by
  unfold HangmanGame.useHint
  split
  · exact Nat.le_refl _
  · split
    · exact HangmanGame.wrongCount_le_handleGuess s _
    · exact Nat.le_refl _

/-- A guess preserves the round invariant. -/
theorem HangmanGame.handleGuess_roundInv (s : HangmanGame.State) (letter : Char)
    (h : HangmanGame.RoundInv s) : HangmanGame.RoundInv (HangmanGame.handleGuess s letter) := by
  unfold HangmanGame.handleGuess
  by_cases hp : s.status = HangmanGame.Status.playing
  · have hlt : s.wrongCount < HangmanGame.MAX_WRONG := by
      have hne : s.wrongCount ≠ HangmanGame.MAX_WRONG := by
        intro heq
        have := h.2.mpr heq
        rw [hp] at this
        exact absurd this (by decide)
      have := h.1
      omega
    unfold HangmanGame.RoundInv
    unfold HangmanGame.MAX_WRONG at hlt ⊢
    dsimp only
    rw [if_neg (by simp [hp])]
    split_ifs <;> simp_all <;> omega
  · rw [if_pos hp]
    exact h

/-- A hint preserves the round invariant. -/
theorem HangmanGame.useHint_roundInv (s : HangmanGame.State) (random : Nat)
    (h : HangmanGame.RoundInv s) : HangmanGame.RoundInv (HangmanGame.useHint s random) := by
  unfold HangmanGame.useHint
  split
  · exact h
  · split
    · exact HangmanGame.handleGuess_roundInv s _ h
    · exact h

/-- Every reachable round satisfies the round invariant. -/
theorem HangmanGame.reachable_roundInv (s : HangmanGame.State) (hr : HangmanGame.Reachable s) :
    HangmanGame.RoundInv s := by
  induction hr with
  | start toUpperCase name =>
    exact ⟨Nat.zero_le _, by simp [HangmanGame.startNewGame, HangmanGame.MAX_WRONG]⟩
  | guess s letter _ ih => exact HangmanGame.handleGuess_roundInv s letter ih
  | hint s random _ ih => exact HangmanGame.useHint_roundInv s random ih

/-- C5: in every state reachable from `startNewGame` through letter guesses and
hints, `wrongCount ≤ MAX_WRONG` and the status is 'lost' exactly when
`wrongCount = MAX_WRONG`; no guess and no hint decreases `wrongCount`; and a
guess or hint after which `wrongCount = MAX_WRONG` leaves the status 'lost'. -/
theorem HangmanGame.reachable_wrongCount (s : HangmanGame.State)
    (hr : HangmanGame.Reachable s) :
    s.wrongCount ≤ HangmanGame.MAX_WRONG ∧
      (s.status = HangmanGame.Status.lost ↔ s.wrongCount = HangmanGame.MAX_WRONG) ∧
      (∀ letter, s.wrongCount ≤ (HangmanGame.handleGuess s letter).wrongCount ∧
        ((HangmanGame.handleGuess s letter).wrongCount = HangmanGame.MAX_WRONG →
          (HangmanGame.handleGuess s letter).status = HangmanGame.Status.lost)) ∧
      (∀ random, s.wrongCount ≤ (HangmanGame.useHint s random).wrongCount ∧
        ((HangmanGame.useHint s random).wrongCount = HangmanGame.MAX_WRONG →
          (HangmanGame.useHint s random).status = HangmanGame.Status.lost)) := by
  have h := HangmanGame.reachable_roundInv s hr
  refine ⟨h.1, h.2, fun letter => ⟨HangmanGame.wrongCount_le_handleGuess s letter, ?_⟩,
    fun random => ⟨HangmanGame.wrongCount_le_useHint s random, ?_⟩⟩
  · exact (HangmanGame.handleGuess_roundInv s letter h).2.mpr
  · exact (HangmanGame.useHint_roundInv s random h).2.mpr

/-- C5, at the round `beefRound` (target "BEEF NOODLE", `B` guessed). -/
theorem HangmanGame.reachable_wrongCount_witness :
    HangmanGame.beefRound.targetWord = "BEEF NOODLE" ∧
    (HangmanGame.beefRound.wrongCount ≤ HangmanGame.MAX_WRONG ∧
      (HangmanGame.beefRound.status = HangmanGame.Status.lost
        ↔ HangmanGame.beefRound.wrongCount = HangmanGame.MAX_WRONG) ∧
      (∀ letter, HangmanGame.beefRound.wrongCount
          ≤ (HangmanGame.handleGuess HangmanGame.beefRound letter).wrongCount ∧
        ((HangmanGame.handleGuess HangmanGame.beefRound letter).wrongCount
            = HangmanGame.MAX_WRONG →
          (HangmanGame.handleGuess HangmanGame.beefRound letter).status
            = HangmanGame.Status.lost)) ∧
      (∀ random, HangmanGame.beefRound.wrongCount
          ≤ (HangmanGame.useHint HangmanGame.beefRound random).wrongCount ∧
        ((HangmanGame.useHint HangmanGame.beefRound random).wrongCount
            = HangmanGame.MAX_WRONG →
          (HangmanGame.useHint HangmanGame.beefRound random).status
            = HangmanGame.Status.lost))) :=
  ⟨by decide,
   HangmanGame.reachable_wrongCount HangmanGame.beefRound
    (HangmanGame.Reachable.guess _ _ (HangmanGame.Reachable.start _ _))⟩

/-- C6: for a round that is 'playing' and a letter that is already in
`guessedLetters` (in the target word or not), `handleGuess` increments
`wrongCount` by exactly 1, leaves `guessedLetters` (and the target word and
`hintUsed`) unchanged, and sets the status to 'lost' if and only if the new
`wrongCount` is at least `MAX_WRONG`, the round staying 'playing' otherwise;
the resulting `wrongCount` and status are those a first-time guess of a letter
that is not in the target word produces. -/
theorem HangmanGame.handleGuess_repeated (s : HangmanGame.State) (letter : Char)
    (hplay : s.status = HangmanGame.Status.playing) (hmem : letter ∈ s.guessedLetters) :
    (HangmanGame.handleGuess s letter).wrongCount = s.wrongCount + 1 ∧
      (HangmanGame.handleGuess s letter).guessedLetters = s.guessedLetters ∧
      (HangmanGame.handleGuess s letter).targetWord = s.targetWord ∧
      (HangmanGame.handleGuess s letter).hintUsed = s.hintUsed ∧
      ((HangmanGame.handleGuess s letter).status = HangmanGame.Status.lost ↔
        s.wrongCount + 1 ≥ HangmanGame.MAX_WRONG) ∧
      ((HangmanGame.handleGuess s letter).status ≠ HangmanGame.Status.lost →
        (HangmanGame.handleGuess s letter).status = HangmanGame.Status.playing) ∧
      (∀ other, other ∉ s.guessedLetters → other ∉ s.targetWord.toList →
        (HangmanGame.handleGuess s other).wrongCount
            = (HangmanGame.handleGuess s letter).wrongCount ∧
          (HangmanGame.handleGuess s other).status
            = (HangmanGame.handleGuess s letter).status) := by
  have e : HangmanGame.handleGuess s letter
      = { s with wrongCount := s.wrongCount + 1,
                 status := if s.wrongCount + 1 ≥ HangmanGame.MAX_WRONG
                   then HangmanGame.Status.lost else s.status } := by
    unfold HangmanGame.handleGuess
    rw [if_neg (by simp [hplay]), if_pos (by simpa using hmem)]
  rw [e]
  refine ⟨rfl, rfl, rfl, rfl, ?_, ?_, ?_⟩
  · by_cases hw : s.wrongCount + 1 ≥ HangmanGame.MAX_WRONG
    · simp [hw]
    · simp [hw, hplay]
  · by_cases hw : s.wrongCount + 1 ≥ HangmanGame.MAX_WRONG
    · simp [hw]
    · simp [hw, hplay]
  · intro other ho ht
    have e2 : HangmanGame.handleGuess s other
        = { s with guessedLetters := s.guessedLetters ++ [other],
                   wrongCount := s.wrongCount + 1,
                   status := if s.wrongCount + 1 ≥ HangmanGame.MAX_WRONG
                     then HangmanGame.Status.lost else s.status } := by
      unfold HangmanGame.handleGuess
      rw [if_neg (by simp [hplay]), if_neg (by simpa using ho)]
      dsimp only
      rw [if_pos (by simpa using ht)]
    rw [e2]
    exact ⟨rfl, rfl⟩

/-- C6, at `beefRound` and the letter `B`, which is in the target word and was
guessed before: the repeated guess costs one wrong guess. -/
theorem HangmanGame.handleGuess_repeated_witness :
    HangmanGame.beefRound.wrongCount = 0 ∧
    (HangmanGame.handleGuess HangmanGame.beefRound 'B').wrongCount = 1 ∧
    ((HangmanGame.handleGuess HangmanGame.beefRound 'B').wrongCount
        = HangmanGame.beefRound.wrongCount + 1 ∧
      (HangmanGame.handleGuess HangmanGame.beefRound 'B').guessedLetters
        = HangmanGame.beefRound.guessedLetters ∧
      (HangmanGame.handleGuess HangmanGame.beefRound 'B').targetWord
        = HangmanGame.beefRound.targetWord ∧
      (HangmanGame.handleGuess HangmanGame.beefRound 'B').hintUsed
        = HangmanGame.beefRound.hintUsed ∧
      ((HangmanGame.handleGuess HangmanGame.beefRound 'B').status = HangmanGame.Status.lost ↔
        HangmanGame.beefRound.wrongCount + 1 ≥ HangmanGame.MAX_WRONG) ∧
      ((HangmanGame.handleGuess HangmanGame.beefRound 'B').status ≠ HangmanGame.Status.lost →
        (HangmanGame.handleGuess HangmanGame.beefRound 'B').status
          = HangmanGame.Status.playing) ∧
      (∀ other, other ∉ HangmanGame.beefRound.guessedLetters →
        other ∉ HangmanGame.beefRound.targetWord.toList →
        (HangmanGame.handleGuess HangmanGame.beefRound other).wrongCount
            = (HangmanGame.handleGuess HangmanGame.beefRound 'B').wrongCount ∧
          (HangmanGame.handleGuess HangmanGame.beefRound other).status
            = (HangmanGame.handleGuess HangmanGame.beefRound 'B').status)) :=
  ⟨by decide, by decide,
   HangmanGame.handleGuess_repeated HangmanGame.beefRound 'B' (by decide) (by decide)⟩

/-! ## Theorems: comment pagination and highlight -/

/-- The integer quotient used for page numbers is the ceiling of the rational
quotient by ten. -/
theorem Comments.ceil_div_ten (m : Nat) : ⌈(m : ℚ) / 10⌉₊ = (m + 9) / 10 := by
  apply le_antisymm
  · rw [Nat.ceil_le]
    have h : m ≤ 10 * ((m + 9) / 10) := by omega
    have h2 : (m : ℚ) ≤ 10 * (((m + 9) / 10 : ℕ) : ℚ) := by exact_mod_cast h
    linarith
  · rcases Nat.eq_zero_or_pos ((m + 9) / 10) with h0 | hpos
    · rw [h0]; exact Nat.zero_le _
    · have : (m + 9) / 10 - 1 < ⌈(m : ℚ) / 10⌉₊ := by
        rw [Nat.lt_ceil]
        have h : 10 * ((m + 9) / 10 - 1) < m := by omega
        have h2 : 10 * ((((m + 9) / 10 - 1 : ℕ)) : ℚ) < (m : ℚ) := by exact_mod_cast h
        linarith
      omega

/-- Page `i + 1` shows the ten items that follow the first `10 * i`. -/
theorem Comments.currentComments_succ (comments : List Comments.Comment) (i : Nat) :
    Comments.currentComments comments (i + 1) = (comments.drop (10 * i)).take 10 := by
  unfold Comments.currentComments Comments.slice Comments.COMMENTS_PER_PAGE
  dsimp only
  have h1 : ¬ (((((i + 1 : ℕ) : ℤ) - 1) * ((10 : ℕ) : ℤ)) < 0) := by push_cast; omega
  have h2 : ¬ ((((i + 1 : ℕ) : ℤ) * ((10 : ℕ) : ℤ)) < 0) := by push_cast; omega
  rw [if_neg h1, if_neg h2]
  have e1 : (min ((((i + 1 : ℕ) : ℤ) - 1) * ((10 : ℕ) : ℤ)) (comments.length : ℤ)).toNat
      = min (10 * i) comments.length := by push_cast; omega
  have e2 : (min (((i + 1 : ℕ) : ℤ) * ((10 : ℕ) : ℤ)) (comments.length : ℤ)).toNat
      = min (10 * i + 10) comments.length := by push_cast; omega
  rw [e1, e2]
  apply List.ext_getElem?
  intro k
  rw [List.getElem?_drop, List.getElem?_take, List.getElem?_take, List.getElem?_drop]
  by_cases hk : k < 10
  · rw [if_pos hk]
    by_cases hin : 10 * i + k < comments.length
    · rw [if_pos (by omega)]
      congr 1
      omega
    · rw [if_neg (by omega)]
      exact (List.getElem?_eq_none (by omega)).symm
  · rw [if_neg hk, if_neg (by omega)]

/-- The pieces of ten items each, taken one after the other, make up the whole
list when there are enough of them. -/
theorem Comments.flatMap_chunks {α : Type} :
    ∀ (m : Nat) (l : List α), l.length ≤ 10 * m →
      (List.range m).flatMap (fun i => (l.drop (10 * i)).take 10) = l := by
  intro m
  induction m with
  | zero =>
    intro l hl
    have : l = [] := List.length_eq_zero.mp (by omega)
    subst this
    rfl
  | succ n ih =>
    intro l hl
    rw [List.range_succ_eq_map, List.flatMap_cons, List.flatMap_map]
    have hrest : (List.range n).flatMap (fun a => (l.drop (10 * Nat.succ a)).take 10)
        = (List.range n).flatMap (fun i => ((l.drop 10).drop (10 * i)).take 10) := by
      congr 1
      funext a
      rw [List.drop_drop]
      congr 2
      omega
    rw [hrest, ih (l.drop 10) (by rw [List.length_drop]; omega)]
    exact List.take_append_drop 10 l

/-- C7: with page size 10, page `p` (counted from 1) of a comment list of
length `n` shows the items at indices `10(p-1) .. min(10p, n) - 1` in list
order; the page count is `ceil(n / 10)`; every page before the last shows 10
items, the last shows `n - 10 (ceil(n/10) - 1)`; the pages `1 .. ceil(n/10)`
concatenated are the whole list; and for `n = 23` there are three pages, of 10,
10 and 3 items. -/
theorem Comments.currentComments_pages (comments : List Comments.Comment) :
    Comments.pageCount comments = ⌈(comments.length : ℚ) / 10⌉₊ ∧
    (∀ p, 1 ≤ p →
      (Comments.currentComments comments p).length
          = min (10 * p) comments.length - 10 * (p - 1) ∧
        ∀ k, k < (Comments.currentComments comments p).length →
          (Comments.currentComments comments p).get? k = comments.get? (10 * (p - 1) + k)) ∧
    (∀ p, 1 ≤ p → p < Comments.pageCount comments →
      (Comments.currentComments comments p).length = 10) ∧
    (0 < comments.length →
      (Comments.currentComments comments (Comments.pageCount comments)).length
        = comments.length - 10 * (Comments.pageCount comments - 1)) ∧
    (List.range (Comments.pageCount comments)).flatMap
        (fun i => Comments.currentComments comments (i + 1)) = comments ∧
    (comments.length = 23 →
      Comments.pageCount comments = 3 ∧
      (Comments.currentComments comments 1).length = 10 ∧
      (Comments.currentComments comments 2).length = 10 ∧
      (Comments.currentComments comments 3).length = 3) := by
  have hcount : Comments.pageCount comments = (comments.length + 9) / 10 := rfl
  have hlen : ∀ i, (Comments.currentComments comments (i + 1)).length
      = min 10 (comments.length - 10 * i) := by
    intro i
    rw [Comments.currentComments_succ, List.length_take, List.length_drop]
  refine ⟨?_, ?_, ?_, ?_, ?_, ?_⟩
  · rw [hcount, Comments.ceil_div_ten]
  · intro p hp
    obtain ⟨i, rfl⟩ : ∃ i, p = i + 1 := ⟨p - 1, by omega⟩
    refine ⟨by rw [hlen]; omega, ?_⟩
    intro k hk
    rw [hlen] at hk
    rw [Comments.currentComments_succ, List.get?_eq_getElem?, List.get?_eq_getElem?,
      List.getElem?_take, if_pos (by omega), List.getElem?_drop]
    congr 1
  · intro p hp hlt
    obtain ⟨i, rfl⟩ : ∃ i, p = i + 1 := ⟨p - 1, by omega⟩
    rw [hlen]
    rw [hcount] at hlt
    omega
  · intro hpos
    obtain ⟨i, hi⟩ : ∃ i, Comments.pageCount comments = i + 1 :=
      ⟨Comments.pageCount comments - 1, by rw [hcount]; omega⟩
    rw [hi, hlen]
    rw [hcount] at hi
    omega
  · have h : (fun i => Comments.currentComments comments (i + 1))
        = (fun i => (comments.drop (10 * i)).take 10) := by
      funext i
      exact Comments.currentComments_succ comments i
    rw [h]
    exact Comments.flatMap_chunks _ comments (by rw [hcount]; omega)
  · intro h23
    refine ⟨by rw [hcount, h23], ?_, ?_, ?_⟩
    · rw [hlen 0, h23]; rfl
    · rw [hlen 1, h23]; rfl
    · rw [hlen 2, h23]; rfl

/-- C7, at the 23 comments of `sampleComments`: page 3 shows the three comments
with ids 120, 121 and 122. -/
theorem Comments.currentComments_pages_witness :
    (Comments.currentComments Comments.sampleComments 3).map Comments.Comment.id
      = [120, 121, 122] ∧
    (1 ≤ 3 ∧ Comments.sampleComments.length = 23) ∧
    ((Comments.currentComments Comments.sampleComments 3).length
          = min (10 * 3) Comments.sampleComments.length - 10 * (3 - 1) ∧
        ∀ k, k < (Comments.currentComments Comments.sampleComments 3).length →
          (Comments.currentComments Comments.sampleComments 3).get? k
            = Comments.sampleComments.get? (10 * (3 - 1) + k)) ∧
    (Comments.pageCount Comments.sampleComments = 3 ∧
      (Comments.currentComments Comments.sampleComments 1).length = 10 ∧
      (Comments.currentComments Comments.sampleComments 2).length = 10 ∧
      (Comments.currentComments Comments.sampleComments 3).length = 3) :=
  ⟨by decide, ⟨by decide, by decide⟩,
   (Comments.currentComments_pages Comments.sampleComments).2.1 3 (by decide),
   (Comments.currentComments_pages Comments.sampleComments).2.2.2.2.2 (by decide)⟩

/-- The decimal string of a natural number is never empty. -/
theorem Comments.toString_nat_ne_empty (n : Nat) : toString n ≠ "" := by
  have hlen : 0 < (Nat.toDigits 10 n).length := by
    unfold Nat.toDigits
    rw [Nat.toDigitsCore]
    split
    · simp
    · rw [Nat.toDigitsCore_lens_eq]
      omega
  intro h
  have h2 : (Nat.toDigits 10 n).asString = "" := h
  have h3 : (Nat.toDigits 10 n) = [] := by
    have := congrArg String.data h2
    simpa using this
  rw [h3] at hlen
  simp at hlen

/-- The comment at index `idx` lies on the page `targetPage idx`. -/
theorem Comments.mem_currentComments_targetPage (comments : List Comments.Comment) (idx : Nat)
    (hlt : idx < comments.length) :
    comments.get ⟨idx, hlt⟩ ∈ Comments.currentComments comments (Comments.targetPage idx) := by
  have htp : Comments.targetPage idx = idx / 10 + 1 := by
    unfold Comments.targetPage Comments.COMMENTS_PER_PAGE
    omega
  rw [htp, Comments.currentComments_succ]
  apply List.getElem?_mem
  show ((comments.drop (10 * (idx / 10))).take 10)[idx % 10]? = _
  rw [List.getElem?_take, if_pos (by omega), List.getElem?_drop]
  have e : 10 * (idx / 10) + idx % 10 = idx := by omega
  rw [e, List.getElem?_eq_getElem hlt]
  rfl

/-- C8: for every comment list and every highlight id that is the id of some
comment, let `idx` be the index of the first comment with that id (so its
1-based position is `idx + 1`).  The highlight effect of `DetailPage`, and
that of `BlogPage` in the topic view, set the page to `ceil((idx + 1) / 10)`;
the slice shown for that page contains that comment; and for position 15 the
page is 2. -/
theorem Comments.highlight_page (comments : List Comments.Comment) (hId : String)
    (hex : ∃ c ∈ comments, toString c.id = hId) :
    ∃ (idx : Nat) (hlt : idx < comments.length),
      toString (comments.get ⟨idx, hlt⟩).id = hId ∧
      (∀ j (hj : j < comments.length), j < idx →
        toString (comments.get ⟨j, hj⟩).id ≠ hId) ∧
      Comments.findIndex comments hId = some idx ∧
      (∀ s : DetailPage.State, s.comments = comments →
        (DetailPage.highlightEffect s (some hId)).interact.page
            = ⌈((idx + 1 : ℕ) : ℚ) / 10⌉₊ ∧
          (DetailPage.highlightEffect s (some hId)).comments = comments) ∧
      (∀ s : BlogPage.State, s.comments = comments →
        s.viewMode = BlogPage.ViewMode.forum_detail →
        (BlogPage.highlightEffect s (some hId)).interact.page
            = ⌈((idx + 1 : ℕ) : ℚ) / 10⌉₊ ∧
          (BlogPage.highlightEffect s (some hId)).comments = comments) ∧
      comments.get ⟨idx, hlt⟩
        ∈ Comments.currentComments comments ⌈((idx + 1 : ℕ) : ℚ) / 10⌉₊ ∧
      (idx + 1 = 15 → ⌈((idx + 1 : ℕ) : ℚ) / 10⌉₊ = 2) := by
  have hex2 : ∃ c ∈ comments, (fun c : Comments.Comment => toString c.id == hId) c = true := by
    obtain ⟨c, hc, hid⟩ := hex
    exact ⟨c, hc, by simpa using hid⟩
  have hlt : comments.findIdx (fun c => toString c.id == hId) < comments.length :=
    List.findIdx_lt_length_of_exists hex2
  have hne : hId ≠ "" := by
    obtain ⟨c, _, hid⟩ := hex
    rw [← hid]
    exact Comments.toString_nat_ne_empty c.id
  have hfind : Comments.findIndex comments hId
      = some (comments.findIdx (fun c => toString c.id == hId)) := by
    unfold Comments.findIndex
    dsimp only
    rw [if_pos hlt]
  have hceil : ∀ idx : Nat, ⌈((idx + 1 : ℕ) : ℚ) / 10⌉₊ = Comments.targetPage idx := by
    intro idx
    rw [Comments.ceil_div_ten]
    rfl
  refine ⟨_, hlt, ?_, ?_, hfind, ?_, ?_, ?_, ?_⟩
  · have := List.findIdx_getElem (w := hlt)
    simpa using this
  · intro j hj hji
    have := List.not_of_lt_findIdx hji
    simpa using this
  · intro s hs
    subst hs
    have e : DetailPage.highlightEffect s (some hId)
        = { s with interact := { s.interact with
              page := Comments.targetPage
                (s.comments.findIdx (fun c => toString c.id == hId)) } } := by
      unfold DetailPage.highlightEffect
      dsimp only
      rw [if_pos ⟨hne, by omega⟩, hfind]
    rw [e, hceil]
    exact ⟨rfl, rfl⟩
  · intro s hs hv
    subst hs
    unfold BlogPage.highlightEffect
    dsimp only
    rw [if_pos ⟨hne, hv, by omega⟩, hfind, hceil]
    dsimp only
    by_cases hp : s.interact.page
        = Comments.targetPage (s.comments.findIdx (fun c => toString c.id == hId))
    · rw [if_neg (by simpa using hp)]
      exact ⟨hp, rfl⟩
    · rw [if_pos hp]
      exact ⟨rfl, rfl⟩
  · rw [hceil]
    exact Comments.mem_currentComments_targetPage comments _ hlt
  · intro h15
    rw [hceil]
    unfold Comments.targetPage Comments.COMMENTS_PER_PAGE
    omega

/-- C8, at the 23 comments of `sampleComments` and the highlight id "114", the
id of the comment at position 15: the page set is 2. -/
theorem Comments.highlight_page_witness :
    (DetailPage.highlightEffect
        { dish := some "pho", comments := Comments.sampleComments,
          interact := Comments.Interact.initial } (some "114")).interact.page = 2 ∧
    ∃ (idx : Nat) (hlt : idx < Comments.sampleComments.length),
      toString (Comments.sampleComments.get ⟨idx, hlt⟩).id = "114" ∧
      (∀ j (hj : j < Comments.sampleComments.length), j < idx →
        toString (Comments.sampleComments.get ⟨j, hj⟩).id ≠ "114") ∧
      Comments.findIndex Comments.sampleComments "114" = some idx ∧
      (∀ s : DetailPage.State, s.comments = Comments.sampleComments →
        (DetailPage.highlightEffect s (some "114")).interact.page
            = ⌈((idx + 1 : ℕ) : ℚ) / 10⌉₊ ∧
          (DetailPage.highlightEffect s (some "114")).comments = Comments.sampleComments) ∧
      (∀ s : BlogPage.State, s.comments = Comments.sampleComments →
        s.viewMode = BlogPage.ViewMode.forum_detail →
        (BlogPage.highlightEffect s (some "114")).interact.page
            = ⌈((idx + 1 : ℕ) : ℚ) / 10⌉₊ ∧
          (BlogPage.highlightEffect s (some "114")).comments = Comments.sampleComments) ∧
      Comments.sampleComments.get ⟨idx, hlt⟩
        ∈ Comments.currentComments Comments.sampleComments ⌈((idx + 1 : ℕ) : ℚ) / 10⌉₊ ∧
      (idx + 1 = 15 → ⌈((idx + 1 : ℕ) : ℚ) / 10⌉₊ = 2) :=
  ⟨by decide,
   Comments.highlight_page Comments.sampleComments "114"
    ⟨{ id := 114, parentId := none, userUid := "u", content := "" }, by decide, by decide⟩⟩

/-- C9 (failing input): none of the operations that replace the comment list
writes `interact.page`: the slug effect of `BlogPage` followed by the answer to
its comments request, the Back button, and `fetchDishDetail` of `DetailPage`
all leave it unchanged.  A reader on page 3 of a topic who opens a topic with
five comments is still on page 3, which shows no comment, and the page count
of 1 hides the pagination control; the sibling topic list does reset its page
index when its filter changes. -/
theorem BlogPage.page_kept_on_list_change :
    (∀ (s : BlogPage.State) (forums : List String) (slug : Option String)
        (data : List Comments.Comment),
      (BlogPage.fetchComments (BlogPage.slugEffect s forums slug) data).interact.page
        = s.interact.page) ∧
    (∀ s : BlogPage.State, (BlogPage.backClick s).interact.page = s.interact.page) ∧
    (∀ (s : DetailPage.State) (slug : String) (data : List Comments.Comment),
      (DetailPage.fetchDishDetail s slug data).interact.page = s.interact.page) ∧
    BlogPage.onPageThree.interact.page = 3 ∧
    BlogPage.switchedTopic.selectedForum = some "topic-b" ∧
    BlogPage.switchedTopic.comments.length = 5 ∧
    BlogPage.switchedTopic.interact.page = 3 ∧
    Comments.currentComments BlogPage.switchedTopic.comments
      BlogPage.switchedTopic.interact.page = [] ∧
    Comments.pageCount BlogPage.switchedTopic.comments = 1 ∧
    (BlogPage.backClick BlogPage.onPageThree).interact.page = 3 ∧
    (DetailPage.fetchDishDetail DetailPage.onPageThree "banh_mi"
      DetailPage.fiveComments).interact.page = 3 ∧
    (∀ (s : BlogPage.State) (term : String), (BlogPage.searchChange s term).forumPage = 1) := by
  refine ⟨?_, fun _ => rfl, fun _ _ _ => rfl, by decide, by decide, by decide, by decide,
    by decide, by decide, by decide, by decide, fun _ _ => rfl⟩
  intro s forums slug data
  unfold BlogPage.fetchComments BlogPage.slugEffect
  dsimp only
  split
  · split
    · split <;> rfl
    · split <;> rfl
  · rfl

/-! ## Theorems: memory game, transitions -/

/-- A tap leaves the deck and the time untouched, and a game that is being
played after a tap was being played before it; a tap never leads to the intro
screen. -/
theorem FoodMemoryGame.handleCardClick_frame (s : FoodMemoryGame.State)
    (card : FoodMemoryGame.Card) :
    (FoodMemoryGame.handleCardClick s card).timeLeft = s.timeLeft ∧
      (FoodMemoryGame.handleCardClick s card).cards = s.cards ∧
      ((FoodMemoryGame.handleCardClick s card).gameState = FoodMemoryGame.GameStatus.playing →
        s.gameState = FoodMemoryGame.GameStatus.playing) ∧
      (s.gameState ≠ FoodMemoryGame.GameStatus.intro →
        (FoodMemoryGame.handleCardClick s card).gameState ≠ FoodMemoryGame.GameStatus.intro) ∧
      ((FoodMemoryGame.handleCardClick s card).gameState = FoodMemoryGame.GameStatus.playing →
        0 < s.lives → 0 < (FoodMemoryGame.handleCardClick s card).lives) := by
  unfold FoodMemoryGame.handleCardClick
  split
  · exact ⟨rfl, rfl, id, id, fun _ h => h⟩
  · rename_i hg
    have hp : s.gameState = FoodMemoryGame.GameStatus.playing := by
      by_contra hne
      exact hg (Or.inl hne)
    split
    · exact ⟨rfl, rfl, id, id, fun _ h => h⟩
    · split
      · unfold FoodMemoryGame.checkForMatch FoodMemoryGame.endGame
        dsimp only
        split_ifs <;> simp_all
      · exact ⟨rfl, rfl, id, id, fun _ h => h⟩

/-- A completed setup starts the round: the game is 'playing' with the full time
and all lives. -/
theorem FoodMemoryGame.setupGameData_start (foodData : List FoodMemoryGame.Food)
    (shuffle1 shuffle2 : List FoodMemoryGame.Food → List FoodMemoryGame.Food)
    (fuel : Nat) (s0 s : FoodMemoryGame.State)
    (hs : FoodMemoryGame.setupGameData foodData shuffle1 shuffle2 fuel s0 = some s) :
    s.gameState = FoodMemoryGame.GameStatus.playing ∧
      s.timeLeft = FoodMemoryGame.TIME_LIMIT ∧ s.lives = FoodMemoryGame.MAX_LIVES := by
  unfold FoodMemoryGame.setupGameData at hs
  cases hsel : FoodMemoryGame.selectFoods foodData shuffle1 fuel with
  | none => rw [hsel] at hs; exact absurd hs (by simp)
  | some selected =>
    rw [hsel] at hs
    simp only [Option.some.injEq] at hs
    subst hs
    exact ⟨rfl, rfl, rfl⟩

/-- A timer tick keeps the play invariant. -/
theorem FoodMemoryGame.timerTick_playInv (s : FoodMemoryGame.State)
    (h : FoodMemoryGame.PlayInv s) : FoodMemoryGame.PlayInv (FoodMemoryGame.timerTick s) := by
  unfold FoodMemoryGame.timerTick FoodMemoryGame.endGame
  unfold FoodMemoryGame.PlayInv at h ⊢
  split_ifs with h1 h2
  · simp
  · dsimp only
    exact ⟨h.1, fun hp => ⟨(h.2 hp).1, by omega⟩⟩
  · exact h

/-- Every reachable state satisfies the play invariant. -/
theorem FoodMemoryGame.reachable_playInv (s : FoodMemoryGame.State)
    (hr : FoodMemoryGame.Reachable s) : FoodMemoryGame.PlayInv s := by
  induction hr with
  | setup foodData shuffle1 shuffle2 fuel s _ _ hs =>
    obtain ⟨hp, ht, hl⟩ := FoodMemoryGame.setupGameData_start _ _ _ _ _ _ hs
    refine ⟨by rw [hp]; decide, fun _ => ?_⟩
    rw [ht, hl]
    exact ⟨by decide, by decide⟩
  | reset foodData shuffle1 shuffle2 fuel s0 s _ _ _ hs _ =>
    obtain ⟨hp, ht, hl⟩ := FoodMemoryGame.setupGameData_start _ _ _ _ _ _ hs
    refine ⟨by rw [hp]; decide, fun _ => ?_⟩
    rw [ht, hl]
    exact ⟨by decide, by decide⟩
  | tap s card _ _ ih =>
    obtain ⟨ht, _, hp, hi, hl⟩ := FoodMemoryGame.handleCardClick_frame s card
    refine ⟨hi ih.1, fun hplay => ⟨hl hplay (ih.2 (hp hplay)).1, ?_⟩⟩
    rw [ht]
    exact (ih.2 (hp hplay)).2
  | flipBack s _ ih =>
    unfold FoodMemoryGame.flipBackTimeout
    split
    · exact ih
    · exact ih
  | tick s _ ih => exact FoodMemoryGame.timerTick_playInv s ih
  | dialog s _ ih => exact ih

/-- One event advances the clock invariant: the tick count grows by one on a
tick and stays the same otherwise. -/
theorem FoodMemoryGame.step_clockInv (s : FoodMemoryGame.State) (e : FoodMemoryGame.Event)
    (n : Nat) (h : FoodMemoryGame.ClockInv s n) :
    FoodMemoryGame.ClockInv (FoodMemoryGame.step s e) (n + FoodMemoryGame.tickCount [e]) := by
  cases e with
  | tap card =>
    obtain ⟨ht, _, hp, hi, _⟩ := FoodMemoryGame.handleCardClick_frame s card
    refine ⟨hi h.1, fun hplay => ?_⟩
    show (FoodMemoryGame.handleCardClick s card).timeLeft + n = _
      ∧ 0 < (FoodMemoryGame.handleCardClick s card).timeLeft
    rw [ht]
    exact h.2 (hp hplay)
  | flipBack =>
    show FoodMemoryGame.ClockInv (FoodMemoryGame.flipBackTimeout s) (n + 0)
    unfold FoodMemoryGame.flipBackTimeout
    split
    · exact h
    · exact h
  | tick =>
    show FoodMemoryGame.ClockInv (FoodMemoryGame.timerTick s) (n + 1)
    unfold FoodMemoryGame.timerTick FoodMemoryGame.endGame
    unfold FoodMemoryGame.ClockInv at h ⊢
    split_ifs with h1 h2
    · simp
    · dsimp only
      refine ⟨h.1, fun hp => ?_⟩
      have := h.2 hp
      omega
    · refine ⟨h.1, fun hp => ?_⟩
      have := h.2 hp
      exact absurd ⟨hp, this.2⟩ h1
  | dialog => exact h

/-- A run advances the clock invariant by its number of ticks. -/
theorem FoodMemoryGame.run_clockInv (es : List FoodMemoryGame.Event) :
    ∀ (s : FoodMemoryGame.State) (n : Nat), FoodMemoryGame.ClockInv s n →
      FoodMemoryGame.ClockInv (FoodMemoryGame.run s es) (n + FoodMemoryGame.tickCount es) := by
  induction es with
  | nil => intro s n h; exact h
  | cons e es ih =>
    intro s n h
    have h1 := ih _ _ (FoodMemoryGame.step_clockInv s e n h)
    have e2 : n + FoodMemoryGame.tickCount [e] + FoodMemoryGame.tickCount es
        = n + FoodMemoryGame.tickCount (e :: es) := by
      cases e <;> simp only [FoodMemoryGame.tickCount] <;> omega
    rw [e2] at h1
    exact h1

/-- A game that is won or lost stays so under every event of a round. -/
theorem FoodMemoryGame.step_terminal (s : FoodMemoryGame.State) (e : FoodMemoryGame.Event)
    (h : s.gameState ≠ FoodMemoryGame.GameStatus.playing) :
    (FoodMemoryGame.step s e).gameState = s.gameState := by
  cases e with
  | tap card =>
    show (FoodMemoryGame.handleCardClick s card).gameState = _
    unfold FoodMemoryGame.handleCardClick
    rw [if_pos (Or.inl h)]
  | flipBack =>
    show (FoodMemoryGame.flipBackTimeout s).gameState = _
    unfold FoodMemoryGame.flipBackTimeout
    split <;> rfl
  | tick =>
    show (FoodMemoryGame.timerTick s).gameState = _
    unfold FoodMemoryGame.timerTick
    rw [if_neg (fun hc => h hc.1)]
  | dialog => rfl

/-- A timer tick writes only the time, the status and the dialog flag. -/
theorem FoodMemoryGame.timerTick_frame (s : FoodMemoryGame.State) :
    (FoodMemoryGame.timerTick s).flippedCards = s.flippedCards ∧
      (FoodMemoryGame.timerTick s).matchedCards = s.matchedCards ∧
      (FoodMemoryGame.timerTick s).disableClick = s.disableClick ∧
      (FoodMemoryGame.timerTick s).lives = s.lives ∧
      (FoodMemoryGame.timerTick s).cards = s.cards ∧
      (FoodMemoryGame.timerTick s).pendingFlipBacks = s.pendingFlipBacks := by
  unfold FoodMemoryGame.timerTick FoodMemoryGame.endGame
  split_ifs <;> exact ⟨rfl, rfl, rfl, rfl, rfl, rfl⟩

/-- A tap is ignored when the game is not being played, input is disabled, the
card is matched, or a flipped card has its uniqueId. -/
theorem FoodMemoryGame.handleCardClick_ignored (s : FoodMemoryGame.State)
    (card : FoodMemoryGame.Card)
    (h : s.gameState ≠ FoodMemoryGame.GameStatus.playing ∨ s.disableClick = true ∨
      card.uniqueId ∈ s.matchedCards ∨ ∃ c ∈ s.flippedCards, c.uniqueId = card.uniqueId) :
    FoodMemoryGame.handleCardClick s card = s := by
  unfold FoodMemoryGame.handleCardClick
  rcases h with h | h | h | ⟨c, hc, hid⟩
  · rw [if_pos (Or.inl h)]
  · rw [if_pos (Or.inr h)]
  · split
    · rfl
    · rw [if_pos (Or.inl (by simpa using h))]
  · split
    · rfl
    · rw [if_pos (Or.inr (List.any_eq_true.mpr ⟨c, hc, by simpa using hid⟩))]

/-- After a tap on a card, a further tap on it would be ignored: the game is no
longer being played, input is disabled, the card is matched, or it is
flipped. -/
theorem FoodMemoryGame.handleCardClick_then_ignored (s : FoodMemoryGame.State)
    (card : FoodMemoryGame.Card) :
    (FoodMemoryGame.handleCardClick s card).gameState ≠ FoodMemoryGame.GameStatus.playing ∨
      (FoodMemoryGame.handleCardClick s card).disableClick = true ∨
      card.uniqueId ∈ (FoodMemoryGame.handleCardClick s card).matchedCards ∨
      ∃ c ∈ (FoodMemoryGame.handleCardClick s card).flippedCards,
        c.uniqueId = card.uniqueId := by
  unfold FoodMemoryGame.handleCardClick
  split
  · rename_i hg
    rcases hg with hg | hg
    · exact Or.inl hg
    · exact Or.inr (Or.inl hg)
  · split
    · rename_i hg
      rcases hg with hg | hg
      · exact Or.inr (Or.inr (Or.inl (by simpa using hg)))
      · obtain ⟨c, hc, hid⟩ := List.any_eq_true.mp hg
        exact Or.inr (Or.inr (Or.inr ⟨c, hc, by simpa using hid⟩))
    · split
      · rename_i card1 card2 heq
        have hcard : card = card2 := by
          match hf : s.flippedCards with
          | [] => rw [hf] at heq; simp at heq
          | [a] => rw [hf] at heq; simp at heq; exact heq.2
          | _ :: _ :: _ => rw [hf] at heq; simp at heq
        subst hcard
        unfold FoodMemoryGame.checkForMatch FoodMemoryGame.endGame
        dsimp only
        split_ifs <;> simp
      · exact Or.inr (Or.inr (Or.inr ⟨card, by simp, rfl⟩))

/-- Ticks after a reachable state lead to reachable states. -/
theorem FoodMemoryGame.reachable_run_ticks (n : Nat) :
    ∀ s, FoodMemoryGame.Reachable s →
      FoodMemoryGame.Reachable
        (FoodMemoryGame.run s (List.replicate n FoodMemoryGame.Event.tick)) := by
  induction n with
  | zero => intro s h; exact h
  | succ k ih =>
    intro s h
    exact ih _ (FoodMemoryGame.Reachable.tick s h)

/-- A game that is being played with `n + 1` seconds left is lost, with no
time left, after `n + 1` ticks. -/
theorem FoodMemoryGame.run_ticks_lost (n : Nat) :
    ∀ s : FoodMemoryGame.State, s.gameState = FoodMemoryGame.GameStatus.playing →
      s.timeLeft = n + 1 →
      (FoodMemoryGame.run s (List.replicate (n + 1) FoodMemoryGame.Event.tick)).gameState
          = FoodMemoryGame.GameStatus.lost ∧
        (FoodMemoryGame.run s (List.replicate (n + 1) FoodMemoryGame.Event.tick)).timeLeft
          = 0 := by
  induction n with
  | zero =>
    intro s hp ht
    show (FoodMemoryGame.timerTick s).gameState = _ ∧ (FoodMemoryGame.timerTick s).timeLeft = 0
    unfold FoodMemoryGame.timerTick FoodMemoryGame.endGame
    rw [if_pos ⟨hp, by omega⟩, if_pos (by omega)]
    exact ⟨rfl, rfl⟩
  | succ k ih =>
    intro s hp ht
    have e : FoodMemoryGame.timerTick s = { s with timeLeft := s.timeLeft - 1 } := by
      unfold FoodMemoryGame.timerTick
      rw [if_pos ⟨hp, by omega⟩, if_neg (by omega)]
    show (FoodMemoryGame.run (FoodMemoryGame.timerTick s) _).gameState = _ ∧
      (FoodMemoryGame.run (FoodMemoryGame.timerTick s) _).timeLeft = 0
    rw [e]
    exact ih _ hp (by show s.timeLeft - 1 = k + 1; omega)

/-- The transition of a mismatch and the steps after it, one at a time: in a
reachable state that is 'playing' with input enabled and exactly one flipped
card `c1`, a tap on an unmatched card `c2` of the deck with a different slug
leads to a state `t` in which lives has decreased by exactly 1,
both cards are flipped and input is disabled.  If the new lives value is 0 the
game is 'lost' in `t` and no flip-back has been scheduled.  Otherwise the game
is still 'playing', a flip-back has been scheduled, taps, timer ticks and
closing the dialog leave both cards flipped and input disabled, and the firing
of a flip-back clears `flippedCards` and re-enables input.  Which of the
pending flip-backs fires first is not part of this statement. -/
theorem FoodMemoryGame.handleCardClick_mismatch (s : FoodMemoryGame.State)
    (c1 c2 : FoodMemoryGame.Card) (hr : FoodMemoryGame.Reachable s)
    (hplay : s.gameState = FoodMemoryGame.GameStatus.playing)
    (hen : s.disableClick = false) (hflip : s.flippedCards = [c1])
    (hc2 : c2 ∈ s.cards) (hun : c2.uniqueId ∉ s.matchedCards)
    (hslug : c2.slug ≠ c1.slug) :
    ∀ t, t = FoodMemoryGame.handleCardClick s c2 →
      t.lives + 1 = s.lives ∧
      t.flippedCards = [c1, c2] ∧ t.disableClick = true ∧
      t.matchedCards = s.matchedCards ∧ t.cards = s.cards ∧ t.timeLeft = s.timeLeft ∧
      (t.lives = 0 →
        t.gameState = FoodMemoryGame.GameStatus.lost ∧
        t.pendingFlipBacks = s.pendingFlipBacks) ∧
      (t.lives ≠ 0 →
        t.gameState = FoodMemoryGame.GameStatus.playing ∧
        t.pendingFlipBacks = s.pendingFlipBacks + 1 ∧
        (∀ card, FoodMemoryGame.handleCardClick t card = t) ∧
        (FoodMemoryGame.timerTick t).flippedCards = [c1, c2] ∧
        (FoodMemoryGame.timerTick t).disableClick = true ∧
        (FoodMemoryGame.closeDialog t).flippedCards = [c1, c2] ∧
        (FoodMemoryGame.closeDialog t).disableClick = true ∧
        (FoodMemoryGame.flipBackTimeout t).flippedCards = [] ∧
        (FoodMemoryGame.flipBackTimeout t).disableClick = false ∧
        (FoodMemoryGame.flipBackTimeout t).pendingFlipBacks = s.pendingFlipBacks ∧
        (FoodMemoryGame.flipBackTimeout t).lives = t.lives ∧
        (FoodMemoryGame.flipBackTimeout t).gameState = FoodMemoryGame.GameStatus.playing) := by
  intro t ht
  have hinv := FoodMemoryGame.reachable_deckInv s hr
  have hlives := ((FoodMemoryGame.reachable_playInv s hr).2 hplay).1
  have hc1 := hinv.2.2.2 c1 (by rw [hflip]; exact List.mem_singleton_self _)
  have hid : c1.uniqueId ≠ c2.uniqueId := by
    intro h
    have := FoodMemoryGame.eq_of_uniqueId_eq s hinv c1 c2 hc1.1 hc2 h
    exact hslug (by rw [this])
  have hstep : FoodMemoryGame.handleCardClick s c2
      = FoodMemoryGame.checkForMatch
          { s with flippedCards := [c1, c2], disableClick := true } c1 c2 := by
    unfold FoodMemoryGame.handleCardClick
    rw [if_neg (by simp [hplay, hen]), if_neg (by simp [hflip, hun, hid]), hflip]
    rfl
  rw [hstep] at ht
  unfold FoodMemoryGame.checkForMatch FoodMemoryGame.endGame at ht
  dsimp only at ht
  rw [if_neg (fun h => hslug h.symm)] at ht
  by_cases hl : s.lives > 1
  · rw [if_pos hl] at ht
    subst ht
    refine ⟨by show s.lives - 1 + 1 = s.lives; omega, rfl, rfl, rfl, rfl, rfl, ?_, ?_⟩
    · intro h0
      have h0' : s.lives - 1 = 0 := h0
      omega
    · intro _
      refine ⟨hplay, rfl, ?_, ?_, ?_, rfl, rfl, ?_, ?_, ?_, ?_, ?_⟩
      · intro card
        exact FoodMemoryGame.handleCardClick_ignored _ card (Or.inr (Or.inl rfl))
      · rw [(FoodMemoryGame.timerTick_frame _).1]
      · rw [(FoodMemoryGame.timerTick_frame _).2.2.1]
      all_goals
        unfold FoodMemoryGame.flipBackTimeout
        rw [if_neg (by show s.pendingFlipBacks + 1 ≠ 0; omega)]
      · rfl
      · exact hplay
  · rw [if_neg hl] at ht
    subst ht
    refine ⟨by show 0 + 1 = s.lives; omega, rfl, rfl, rfl, rfl, rfl, fun _ => ⟨rfl, rfl⟩, ?_⟩
    intro h0
    exact absurd rfl h0

/-- The mismatch transition at `phoFlipped` (card 0, "pho", is flipped) and a
tap on card 2 ("banh_mi"): lives drops from 15 to 14 and the pair waits for a
flip-back. -/
theorem FoodMemoryGame.handleCardClick_mismatch_witness :
    FoodMemoryGame.mismatchFlipped.lives = 14 ∧
    (FoodMemoryGame.mismatchFlipped.lives + 1 = FoodMemoryGame.phoFlipped.lives ∧
      FoodMemoryGame.mismatchFlipped.flippedCards
        = [FoodMemoryGame.plainCard "pho" 0, FoodMemoryGame.plainCard "banh_mi" 2] ∧
      FoodMemoryGame.mismatchFlipped.disableClick = true ∧
      FoodMemoryGame.mismatchFlipped.matchedCards = FoodMemoryGame.phoFlipped.matchedCards ∧
      FoodMemoryGame.mismatchFlipped.cards = FoodMemoryGame.phoFlipped.cards ∧
      FoodMemoryGame.mismatchFlipped.timeLeft = FoodMemoryGame.phoFlipped.timeLeft ∧
      (FoodMemoryGame.mismatchFlipped.lives = 0 →
        FoodMemoryGame.mismatchFlipped.gameState = FoodMemoryGame.GameStatus.lost ∧
        FoodMemoryGame.mismatchFlipped.pendingFlipBacks
          = FoodMemoryGame.phoFlipped.pendingFlipBacks) ∧
      (FoodMemoryGame.mismatchFlipped.lives ≠ 0 →
        FoodMemoryGame.mismatchFlipped.gameState = FoodMemoryGame.GameStatus.playing ∧
        FoodMemoryGame.mismatchFlipped.pendingFlipBacks
          = FoodMemoryGame.phoFlipped.pendingFlipBacks + 1 ∧
        (∀ card, FoodMemoryGame.handleCardClick FoodMemoryGame.mismatchFlipped card
          = FoodMemoryGame.mismatchFlipped) ∧
        (FoodMemoryGame.timerTick FoodMemoryGame.mismatchFlipped).flippedCards
          = [FoodMemoryGame.plainCard "pho" 0, FoodMemoryGame.plainCard "banh_mi" 2] ∧
        (FoodMemoryGame.timerTick FoodMemoryGame.mismatchFlipped).disableClick = true ∧
        (FoodMemoryGame.closeDialog FoodMemoryGame.mismatchFlipped).flippedCards
          = [FoodMemoryGame.plainCard "pho" 0, FoodMemoryGame.plainCard "banh_mi" 2] ∧
        (FoodMemoryGame.closeDialog FoodMemoryGame.mismatchFlipped).disableClick = true ∧
        (FoodMemoryGame.flipBackTimeout FoodMemoryGame.mismatchFlipped).flippedCards = [] ∧
        (FoodMemoryGame.flipBackTimeout FoodMemoryGame.mismatchFlipped).disableClick = false ∧
        (FoodMemoryGame.flipBackTimeout FoodMemoryGame.mismatchFlipped).pendingFlipBacks
          = FoodMemoryGame.phoFlipped.pendingFlipBacks ∧
        (FoodMemoryGame.flipBackTimeout FoodMemoryGame.mismatchFlipped).lives
          = FoodMemoryGame.mismatchFlipped.lives ∧
        (FoodMemoryGame.flipBackTimeout FoodMemoryGame.mismatchFlipped).gameState
          = FoodMemoryGame.GameStatus.playing)) :=
  ⟨by decide,
   FoodMemoryGame.handleCardClick_mismatch FoodMemoryGame.phoFlipped
    (FoodMemoryGame.plainCard "pho" 0) (FoodMemoryGame.plainCard "banh_mi" 2)
    (FoodMemoryGame.Reachable.tap _ _ FoodMemoryGame.eightDishesGame_reachable (by decide))
    (by decide) (by decide) (by decide) (by decide) (by decide) (by decide)
    FoodMemoryGame.mismatchFlipped rfl⟩

/-- C12: a timer tick on a game that is 'playing' with more than one second
left decreases `timeLeft` by exactly 1 and changes nothing else; on a reachable
'playing' state with `timeLeft ≤ 1` it sets `timeLeft` to 0 and the game to
'lost' (opening the dialog), whatever the flipped and matched cards are; a tick
changes nothing in a game that is not 'playing'.  From a completed setup
(`timeLeft = TIME_LIMIT = 60`), whatever taps, flip-backs and dialog closings
are interleaved: while the game is 'playing' the time left and the ticks add up
to 60, so after 60 ticks the game is 'lost' or 'won'; 60 ticks alone leave it
'lost' with no time left; and a game that is won or lost stays so under every
event. -/
theorem FoodMemoryGame.timerTick_countdown :
    (∀ s : FoodMemoryGame.State, s.gameState = FoodMemoryGame.GameStatus.playing →
      1 < s.timeLeft →
      FoodMemoryGame.timerTick s = { s with timeLeft := s.timeLeft - 1 }) ∧
    (∀ s : FoodMemoryGame.State, FoodMemoryGame.Reachable s →
      s.gameState = FoodMemoryGame.GameStatus.playing → s.timeLeft ≤ 1 →
      FoodMemoryGame.timerTick s
        = { s with timeLeft := 0, gameState := FoodMemoryGame.GameStatus.lost,
                   openDialog := true }) ∧
    (∀ s : FoodMemoryGame.State, s.gameState ≠ FoodMemoryGame.GameStatus.playing →
      FoodMemoryGame.timerTick s = s) ∧
    (∀ (foodData : List FoodMemoryGame.Food)
        (shuffle1 shuffle2 : List FoodMemoryGame.Food → List FoodMemoryGame.Food)
        (fuel : Nat) (s0 s : FoodMemoryGame.State) (es : List FoodMemoryGame.Event),
      FoodMemoryGame.setupGameData foodData shuffle1 shuffle2 fuel s0 = some s →
      s.timeLeft = 60 ∧
      ((FoodMemoryGame.run s es).gameState = FoodMemoryGame.GameStatus.playing →
        (FoodMemoryGame.run s es).timeLeft + FoodMemoryGame.tickCount es = 60 ∧
        0 < (FoodMemoryGame.run s es).timeLeft) ∧
      (60 ≤ FoodMemoryGame.tickCount es →
        (FoodMemoryGame.run s es).gameState = FoodMemoryGame.GameStatus.lost ∨
        (FoodMemoryGame.run s es).gameState = FoodMemoryGame.GameStatus.won) ∧
      (FoodMemoryGame.run s (List.replicate 60 FoodMemoryGame.Event.tick)).gameState
        = FoodMemoryGame.GameStatus.lost ∧
      (FoodMemoryGame.run s (List.replicate 60 FoodMemoryGame.Event.tick)).timeLeft = 0) ∧
    (∀ (s : FoodMemoryGame.State) (e : FoodMemoryGame.Event),
      s.gameState ≠ FoodMemoryGame.GameStatus.playing →
      (FoodMemoryGame.step s e).gameState = s.gameState) := by
  refine ⟨?_, ?_, ?_, ?_, FoodMemoryGame.step_terminal⟩
  · intro s hp ht
    unfold FoodMemoryGame.timerTick
    rw [if_pos ⟨hp, by omega⟩, if_neg (by omega)]
  · intro s hr hp ht
    have hpos := ((FoodMemoryGame.reachable_playInv s hr).2 hp).2
    unfold FoodMemoryGame.timerTick FoodMemoryGame.endGame
    rw [if_pos ⟨hp, hpos⟩, if_pos ht]
  · intro s hp
    unfold FoodMemoryGame.timerTick
    rw [if_neg (fun h => hp h.1)]
  · intro foodData shuffle1 shuffle2 fuel s0 s es hs
    obtain ⟨hp, ht, _⟩ := FoodMemoryGame.setupGameData_start _ _ _ _ _ _ hs
    have ht60 : s.timeLeft = 60 := ht
    have h0 : FoodMemoryGame.ClockInv s 0 :=
      ⟨by rw [hp]; decide, fun _ => ⟨by rw [ht]; rfl, by rw [ht]; decide⟩⟩
    have h := FoodMemoryGame.run_clockInv es s 0 h0
    rw [Nat.zero_add] at h
    have hclock : (FoodMemoryGame.run s es).gameState = FoodMemoryGame.GameStatus.playing →
        (FoodMemoryGame.run s es).timeLeft + FoodMemoryGame.tickCount es = 60 ∧
        0 < (FoodMemoryGame.run s es).timeLeft := h.2
    refine ⟨ht60, hclock, ?_, FoodMemoryGame.run_ticks_lost 59 s hp ht60⟩
    intro h60
    cases hg : (FoodMemoryGame.run s es).gameState with
    | intro => exact absurd hg h.1
    | playing =>
      have := hclock hg
      omega
    | won => exact Or.inr rfl
    | lost => exact Or.inl rfl

set_option maxRecDepth 8000 in
/-- C12, at `eightDishesGame` (60 seconds left) and at `lastSecond` (one second
left): the first tick leaves 59 seconds, the sixtieth loses the game. -/
theorem FoodMemoryGame.timerTick_countdown_witness :
    FoodMemoryGame.eightDishesGame.timeLeft = 60 ∧
    FoodMemoryGame.lastSecond.timeLeft = 1 ∧
    FoodMemoryGame.timerTick FoodMemoryGame.eightDishesGame
      = { FoodMemoryGame.eightDishesGame with
          timeLeft := FoodMemoryGame.eightDishesGame.timeLeft - 1 } ∧
    FoodMemoryGame.timerTick FoodMemoryGame.lastSecond
      = { FoodMemoryGame.lastSecond with
          timeLeft := 0, gameState := FoodMemoryGame.GameStatus.lost, openDialog := true } ∧
    (FoodMemoryGame.run FoodMemoryGame.eightDishesGame
      (List.replicate 60 FoodMemoryGame.Event.tick)).gameState
        = FoodMemoryGame.GameStatus.lost :=
  ⟨by decide, by decide,
   FoodMemoryGame.timerTick_countdown.1 FoodMemoryGame.eightDishesGame (by decide) (by decide),
   FoodMemoryGame.timerTick_countdown.2.1 FoodMemoryGame.lastSecond
    (FoodMemoryGame.reachable_run_ticks 59 _ FoodMemoryGame.eightDishesGame_reachable)
    (by decide) (by decide),
   (FoodMemoryGame.timerTick_countdown.2.2.2.1 FoodMemoryGame.eightDishes id id 9
      FoodMemoryGame.initialState FoodMemoryGame.eightDishesGame
      [] (by decide)).2.2.2.1⟩

/-- C13: a tap on a card changes nothing at all (deck, flipped and matched
cards, lives, time, status and input lock included) whenever the game is not
'playing', or the card's uniqueId is in `matchedCards`, or a currently flipped
card has its uniqueId (in particular when the card itself is flipped); and for
every state, tapping a card twice gives the same state as tapping it once. -/
theorem FoodMemoryGame.handleCardClick_noop (s : FoodMemoryGame.State)
    (card : FoodMemoryGame.Card) :
    (s.gameState ≠ FoodMemoryGame.GameStatus.playing →
      FoodMemoryGame.handleCardClick s card = s) ∧
    (card.uniqueId ∈ s.matchedCards → FoodMemoryGame.handleCardClick s card = s) ∧
    ((∃ c ∈ s.flippedCards, c.uniqueId = card.uniqueId) →
      FoodMemoryGame.handleCardClick s card = s) ∧
    (card ∈ s.flippedCards → FoodMemoryGame.handleCardClick s card = s) ∧
    FoodMemoryGame.handleCardClick (FoodMemoryGame.handleCardClick s card) card
      = FoodMemoryGame.handleCardClick s card :=
  ⟨fun h => FoodMemoryGame.handleCardClick_ignored s card (Or.inl h),
   fun h => FoodMemoryGame.handleCardClick_ignored s card (Or.inr (Or.inr (Or.inl h))),
   fun h => FoodMemoryGame.handleCardClick_ignored s card (Or.inr (Or.inr (Or.inr h))),
   fun h => FoodMemoryGame.handleCardClick_ignored s card
    (Or.inr (Or.inr (Or.inr ⟨card, h, rfl⟩))),
   FoodMemoryGame.handleCardClick_ignored _ card
    (FoodMemoryGame.handleCardClick_then_ignored s card)⟩

/-- C13, at `phoFlipped` and its flipped card 0: the second tap on the card is
ignored. -/
theorem FoodMemoryGame.handleCardClick_noop_witness :
    FoodMemoryGame.plainCard "pho" 0 ∈ FoodMemoryGame.phoFlipped.flippedCards ∧
    FoodMemoryGame.handleCardClick FoodMemoryGame.phoFlipped (FoodMemoryGame.plainCard "pho" 0)
      = FoodMemoryGame.phoFlipped ∧
    FoodMemoryGame.handleCardClick
        (FoodMemoryGame.handleCardClick FoodMemoryGame.eightDishesGame
          (FoodMemoryGame.plainCard "pho" 0))
        (FoodMemoryGame.plainCard "pho" 0)
      = FoodMemoryGame.handleCardClick FoodMemoryGame.eightDishesGame
          (FoodMemoryGame.plainCard "pho" 0) :=
  ⟨by decide,
   (FoodMemoryGame.handleCardClick_noop FoodMemoryGame.phoFlipped
      (FoodMemoryGame.plainCard "pho" 0)).2.2.2.1 (by decide),
   (FoodMemoryGame.handleCardClick_noop FoodMemoryGame.eightDishesGame
      (FoodMemoryGame.plainCard "pho" 0)).2.2.2.2⟩

/-! ## Theorems: hangman, transitions -/

/-- The list `unguessed` is non-empty exactly when the target word has an A–Z
letter that is not guessed yet. -/
theorem HangmanGame.unguessed_ne_nil_iff (s : HangmanGame.State) :
    HangmanGame.unguessed s ≠ [] ↔ HangmanGame.HasUnguessed s := by
  unfold HangmanGame.unguessed HangmanGame.HasUnguessed
  constructor
  · intro h
    obtain ⟨c, hc⟩ := List.exists_mem_of_ne_nil _ h
    rw [List.mem_filter] at hc
    refine ⟨c, hc.1, ?_⟩
    simpa using hc.2
  · rintro ⟨c, hc, haz, hng⟩ h
    have hmem : c ∈ s.targetWord.toList.filter
        (fun char => HangmanGame.isAZ char && !(s.guessedLetters.contains char)) :=
      List.mem_filter.mpr ⟨hc, by simpa using ⟨haz, hng⟩⟩
    rw [h] at hmem
    exact absurd hmem (List.not_mem_nil c)

/-- A first-time guess in a round that is being played appends the letter and
keeps the target word; when the letter is in the target word, `wrongCount` is
kept and the round is won exactly when every A–Z character of the target word
is then guessed, and goes on otherwise. -/
theorem HangmanGame.handleGuess_fresh (s : HangmanGame.State) (letter : Char)
    (hplay : s.status = HangmanGame.Status.playing) (hnew : letter ∉ s.guessedLetters) :
    (HangmanGame.handleGuess s letter).guessedLetters = s.guessedLetters ++ [letter] ∧
      (HangmanGame.handleGuess s letter).targetWord = s.targetWord ∧
      (letter ∈ s.targetWord.toList →
        (HangmanGame.handleGuess s letter).wrongCount = s.wrongCount ∧
        ((HangmanGame.handleGuess s letter).status = HangmanGame.Status.won ↔
          ∀ c ∈ s.targetWord.toList, HangmanGame.isAZ c = true →
            c ∈ (HangmanGame.handleGuess s letter).guessedLetters) ∧
        ((HangmanGame.handleGuess s letter).status ≠ HangmanGame.Status.won →
          (HangmanGame.handleGuess s letter).status = HangmanGame.Status.playing)) := by
  have hfields : (HangmanGame.handleGuess s letter).guessedLetters = s.guessedLetters ++ [letter]
      ∧ (HangmanGame.handleGuess s letter).targetWord = s.targetWord := by
    unfold HangmanGame.handleGuess
    rw [if_neg (by simp [hplay]), if_neg (by simpa using hnew)]
    dsimp only
    split_ifs <;> exact ⟨rfl, rfl⟩
  refine ⟨hfields.1, hfields.2, fun hin => ?_⟩
  have e : HangmanGame.handleGuess s letter
      = { s with guessedLetters := s.guessedLetters ++ [letter],
                 status := if s.targetWord.toList.all
                     (fun char => !(HangmanGame.isAZ char)
                       || (s.guessedLetters ++ [letter]).contains char) = true
                   then HangmanGame.Status.won else s.status } := by
    unfold HangmanGame.handleGuess
    rw [if_neg (by simp [hplay]), if_neg (by simpa using hnew)]
    dsimp only
    rw [if_neg (by simpa using hin)]
  rw [e]
  refine ⟨rfl, ?_, ?_⟩
  · dsimp only
    by_cases hall : s.targetWord.toList.all
        (fun char => !(HangmanGame.isAZ char)
          || (s.guessedLetters ++ [letter]).contains char) = true
    · rw [if_pos hall]
      refine ⟨fun _ => ?_, fun _ => rfl⟩
      intro c hc haz
      have := List.all_eq_true.mp hall c hc
      simpa [haz] using this
    · rw [if_neg hall, hplay]
      refine ⟨fun h => absurd h (by decide), fun h => absurd ?_ hall⟩
      rw [List.all_eq_true]
      intro c hc
      by_cases haz : HangmanGame.isAZ c = true
      · have := h c hc haz
        simp only [List.mem_append, List.mem_singleton] at this
        simp [haz, this]
      · simp [haz]
  · dsimp only
    split_ifs
    · intro h; exact absurd rfl h
    · intro _; exact hplay

/-- C14: for a round that is 'playing' and a letter not yet in
`guessedLetters`, `handleGuess` appends the letter to `guessedLetters` (target
word and `hintUsed` unchanged).  If the letter is not in the target word,
`wrongCount` grows by 1 and the status becomes 'lost' if and only if the new
`wrongCount` has reached `MAX_WRONG` (in a reachable round: equals 4), staying
'playing' otherwise.  If the letter is in the target word, `wrongCount` is
unchanged and the status becomes 'won' if and only if every A–Z character of
the target word is now in `guessedLetters`, staying 'playing' otherwise. -/
theorem HangmanGame.handleGuess_new_letter (s : HangmanGame.State) (letter : Char)
    (hplay : s.status = HangmanGame.Status.playing) (hnew : letter ∉ s.guessedLetters) :
    (HangmanGame.handleGuess s letter).guessedLetters = s.guessedLetters ++ [letter] ∧
      (HangmanGame.handleGuess s letter).targetWord = s.targetWord ∧
      (HangmanGame.handleGuess s letter).hintUsed = s.hintUsed ∧
      (letter ∉ s.targetWord.toList →
        (HangmanGame.handleGuess s letter).wrongCount = s.wrongCount + 1 ∧
        ((HangmanGame.handleGuess s letter).status = HangmanGame.Status.lost ↔
          HangmanGame.MAX_WRONG ≤ s.wrongCount + 1) ∧
        (HangmanGame.Reachable s →
          ((HangmanGame.handleGuess s letter).status = HangmanGame.Status.lost ↔
            s.wrongCount + 1 = 4)) ∧
        ((HangmanGame.handleGuess s letter).status ≠ HangmanGame.Status.lost →
          (HangmanGame.handleGuess s letter).status = HangmanGame.Status.playing)) ∧
      (letter ∈ s.targetWord.toList →
        (HangmanGame.handleGuess s letter).wrongCount = s.wrongCount ∧
        ((HangmanGame.handleGuess s letter).status = HangmanGame.Status.won ↔
          ∀ c ∈ s.targetWord.toList, HangmanGame.isAZ c = true →
            c ∈ (HangmanGame.handleGuess s letter).guessedLetters) ∧
        ((HangmanGame.handleGuess s letter).status ≠ HangmanGame.Status.won →
          (HangmanGame.handleGuess s letter).status = HangmanGame.Status.playing)) := by
  by_cases hin : letter ∈ s.targetWord.toList
  · obtain ⟨hg, ht, hright⟩ := HangmanGame.handleGuess_fresh s letter hplay hnew
    have hhint : (HangmanGame.handleGuess s letter).hintUsed = s.hintUsed := by
      unfold HangmanGame.handleGuess
      dsimp only
      split_ifs <;> rfl
    exact ⟨hg, ht, hhint, fun h => absurd hin h, fun _ => hright hin⟩
  · have e : HangmanGame.handleGuess s letter
        = { s with guessedLetters := s.guessedLetters ++ [letter],
                   wrongCount := s.wrongCount + 1,
                   status := if s.wrongCount + 1 ≥ HangmanGame.MAX_WRONG
                     then HangmanGame.Status.lost else s.status } := by
      unfold HangmanGame.handleGuess
      rw [if_neg (by simp [hplay]), if_neg (by simpa using hnew)]
      dsimp only
      rw [if_pos (by simpa using hin)]
    rw [e]
    refine ⟨rfl, rfl, rfl, fun _ => ⟨rfl, ?_, ?_, ?_⟩, fun h => absurd h hin⟩
    · dsimp only
      by_cases hw : s.wrongCount + 1 ≥ HangmanGame.MAX_WRONG
      · simp [hw]
      · simp [hw, hplay]
    · intro hr
      have hinv := HangmanGame.reachable_roundInv s hr
      have hlt : s.wrongCount < 4 := by
        have h1 : s.wrongCount ≤ 4 := hinv.1
        have h2 : s.wrongCount ≠ 4 := by
          intro h4
          have := hinv.2.mpr h4
          rw [hplay] at this
          exact absurd this (by decide)
        omega
      dsimp only
      unfold HangmanGame.MAX_WRONG
      by_cases hw : s.wrongCount + 1 ≥ 4
      · rw [if_pos hw]
        exact ⟨fun _ => by omega, fun _ => rfl⟩
      · rw [if_neg hw, hplay]
        exact ⟨fun h => absurd h (by decide), fun h => absurd h (by omega)⟩
    · dsimp only
      split_ifs
      · intro h; exact absurd rfl h
      · intro _; exact hplay

/-- C14, at `beefRound` (target "BEEF NOODLE", `B` guessed) and the new letter
`E`, which is in the target word: `E` is recorded and the round goes on. -/
theorem HangmanGame.handleGuess_new_letter_witness :
    (HangmanGame.handleGuess HangmanGame.beefRound 'E').guessedLetters = ['B', 'E'] ∧
    (HangmanGame.handleGuess HangmanGame.beefRound 'E').status = HangmanGame.Status.playing ∧
    ((HangmanGame.handleGuess HangmanGame.beefRound 'E').guessedLetters
        = HangmanGame.beefRound.guessedLetters ++ ['E'] ∧
      (HangmanGame.handleGuess HangmanGame.beefRound 'E').targetWord
        = HangmanGame.beefRound.targetWord ∧
      (HangmanGame.handleGuess HangmanGame.beefRound 'E').hintUsed
        = HangmanGame.beefRound.hintUsed ∧
      ('E' ∉ HangmanGame.beefRound.targetWord.toList →
        (HangmanGame.handleGuess HangmanGame.beefRound 'E').wrongCount
          = HangmanGame.beefRound.wrongCount + 1 ∧
        ((HangmanGame.handleGuess HangmanGame.beefRound 'E').status = HangmanGame.Status.lost ↔
          HangmanGame.MAX_WRONG ≤ HangmanGame.beefRound.wrongCount + 1) ∧
        (HangmanGame.Reachable HangmanGame.beefRound →
          ((HangmanGame.handleGuess HangmanGame.beefRound 'E').status
              = HangmanGame.Status.lost ↔
            HangmanGame.beefRound.wrongCount + 1 = 4)) ∧
        ((HangmanGame.handleGuess HangmanGame.beefRound 'E').status ≠ HangmanGame.Status.lost →
          (HangmanGame.handleGuess HangmanGame.beefRound 'E').status
            = HangmanGame.Status.playing)) ∧
      ('E' ∈ HangmanGame.beefRound.targetWord.toList →
        (HangmanGame.handleGuess HangmanGame.beefRound 'E').wrongCount
          = HangmanGame.beefRound.wrongCount ∧
        ((HangmanGame.handleGuess HangmanGame.beefRound 'E').status = HangmanGame.Status.won ↔
          ∀ c ∈ HangmanGame.beefRound.targetWord.toList, HangmanGame.isAZ c = true →
            c ∈ (HangmanGame.handleGuess HangmanGame.beefRound 'E').guessedLetters) ∧
        ((HangmanGame.handleGuess HangmanGame.beefRound 'E').status ≠ HangmanGame.Status.won →
          (HangmanGame.handleGuess HangmanGame.beefRound 'E').status
            = HangmanGame.Status.playing))) :=
  ⟨by decide, by decide,
   HangmanGame.handleGuess_new_letter HangmanGame.beefRound 'E' (by decide) (by decide)⟩

/-- C15: in a round whose status is 'won' or 'lost', every letter guess and
every hint leaves the whole round state unchanged. -/
theorem HangmanGame.terminal_unchanged (s : HangmanGame.State)
    (h : s.status = HangmanGame.Status.won ∨ s.status = HangmanGame.Status.lost) :
    (∀ letter, HangmanGame.handleGuess s letter = s) ∧
      (∀ random, HangmanGame.useHint s random = s) := by
  have hne : s.status ≠ HangmanGame.Status.playing := by
    rcases h with h | h <;> rw [h] <;> decide
  constructor
  · intro letter
    unfold HangmanGame.handleGuess
    rw [if_pos hne]
  · intro random
    unfold HangmanGame.useHint
    rw [if_pos (Or.inr hne)]

/-- C15, at `lostRound`, the round lost by four wrong guesses. -/
theorem HangmanGame.terminal_unchanged_witness :
    HangmanGame.lostRound.status = HangmanGame.Status.lost ∧
    ((∀ letter, HangmanGame.handleGuess HangmanGame.lostRound letter = HangmanGame.lostRound) ∧
      (∀ random, HangmanGame.useHint HangmanGame.lostRound random = HangmanGame.lostRound)) :=
  ⟨by decide, HangmanGame.terminal_unchanged HangmanGame.lostRound (Or.inr (by decide))⟩

/-- A guess keeps the open-letter invariant. -/
theorem HangmanGame.handleGuess_openInv (s : HangmanGame.State) (letter : Char)
    (h : HangmanGame.OpenInv s) : HangmanGame.OpenInv (HangmanGame.handleGuess s letter) := by
  by_cases hp : s.status = HangmanGame.Status.playing
  · by_cases hmem : letter ∈ s.guessedLetters
    · have e : HangmanGame.handleGuess s letter
          = { s with wrongCount := s.wrongCount + 1,
                     status := if s.wrongCount + 1 ≥ HangmanGame.MAX_WRONG
                       then HangmanGame.Status.lost else s.status } := by
        unfold HangmanGame.handleGuess
        rw [if_neg (by simp [hp]), if_pos (by simpa using hmem)]
      rw [e]
      intro _ hex
      exact h hp hex
    · obtain ⟨hg, ht, hright⟩ := HangmanGame.handleGuess_fresh s letter hp hmem
      intro hplay hex
      rw [ht] at hex
      unfold HangmanGame.HasUnguessed
      rw [ht, hg]
      by_cases hin : letter ∈ s.targetWord.toList
      · obtain ⟨_, hwon, _⟩ := hright hin
        have hnot : ¬ ∀ c ∈ s.targetWord.toList, HangmanGame.isAZ c = true →
            c ∈ (HangmanGame.handleGuess s letter).guessedLetters := by
          intro hall
          have := hwon.mpr hall
          rw [hplay] at this
          exact absurd this (by decide)
        rw [hg] at hnot
        push_neg at hnot
        exact hnot
      · obtain ⟨c, hc, haz, hng⟩ := h hp hex
        refine ⟨c, hc, haz, ?_⟩
        intro hcm
        simp only [List.mem_append, List.mem_singleton] at hcm
        rcases hcm with hcm | hcm
        · exact hng hcm
        · exact hin (hcm ▸ hc)
  · have e : HangmanGame.handleGuess s letter = s := by
      unfold HangmanGame.handleGuess
      rw [if_pos hp]
    rw [e]
    exact h

/-- In every reachable round that is being played, a target word with an A–Z
letter has one that is not guessed yet. -/
theorem HangmanGame.reachable_openInv (s : HangmanGame.State) (hr : HangmanGame.Reachable s) :
    HangmanGame.OpenInv s := by
  induction hr with
  | start toUpperCase name =>
    intro _ hex
    obtain ⟨c, hc, haz⟩ := hex
    exact ⟨c, hc, haz, by simp [HangmanGame.startNewGame]⟩
  | guess s letter _ ih => exact HangmanGame.handleGuess_openInv s letter ih
  | hint s random _ ih =>
    unfold HangmanGame.useHint
    split
    · exact ih
    · split
      · rename_i c _
        have := HangmanGame.handleGuess_openInv s c ih
        exact this
      · exact ih

/-- C16 (as stated, refuted): the round `digitsRound`, reachable by starting a
game on the dish name "36", is 'playing' with `hintUsed = false`, yet the hint
changes nothing in it: no letter is revealed and `hintUsed` stays false. -/
theorem HangmanGame.hint_without_letters_does_nothing :
    HangmanGame.Reachable HangmanGame.digitsRound ∧
      HangmanGame.digitsRound.targetWord = "36" ∧
      HangmanGame.digitsRound.status = HangmanGame.Status.playing ∧
      HangmanGame.digitsRound.hintUsed = false ∧
      HangmanGame.useHint HangmanGame.digitsRound 0 = HangmanGame.digitsRound ∧
      (HangmanGame.useHint HangmanGame.digitsRound 0).hintUsed = false ∧
      (HangmanGame.useHint HangmanGame.digitsRound 0).guessedLetters = [] :=
  ⟨HangmanGame.Reachable.start _ _, by decide, by decide, by decide, by decide, by decide,
    by decide⟩

/-- C16 (amended): in a round that is 'playing' with `hintUsed = false` whose
target word has an A–Z letter that is not guessed yet, the hint appends one
such letter to `guessedLetters`, leaves `wrongCount` unchanged, leaves the
status 'playing' or sets it to 'won' (never 'lost'), and sets `hintUsed` to
true.  In such a round without an unguessed A–Z letter (in a reachable round:
exactly when the target word has no A–Z letter at all) the hint changes
nothing.  In every state with `hintUsed = true` a hint changes nothing, and a
letter guess never changes `hintUsed`. -/
theorem HangmanGame.useHint_effect (s : HangmanGame.State) (random : Nat) :
    (s.status = HangmanGame.Status.playing → s.hintUsed = false →
      HangmanGame.HasUnguessed s →
      ∃ c, c ∈ s.targetWord.toList ∧ HangmanGame.isAZ c = true ∧ c ∉ s.guessedLetters ∧
        (HangmanGame.useHint s random).guessedLetters = s.guessedLetters ++ [c] ∧
        (HangmanGame.useHint s random).wrongCount = s.wrongCount ∧
        ((HangmanGame.useHint s random).status = HangmanGame.Status.playing ∨
          (HangmanGame.useHint s random).status = HangmanGame.Status.won) ∧
        (HangmanGame.useHint s random).status ≠ HangmanGame.Status.lost ∧
        (HangmanGame.useHint s random).hintUsed = true ∧
        (HangmanGame.useHint s random).targetWord = s.targetWord) ∧
    (s.status = HangmanGame.Status.playing → s.hintUsed = false →
      ¬ HangmanGame.HasUnguessed s → HangmanGame.useHint s random = s) ∧
    (HangmanGame.Reachable s → s.status = HangmanGame.Status.playing →
      (HangmanGame.HasUnguessed s ↔ ∃ c ∈ s.targetWord.toList, HangmanGame.isAZ c = true)) ∧
    (s.hintUsed = true → HangmanGame.useHint s random = s) ∧
    (∀ letter, (HangmanGame.handleGuess s letter).hintUsed = s.hintUsed) := by
  refine ⟨?_, ?_, ?_, ?_, ?_⟩
  · intro hp hh hun
    have hne : HangmanGame.unguessed s ≠ [] := (HangmanGame.unguessed_ne_nil_iff s).mpr hun
    have hlen : 0 < (HangmanGame.unguessed s).length := List.length_pos.mpr hne
    have hidx : random % (HangmanGame.unguessed s).length < (HangmanGame.unguessed s).length :=
      Nat.mod_lt _ hlen
    have hget : (HangmanGame.unguessed s).get? (random % (HangmanGame.unguessed s).length)
        = some ((HangmanGame.unguessed s).get ⟨_, hidx⟩) := List.get?_eq_get hidx
    have hmem : (HangmanGame.unguessed s).get ⟨_, hidx⟩ ∈ HangmanGame.unguessed s :=
      List.get_mem _ _ _
    have hprop : (HangmanGame.unguessed s).get ⟨_, hidx⟩ ∈ s.targetWord.toList ∧
        HangmanGame.isAZ ((HangmanGame.unguessed s).get ⟨_, hidx⟩) = true ∧
        (HangmanGame.unguessed s).get ⟨_, hidx⟩ ∉ s.guessedLetters := by
      have hall : ∀ c ∈ HangmanGame.unguessed s, c ∈ s.targetWord.toList ∧
          HangmanGame.isAZ c = true ∧ c ∉ s.guessedLetters := by
        intro c hc
        unfold HangmanGame.unguessed at hc
        rw [List.mem_filter] at hc
        refine ⟨hc.1, ?_⟩
        simpa using hc.2
      exact hall _ hmem
    have e : HangmanGame.useHint s random
        = { HangmanGame.handleGuess s ((HangmanGame.unguessed s).get ⟨_, hidx⟩) with
            hintUsed := true } := by
      unfold HangmanGame.useHint
      rw [if_neg (by simp [hp, hh]), hget]
    obtain ⟨hg, ht, hright⟩ := HangmanGame.handleGuess_fresh s _ hp hprop.2.2
    obtain ⟨hw, _, hstay⟩ := hright hprop.1
    refine ⟨_, hprop.1, hprop.2.1, hprop.2.2, ?_, ?_, ?_, ?_, ?_, ?_⟩
    · rw [e]; exact hg
    · rw [e]; exact hw
    · rw [e]
      by_cases hwon : (HangmanGame.handleGuess s
          ((HangmanGame.unguessed s).get ⟨_, hidx⟩)).status = HangmanGame.Status.won
      · exact Or.inr hwon
      · exact Or.inl (hstay hwon)
    · rw [e]
      by_cases hwon : (HangmanGame.handleGuess s
          ((HangmanGame.unguessed s).get ⟨_, hidx⟩)).status = HangmanGame.Status.won
      · show (HangmanGame.handleGuess s _).status ≠ _
        rw [hwon]; decide
      · show (HangmanGame.handleGuess s _).status ≠ _
        rw [hstay hwon]; decide
    · rw [e]
    · rw [e]; exact ht
  · intro hp hh hun
    have hnil : HangmanGame.unguessed s = [] := by
      by_contra hne
      exact hun ((HangmanGame.unguessed_ne_nil_iff s).mp hne)
    unfold HangmanGame.useHint
    rw [if_neg (by simp [hp, hh]), hnil]
    rfl
  · intro hr hp
    constructor
    · rintro ⟨c, hc, haz, _⟩
      exact ⟨c, hc, haz⟩
    · exact HangmanGame.reachable_openInv s hr hp
  · intro hh
    unfold HangmanGame.useHint
    rw [if_pos (Or.inl hh)]
  · intro letter
    unfold HangmanGame.handleGuess
    dsimp only
    split_ifs <;> rfl

/-- C16 (amended), at `beefRound` (target "BEEF NOODLE", `B` guessed, hint not
used) and the random outcome 0: the hint reveals `E`. -/
theorem HangmanGame.useHint_effect_witness :
    (HangmanGame.useHint HangmanGame.beefRound 0).guessedLetters = ['B', 'E'] ∧
    (HangmanGame.useHint HangmanGame.beefRound 0).hintUsed = true ∧
    HangmanGame.useHint (HangmanGame.useHint HangmanGame.beefRound 0) 5
      = HangmanGame.useHint HangmanGame.beefRound 0 ∧
    ∃ c, c ∈ HangmanGame.beefRound.targetWord.toList ∧ HangmanGame.isAZ c = true ∧
      c ∉ HangmanGame.beefRound.guessedLetters ∧
      (HangmanGame.useHint HangmanGame.beefRound 0).guessedLetters
        = HangmanGame.beefRound.guessedLetters ++ [c] ∧
      (HangmanGame.useHint HangmanGame.beefRound 0).wrongCount
        = HangmanGame.beefRound.wrongCount ∧
      ((HangmanGame.useHint HangmanGame.beefRound 0).status = HangmanGame.Status.playing ∨
        (HangmanGame.useHint HangmanGame.beefRound 0).status = HangmanGame.Status.won) ∧
      (HangmanGame.useHint HangmanGame.beefRound 0).status ≠ HangmanGame.Status.lost ∧
      (HangmanGame.useHint HangmanGame.beefRound 0).hintUsed = true ∧
      (HangmanGame.useHint HangmanGame.beefRound 0).targetWord
        = HangmanGame.beefRound.targetWord :=
  ⟨by decide, by decide,
   (HangmanGame.useHint_effect (HangmanGame.useHint HangmanGame.beefRound 0) 5).2.2.2.1
    (by decide),
   (HangmanGame.useHint_effect HangmanGame.beefRound 0).1 (by decide) (by decide)
    ⟨'E', by decide, by decide, by decide⟩⟩

/-! ## Theorems: puzzle game, moves -/

/-- An operation that passes the check `Event.offered` is enabled. -/
theorem PuzzleGame.offered_enabled (s : PuzzleGame.State) (e : PuzzleGame.Event)
    (h : PuzzleGame.Event.offered s e = true) : PuzzleGame.Event.enabled s e := by
  cases e with
  | newGame shuffle => exact absurd h (by simp [PuzzleGame.Event.offered])
  | dragStart piece source =>
    have h2 : s.isSolved = false ∧ PuzzleGame.locatedAt s piece source := of_decide_eq_true h
    exact h2
  | drop targetIndex =>
    have h2 : targetIndex < PuzzleGame.TOTAL_PIECES := of_decide_eq_true h
    exact h2
  | pieceClick piece source =>
    have h2 : PuzzleGame.locatedAt s piece source ∧ source.isBank = true :=
      of_decide_eq_true h
    exact h2
  | boardPieceClick piece index =>
    have h2 : PuzzleGame.locatedAt s piece (PuzzleGame.Source.board index) :=
      of_decide_eq_true h
    exact h2
  | slotClick targetIndex =>
    have h2 : targetIndex < PuzzleGame.TOTAL_PIECES := of_decide_eq_true h
    exact h2
  | closeModal => trivial

/-- A list of operations that passes the check, performed in a reachable
state, is enabled step by step and leads to a reachable state. -/
theorem PuzzleGame.reachable_run (es : List PuzzleGame.Event) :
    ∀ s, PuzzleGame.Reachable s → PuzzleGame.runOffered s es = true →
      PuzzleGame.runEnabled s es ∧ PuzzleGame.Reachable (PuzzleGame.run s es) := by
  induction es with
  | nil => intro s hr _; exact ⟨trivial, hr⟩
  | cons e es ih =>
    intro s hr h
    have h2 : PuzzleGame.Event.offered s e = true
        ∧ PuzzleGame.runOffered (PuzzleGame.step s e) es = true := by
      simpa [PuzzleGame.runOffered] using h
    have he := PuzzleGame.offered_enabled s e h2.1
    obtain ⟨h3, h4⟩ := ih _ (PuzzleGame.Reachable.next s e hr he) h2.2
    exact ⟨⟨he, h3⟩, h4⟩

/-- The new game `orderedDeal` is reachable. -/
theorem PuzzleGame.orderedDeal_reachable : PuzzleGame.Reachable PuzzleGame.orderedDeal :=
  PuzzleGame.Reachable.start id (fun l => List.Perm.refl l)

/-- The banks and the board after a placement: the item is removed from its
recorded source, what slot `targetIndex` held goes to the bottom bank (bank
source) or to the source slot (board source), and the item is written to slot
`targetIndex`. -/
theorem PuzzleGame.placeOnBoard_fields (s : PuzzleGame.State) (x : PuzzleGame.Piece)
    (source : PuzzleGame.Source) (t : Nat) :
    (PuzzleGame.placeOnBoard s { item := x, source := source } t).leftBank
        = (PuzzleGame.removeFromSource s source x).leftBank ∧
      (PuzzleGame.placeOnBoard s { item := x, source := source } t).rightBank
        = (PuzzleGame.removeFromSource s source x).rightBank ∧
      (PuzzleGame.placeOnBoard s { item := x, source := source } t).bottomBank
        = (PuzzleGame.removeFromSource s source x).bottomBank
          ++ (if source.isBank = true then ((s.board.get? t).join).toList else []) ∧
      (PuzzleGame.placeOnBoard s { item := x, source := source } t).board
        = (match source with
            | PuzzleGame.Source.board i => s.board.set i ((s.board.get? t).join)
            | _ => s.board).set t (some x) := by
  unfold PuzzleGame.placeOnBoard PuzzleGame.removeFromSource
  cases source <;> cases (s.board.get? t).join <;> simp [PuzzleGame.Source.isBank]

/-- The banks, the board and the solved flag after a placement do not depend on
the drag and selection records of the state. -/
theorem PuzzleGame.placeOnBoard_records (s : PuzzleGame.State) (held : PuzzleGame.Held)
    (t : Nat) (d sel : Option PuzzleGame.Held) :
    (PuzzleGame.placeOnBoard { s with draggedItem := d, selectedPiece := sel } held t).board
        = (PuzzleGame.placeOnBoard s held t).board ∧
      (PuzzleGame.placeOnBoard { s with draggedItem := d, selectedPiece := sel } held t).leftBank
        = (PuzzleGame.placeOnBoard s held t).leftBank ∧
      (PuzzleGame.placeOnBoard { s with draggedItem := d, selectedPiece := sel } held t).rightBank
        = (PuzzleGame.placeOnBoard s held t).rightBank ∧
      (PuzzleGame.placeOnBoard { s with draggedItem := d, selectedPiece := sel } held t).bottomBank
        = (PuzzleGame.placeOnBoard s held t).bottomBank ∧
      (PuzzleGame.placeOnBoard { s with draggedItem := d, selectedPiece := sel } held t).isSolved
        = (PuzzleGame.placeOnBoard s held t).isSolved := by
  unfold PuzzleGame.placeOnBoard PuzzleGame.removeFromSource
  cases held.source <;> cases (s.board.get? t).join <;> exact ⟨rfl, rfl, rfl, rfl, rfl⟩

/-- C18: for every unsolved puzzle state, every piece/source pair and every
target slot, `handleBoardClick` with that pair as the selected piece produces
the same board, left, right and bottom bank and solved flag as
`handleDropToBoard` with that pair as the dragged item. -/
theorem PuzzleGame.click_eq_drop (s : PuzzleGame.State) (held : PuzzleGame.Held) (t : Nat)
    (hun : s.isSolved = false) :
    (PuzzleGame.handleBoardClick { s with selectedPiece := some held } t).board
        = (PuzzleGame.handleDropToBoard { s with draggedItem := some held } t).board ∧
      (PuzzleGame.handleBoardClick { s with selectedPiece := some held } t).leftBank
        = (PuzzleGame.handleDropToBoard { s with draggedItem := some held } t).leftBank ∧
      (PuzzleGame.handleBoardClick { s with selectedPiece := some held } t).rightBank
        = (PuzzleGame.handleDropToBoard { s with draggedItem := some held } t).rightBank ∧
      (PuzzleGame.handleBoardClick { s with selectedPiece := some held } t).bottomBank
        = (PuzzleGame.handleDropToBoard { s with draggedItem := some held } t).bottomBank ∧
      (PuzzleGame.handleBoardClick { s with selectedPiece := some held } t).isSolved
        = (PuzzleGame.handleDropToBoard { s with draggedItem := some held } t).isSolved := by
  have e1 : PuzzleGame.handleBoardClick { s with selectedPiece := some held } t
      = { PuzzleGame.placeOnBoard { s with selectedPiece := some held } held t with
          selectedPiece := none } := by
    unfold PuzzleGame.handleBoardClick
    rw [if_neg (by simp [hun])]
  have e2 : PuzzleGame.handleDropToBoard { s with draggedItem := some held } t
      = { PuzzleGame.placeOnBoard { s with draggedItem := some held } held t with
          draggedItem := none } := by
    unfold PuzzleGame.handleDropToBoard
    rfl
  obtain ⟨a1, a2, a3, a4, a5⟩ :=
    PuzzleGame.placeOnBoard_records s held t s.draggedItem (some held)
  obtain ⟨b1, b2, b3, b4, b5⟩ :=
    PuzzleGame.placeOnBoard_records s held t (some held) s.selectedPiece
  rw [e1, e2]
  exact ⟨a1.trans b1.symm, a2.trans b2.symm, a3.trans b3.symm, a4.trans b4.symm,
    a5.trans b5.symm⟩

/-- C18, at `displaceReady` with piece 0 of the left bank as the pair and the
occupied slot 0 as the target: either way piece 0 ends on slot 0 and the
displaced piece 1 at the end of the bottom bank. -/
theorem PuzzleGame.click_eq_drop_witness :
    (PuzzleGame.handleBoardClick
        { PuzzleGame.displaceReady with
          selectedPiece := some { item := { id := 0 }, source := PuzzleGame.Source.left } }
        0).bottomBank = [{ id := 8 }, { id := 9 }, { id := 10 }, { id := 11 }, { id := 1 }] ∧
    ((PuzzleGame.handleBoardClick
          { PuzzleGame.displaceReady with
            selectedPiece := some { item := { id := 0 }, source := PuzzleGame.Source.left } }
          0).board
        = (PuzzleGame.handleDropToBoard
          { PuzzleGame.displaceReady with
            draggedItem := some { item := { id := 0 }, source := PuzzleGame.Source.left } }
          0).board ∧
      (PuzzleGame.handleBoardClick
          { PuzzleGame.displaceReady with
            selectedPiece := some { item := { id := 0 }, source := PuzzleGame.Source.left } }
          0).leftBank
        = (PuzzleGame.handleDropToBoard
          { PuzzleGame.displaceReady with
            draggedItem := some { item := { id := 0 }, source := PuzzleGame.Source.left } }
          0).leftBank ∧
      (PuzzleGame.handleBoardClick
          { PuzzleGame.displaceReady with
            selectedPiece := some { item := { id := 0 }, source := PuzzleGame.Source.left } }
          0).rightBank
        = (PuzzleGame.handleDropToBoard
          { PuzzleGame.displaceReady with
            draggedItem := some { item := { id := 0 }, source := PuzzleGame.Source.left } }
          0).rightBank ∧
      (PuzzleGame.handleBoardClick
          { PuzzleGame.displaceReady with
            selectedPiece := some { item := { id := 0 }, source := PuzzleGame.Source.left } }
          0).bottomBank
        = (PuzzleGame.handleDropToBoard
          { PuzzleGame.displaceReady with
            draggedItem := some { item := { id := 0 }, source := PuzzleGame.Source.left } }
          0).bottomBank ∧
      (PuzzleGame.handleBoardClick
          { PuzzleGame.displaceReady with
            selectedPiece := some { item := { id := 0 }, source := PuzzleGame.Source.left } }
          0).isSolved
        = (PuzzleGame.handleDropToBoard
          { PuzzleGame.displaceReady with
            draggedItem := some { item := { id := 0 }, source := PuzzleGame.Source.left } }
          0).isSolved) :=
  ⟨by decide,
   PuzzleGame.click_eq_drop PuzzleGame.displaceReady
    { item := { id := 0 }, source := PuzzleGame.Source.left } 0 (by decide)⟩

/-- C19 (as stated, refuted): the state `solvedGame`, reached from a new game by
dragging every piece onto its slot, is solved; closing the victory modal, an
operation the page offers, unsets `isSolved` although the board is still
solved. -/
theorem PuzzleGame.closing_modal_unsets_solved :
    PuzzleGame.Reachable PuzzleGame.solvedGame ∧
      PuzzleGame.solvedGame.isSolved = true ∧
      PuzzleGame.Event.enabled PuzzleGame.solvedGame PuzzleGame.Event.closeModal ∧
      (PuzzleGame.step PuzzleGame.solvedGame PuzzleGame.Event.closeModal).isSolved = false ∧
      PuzzleGame.boardSolved
        (PuzzleGame.step PuzzleGame.solvedGame PuzzleGame.Event.closeModal).board = true :=
  ⟨(PuzzleGame.reachable_run PuzzleGame.solveMoves PuzzleGame.orderedDeal
      PuzzleGame.orderedDeal_reachable (by decide)).2,
   by decide, trivial, by decide, by decide⟩

/-- C19 (amended): once `isSolved` is true, piece clicks and board clicks change
nothing, and drag starts and drops keep `isSolved` true; it is unset only by
closing the victory modal and by starting a new game, both of which set it to
false. -/
theorem PuzzleGame.solved_sticky (s : PuzzleGame.State) (hs : s.isSolved = true) :
    (∀ piece source, PuzzleGame.handlePieceClick s piece source = s) ∧
      (∀ t, PuzzleGame.handleBoardClick s t = s) ∧
      (∀ piece index, PuzzleGame.handleBoardPieceClick s piece index = s) ∧
      (∀ item source, (PuzzleGame.handleDragStart s item source).isSolved = true) ∧
      (∀ t, (PuzzleGame.handleDropToBoard s t).isSolved = true) ∧
      (PuzzleGame.closeVictoryModal s).isSolved = false ∧
      (∀ shuffle, (PuzzleGame.startNewGame shuffle s).isSolved = false) := by
  refine ⟨?_, ?_, ?_, fun _ _ => hs, ?_, rfl, fun _ => rfl⟩
  · intro piece source
    unfold PuzzleGame.handlePieceClick
    rw [if_pos hs]
  · intro t
    unfold PuzzleGame.handleBoardClick
    rw [if_pos hs]
  · intro piece index
    unfold PuzzleGame.handleBoardPieceClick
    rw [if_pos hs]
  · intro t
    unfold PuzzleGame.handleDropToBoard
    split
    · exact hs
    · rename_i held _
      show (PuzzleGame.placeOnBoard s held t).isSolved = true
      rw [(PuzzleGame.placeOnBoard_isSolved s held t).1, hs]
      rfl

/-- C19 (amended), at `solvedGame`. -/
theorem PuzzleGame.solved_sticky_witness :
    (∀ piece source, PuzzleGame.handlePieceClick PuzzleGame.solvedGame piece source
        = PuzzleGame.solvedGame) ∧
      (∀ t, PuzzleGame.handleBoardClick PuzzleGame.solvedGame t = PuzzleGame.solvedGame) ∧
      (∀ piece index, PuzzleGame.handleBoardPieceClick PuzzleGame.solvedGame piece index
        = PuzzleGame.solvedGame) ∧
      (∀ item source,
        (PuzzleGame.handleDragStart PuzzleGame.solvedGame item source).isSolved = true) ∧
      (∀ t, (PuzzleGame.handleDropToBoard PuzzleGame.solvedGame t).isSolved = true) ∧
      (PuzzleGame.closeVictoryModal PuzzleGame.solvedGame).isSolved = false ∧
      (∀ shuffle, (PuzzleGame.startNewGame shuffle PuzzleGame.solvedGame).isSolved = false) :=
  PuzzleGame.solved_sticky PuzzleGame.solvedGame (by decide)

/-- C20 (failing input): `startNewGame` writes the solved flag, the board and
the banks, and nothing else, so the selection and the drag record of the
previous game survive it.  From `pieceZeroSelected` (piece 0 selected in the
left bank) the new game `reversedDeal` deals piece 0 to the bottom bank and
still records it as selected from the left bank; a click on the empty slot 0
then puts piece 0 on the board without taking it out of the bottom bank, so it
occurs twice. -/
theorem PuzzleGame.new_game_keeps_selection :
    (∀ (shuffle : List PuzzleGame.Piece → List PuzzleGame.Piece) (s : PuzzleGame.State),
      (PuzzleGame.startNewGame shuffle s).selectedPiece = s.selectedPiece ∧
      (PuzzleGame.startNewGame shuffle s).draggedItem = s.draggedItem ∧
      (PuzzleGame.startNewGame shuffle s).isSolved = false ∧
      (PuzzleGame.startNewGame shuffle s).board
        = List.replicate PuzzleGame.TOTAL_PIECES none) ∧
    PuzzleGame.Reachable PuzzleGame.reversedDeal ∧
    PuzzleGame.reversedDeal.selectedPiece
      = some { item := { id := 0 }, source := PuzzleGame.Source.left } ∧
    PuzzleGame.reversedDeal.leftBank = [{ id := 11 }, { id := 10 }, { id := 9 }, { id := 8 }] ∧
    PuzzleGame.reversedDeal.bottomBank = [{ id := 3 }, { id := 2 }, { id := 1 }, { id := 0 }] ∧
    PuzzleGame.Partitioned PuzzleGame.reversedDeal ∧
    PuzzleGame.Event.enabled PuzzleGame.reversedDeal (PuzzleGame.Event.slotClick 0) ∧
    (PuzzleGame.handleBoardClick PuzzleGame.reversedDeal 0).board.get? 0
      = some (some { id := 0 }) ∧
    (PuzzleGame.handleBoardClick PuzzleGame.reversedDeal 0).bottomBank
      = [{ id := 3 }, { id := 2 }, { id := 1 }, { id := 0 }] ∧
    PuzzleGame.occurrences (PuzzleGame.handleBoardClick PuzzleGame.reversedDeal 0) 0 = 2 ∧
    ¬ PuzzleGame.Partitioned (PuzzleGame.handleBoardClick PuzzleGame.reversedDeal 0) := by
  have h1 : PuzzleGame.Event.enabled PuzzleGame.orderedDeal
      (PuzzleGame.Event.pieceClick { id := 0 } PuzzleGame.Source.left) :=
    PuzzleGame.offered_enabled _ _ (by decide)
  have h2 : PuzzleGame.Event.enabled PuzzleGame.pieceZeroSelected
      (PuzzleGame.Event.newGame List.reverse) := fun l => List.reverse_perm l
  have h3 : PuzzleGame.Event.enabled PuzzleGame.reversedDeal (PuzzleGame.Event.slotClick 0) :=
    PuzzleGame.offered_enabled _ _ (by decide)
  refine ⟨fun _ _ => ⟨rfl, rfl, rfl, rfl⟩, ?_, by decide, by decide, by decide, by decide, h3,
    by decide, by decide, by decide, by decide⟩
  exact PuzzleGame.Reachable.next _ _
    (PuzzleGame.Reachable.next _ _ PuzzleGame.orderedDeal_reachable h1) h2

/-- Where a piece is rendered depends only on the banks and the board. -/
theorem PuzzleGame.locatedAt_congr (s1 s2 : PuzzleGame.State) (p : PuzzleGame.Piece)
    (source : PuzzleGame.Source) (hb : s1.board = s2.board) (hl : s1.leftBank = s2.leftBank)
    (hr : s1.rightBank = s2.rightBank) (hbo : s1.bottomBank = s2.bottomBank) :
    PuzzleGame.locatedAt s1 p source ↔ PuzzleGame.locatedAt s2 p source := by
  unfold PuzzleGame.locatedAt
  cases source <;> simp only [hb, hl, hr, hbo]

/-- The effect of a placement of a piece `x` that lies at its recorded source
on a slot `t` that is empty or holds a piece with another id. -/
theorem PuzzleGame.placeOnBoard_move (s : PuzzleGame.State) (x : PuzzleGame.Piece)
    (source : PuzzleGame.Source) (t : Nat)
    (hsrc : PuzzleGame.locatedAt s x source) (ht : t < s.board.length)
    (hslot : ∀ y, s.board.get? t = some (some y) → y.id ≠ x.id) :
    (PuzzleGame.placeOnBoard s { item := x, source := source } t).board.get? t
        = some (some x) ∧
      ¬ PuzzleGame.locatedAt (PuzzleGame.placeOnBoard s { item := x, source := source } t)
        x source ∧
      (∀ y, s.board.get? t = some (some y) →
        (source.isBank = true →
          (PuzzleGame.placeOnBoard s { item := x, source := source } t).bottomBank
            = (PuzzleGame.removeFromSource s source x).bottomBank ++ [y]) ∧
        (∀ i, source = PuzzleGame.Source.board i →
          (PuzzleGame.placeOnBoard s { item := x, source := source } t).board.get? i
            = some (some y))) ∧
      (s.board.get? t = some none →
        (PuzzleGame.placeOnBoard s { item := x, source := source } t).bottomBank
          = (PuzzleGame.removeFromSource s source x).bottomBank ∧
        (∀ i, source = PuzzleGame.Source.board i →
          (PuzzleGame.placeOnBoard s { item := x, source := source } t).board.get? i
            = some none)) ∧
      (∀ z src, z.id ≠ x.id → s.board.get? t ≠ some (some z) →
        (PuzzleGame.locatedAt (PuzzleGame.placeOnBoard s { item := x, source := source } t)
          z src ↔ PuzzleGame.locatedAt s z src)) := by
  obtain ⟨hL, hR, hB, hBoard⟩ := PuzzleGame.placeOnBoard_fields s x source t
  have hE : s.board.get? t = some ((s.board.get? t).join) := by
    rw [List.get?_eq_get ht]
    rfl
  have hjoin : ∀ v, s.board.get? t = some v → (s.board.get? t).join = v := by
    intro v hv
    rw [hv]
    rfl
  have hjz : ∀ z, s.board.get? t ≠ some (some z) → (s.board.get? t).join ≠ some z := by
    intro z hz hj
    rw [hj] at hE
    exact hz hE
  have hxz : ∀ z : PuzzleGame.Piece, z.id ≠ x.id → x ≠ z := fun z h e => h (by rw [e])
  have hfilter : ∀ (l : List PuzzleGame.Piece) (z : PuzzleGame.Piece), z.id ≠ x.id →
      (z ∈ l.filter (fun p => decide (p.id ≠ x.id)) ↔ z ∈ l) := by
    intro l z hz
    simp [List.mem_filter, hz]
  have hnotin : ∀ l : List PuzzleGame.Piece, x ∉ l.filter (fun p => decide (p.id ≠ x.id)) := by
    intro l hx
    simp [List.mem_filter] at hx
  have happ : ∀ (l : List PuzzleGame.Piece) (z : PuzzleGame.Piece),
      (s.board.get? t).join ≠ some z →
      (z ∈ l ++ ((s.board.get? t).join).toList ↔ z ∈ l) := by
    intro l z hz
    cases hj : (s.board.get? t).join with
    | none => simp
    | some e =>
      rw [hj] at hz
      have hze : z ≠ e := fun h => hz (by rw [h])
      simp [hze]
  have hset : ∀ (b : List (Option PuzzleGame.Piece)) (j : Nat) (z : PuzzleGame.Piece),
      z.id ≠ x.id → b.get? t ≠ some (some z) →
      ((b.set t (some x)).get? j = some (some z) ↔ b.get? j = some (some z)) := by
    intro b j z hz hbt
    rw [List.get?_eq_getElem?, List.get?_eq_getElem?] at *
    by_cases hj : t = j
    · subst hj
      rw [List.getElem?_set]
      simp only [if_true]
      constructor
      · intro h
        split at h
        · simp only [Option.some.injEq] at h
          exact absurd h (hxz z hz)
        · exact absurd h (by simp)
      · intro h
        exact absurd h hbt
    · rw [List.getElem?_set_ne hj]
  cases source with
  | left =>
    have hrm : PuzzleGame.removeFromSource s PuzzleGame.Source.left x
        = { s with leftBank := s.leftBank.filter (fun p => decide (p.id ≠ x.id)) } := rfl
    rw [hrm] at hL hR hB ⊢
    simp only [PuzzleGame.Source.isBank, if_true] at hB
    simp only at hBoard hL hR hB
    refine ⟨?_, ?_, ?_, ?_, ?_⟩
    · rw [hBoard, List.get?_eq_getElem?, List.getElem?_set_self ht]
    · unfold PuzzleGame.locatedAt
      simp only [hL]
      exact hnotin _
    · intro y hy
      refine ⟨fun _ => ?_, fun i hi => by cases hi⟩
      rw [hB, hjoin _ hy]
      rfl
    · intro hn
      refine ⟨?_, fun i hi => by cases hi⟩
      rw [hB, hjoin _ hn]
      simp
    · intro z src hz hzt
      unfold PuzzleGame.locatedAt
      cases src with
      | left => simp only [hL]; exact hfilter _ z hz
      | right => simp only [hR]
      | bottom => simp only [hB]; exact happ _ z (hjz z hzt)
      | board j => simp only [hBoard]; exact hset _ j z hz hzt
  | right =>
    have hrm : PuzzleGame.removeFromSource s PuzzleGame.Source.right x
        = { s with rightBank := s.rightBank.filter (fun p => decide (p.id ≠ x.id)) } := rfl
    rw [hrm] at hL hR hB ⊢
    simp only [PuzzleGame.Source.isBank, if_true] at hB
    simp only at hBoard hL hR hB
    refine ⟨?_, ?_, ?_, ?_, ?_⟩
    · rw [hBoard, List.get?_eq_getElem?, List.getElem?_set_self ht]
    · unfold PuzzleGame.locatedAt
      simp only [hR]
      exact hnotin _
    · intro y hy
      refine ⟨fun _ => ?_, fun i hi => by cases hi⟩
      rw [hB, hjoin _ hy]
      rfl
    · intro hn
      refine ⟨?_, fun i hi => by cases hi⟩
      rw [hB, hjoin _ hn]
      simp
    · intro z src hz hzt
      unfold PuzzleGame.locatedAt
      cases src with
      | left => simp only [hL]
      | right => simp only [hR]; exact hfilter _ z hz
      | bottom => simp only [hB]; exact happ _ z (hjz z hzt)
      | board j => simp only [hBoard]; exact hset _ j z hz hzt
  | bottom =>
    have hrm : PuzzleGame.removeFromSource s PuzzleGame.Source.bottom x
        = { s with bottomBank := s.bottomBank.filter (fun p => decide (p.id ≠ x.id)) } := rfl
    rw [hrm] at hL hR hB ⊢
    simp only [PuzzleGame.Source.isBank, if_true] at hB
    simp only at hBoard hL hR hB
    refine ⟨?_, ?_, ?_, ?_, ?_⟩
    · rw [hBoard, List.get?_eq_getElem?, List.getElem?_set_self ht]
    · unfold PuzzleGame.locatedAt
      simp only [hB]
      intro hx
      rw [List.mem_append] at hx
      rcases hx with hx | hx
      · exact hnotin _ hx
      · cases hj : (s.board.get? t).join with
        | none => rw [hj] at hx; simp at hx
        | some e =>
          rw [hj] at hx hE
          simp only [Option.toList, List.mem_singleton] at hx
          exact hslot e hE (by rw [hx])
    · intro y hy
      refine ⟨fun _ => ?_, fun i hi => by cases hi⟩
      rw [hB, hjoin _ hy]
      rfl
    · intro hn
      refine ⟨?_, fun i hi => by cases hi⟩
      rw [hB, hjoin _ hn]
      simp
    · intro z src hz hzt
      unfold PuzzleGame.locatedAt
      cases src with
      | left => simp only [hL]
      | right => simp only [hR]
      | bottom =>
        simp only [hB]
        rw [happ _ z (hjz z hzt)]
        exact hfilter _ z hz
      | board j => simp only [hBoard]; exact hset _ j z hz hzt
  | board i =>
    have hrm : PuzzleGame.removeFromSource s (PuzzleGame.Source.board i) x
        = { s with board := s.board.set i none } := rfl
    have hsi : s.board.get? i = some (some x) := hsrc
    have hit : i ≠ t := by
      intro h
      rw [h] at hsi
      exact hslot x hsi rfl
    have hilt : i < s.board.length := by
      by_contra hge
      rw [List.get?_eq_getElem?, List.getElem?_eq_none (by omega)] at hsi
      exact absurd hsi (by simp)
    rw [hrm] at hL hR hB ⊢
    simp only [PuzzleGame.Source.isBank] at hB
    simp only at hBoard hL hR hB
    have hui : (PuzzleGame.placeOnBoard s
        { item := x, source := PuzzleGame.Source.board i } t).board.get? i
        = some ((s.board.get? t).join) := by
      rw [hBoard, List.get?_eq_getElem?, List.getElem?_set_ne (Ne.symm hit),
        List.getElem?_set_self hilt]
    refine ⟨?_, ?_, ?_, ?_, ?_⟩
    · rw [hBoard, List.get?_eq_getElem?,
        List.getElem?_set_self (by rw [List.length_set]; exact ht)]
    · unfold PuzzleGame.locatedAt
      simp only
      rw [hui]
      intro h
      simp only [Option.some.injEq] at h
      rw [h] at hE
      exact hslot x hE rfl
    · intro y hy
      refine ⟨fun hb => absurd hb (by simp [PuzzleGame.Source.isBank]), fun i2 hi => ?_⟩
      cases hi
      rw [hui, hjoin _ hy]
    · intro hn
      refine ⟨(by rw [hB]; simp), fun i2 hi => ?_⟩
      cases hi
      rw [hui, hjoin _ hn]
    · intro z src hz hzt
      unfold PuzzleGame.locatedAt
      cases src with
      | left => simp only [hL]
      | right => simp only [hR]
      | bottom => simp only [hB]; simp
      | board j =>
        simp only [hBoard]
        have hbt : (s.board.set i ((s.board.get? t).join)).get? t ≠ some (some z) := by
          rw [List.get?_eq_getElem?, List.getElem?_set_ne hit, ← List.get?_eq_getElem?]
          exact hzt
        rw [hset _ j z hz hbt]
        by_cases hij : i = j
        · subst hij
          rw [List.get?_eq_getElem?, List.getElem?_set_self hilt, hsi]
          simp only [Option.some.injEq]
          constructor
          · intro h
            exact absurd h (hjz z hzt)
          · intro h
            exact absurd h (hxz z hz)
        · rw [List.get?_eq_getElem?, List.getElem?_set_ne hij, ← List.get?_eq_getElem?]

/-- C17 (as stated, refuted): in the reachable state `heldOnOwnSlot`, piece 0
lies on board slot 0 and is being dragged from there; dropping it on slot 0,
its own slot, leaves it in its source slot (the state changes only in that the
drag record is cleared). -/
theorem PuzzleGame.own_slot_drop_keeps_source :
    PuzzleGame.Reachable PuzzleGame.heldOnOwnSlot ∧
      PuzzleGame.heldOnOwnSlot.draggedItem
        = some { item := { id := 0 }, source := PuzzleGame.Source.board 0 } ∧
      PuzzleGame.locatedAt PuzzleGame.heldOnOwnSlot { id := 0 } (PuzzleGame.Source.board 0) ∧
      PuzzleGame.Event.enabled PuzzleGame.heldOnOwnSlot (PuzzleGame.Event.drop 0) ∧
      PuzzleGame.locatedAt (PuzzleGame.handleDropToBoard PuzzleGame.heldOnOwnSlot 0)
        { id := 0 } (PuzzleGame.Source.board 0) ∧
      PuzzleGame.handleDropToBoard PuzzleGame.heldOnOwnSlot 0
        = { PuzzleGame.heldOnOwnSlot with draggedItem := none } :=
  ⟨(PuzzleGame.reachable_run PuzzleGame.ownSlotMoves PuzzleGame.orderedDeal
      PuzzleGame.orderedDeal_reachable (by decide)).2,
   by decide, by decide, PuzzleGame.offered_enabled _ _ (by decide), by decide, by decide⟩

/-- C17 (amended): let a piece `x` lie at its recorded source and be moved to
board slot `t`, by `handleDropToBoard` from the drag record or by
`handleBoardClick` from the selection of an unsolved puzzle, `u` being the
state after the move.  If slot `t` was empty or held a piece with another id:
slot `t` holds `x` in `u` and `x` is no longer at its source; a piece `y`
previously on slot `t` is appended to the bottom bank when the source is a
bank, and lies on the source slot when the source is a board slot; when slot
`t` was empty nothing is appended and a source slot is left empty; and every
piece with another id that was not on slot `t` is rendered in `u` exactly where
it was.  If `t` is the source slot itself, the board and the banks are
unchanged. -/
theorem PuzzleGame.move_effect (s u : PuzzleGame.State) (x : PuzzleGame.Piece)
    (source : PuzzleGame.Source) (t : Nat)
    (hsrc : PuzzleGame.locatedAt s x source) (ht : t < s.board.length)
    (hu : (s.draggedItem = some { item := x, source := source } ∧
        u = PuzzleGame.handleDropToBoard s t) ∨
      (s.isSolved = false ∧ s.selectedPiece = some { item := x, source := source } ∧
        u = PuzzleGame.handleBoardClick s t)) :
    ((∀ y, s.board.get? t = some (some y) → y.id ≠ x.id) →
      u.board.get? t = some (some x) ∧
      ¬ PuzzleGame.locatedAt u x source ∧
      (∀ y, s.board.get? t = some (some y) →
        (source.isBank = true →
          u.bottomBank = (PuzzleGame.removeFromSource s source x).bottomBank ++ [y]) ∧
        (∀ i, source = PuzzleGame.Source.board i → u.board.get? i = some (some y))) ∧
      (s.board.get? t = some none →
        u.bottomBank = (PuzzleGame.removeFromSource s source x).bottomBank ∧
        (∀ i, source = PuzzleGame.Source.board i → u.board.get? i = some none)) ∧
      (∀ z src, z.id ≠ x.id → s.board.get? t ≠ some (some z) →
        (PuzzleGame.locatedAt u z src ↔ PuzzleGame.locatedAt s z src))) ∧
    (source = PuzzleGame.Source.board t →
      u.board = s.board ∧ u.leftBank = s.leftBank ∧ u.rightBank = s.rightBank ∧
      u.bottomBank = s.bottomBank) := by
  have hfields : u.board = (PuzzleGame.placeOnBoard s { item := x, source := source } t).board ∧
      u.leftBank = (PuzzleGame.placeOnBoard s { item := x, source := source } t).leftBank ∧
      u.rightBank = (PuzzleGame.placeOnBoard s { item := x, source := source } t).rightBank ∧
      u.bottomBank
        = (PuzzleGame.placeOnBoard s { item := x, source := source } t).bottomBank := by
    rcases hu with ⟨hd, rfl⟩ | ⟨hun, hsel, rfl⟩
    · unfold PuzzleGame.handleDropToBoard
      rw [hd]
      exact ⟨rfl, rfl, rfl, rfl⟩
    · unfold PuzzleGame.handleBoardClick
      rw [if_neg (by simp [hun]), hsel]
      exact ⟨rfl, rfl, rfl, rfl⟩
  obtain ⟨hb, hl, hr, hbo⟩ := hfields
  constructor
  · intro hslot
    obtain ⟨m1, m2, m3, m4, m5⟩ := PuzzleGame.placeOnBoard_move s x source t hsrc ht hslot
    refine ⟨by rw [hb]; exact m1, ?_, ?_, ?_, ?_⟩
    · rw [PuzzleGame.locatedAt_congr u _ x source hb hl hr hbo]
      exact m2
    · intro y hy
      rw [hbo, hb]
      exact m3 y hy
    · intro hn
      rw [hbo, hb]
      exact m4 hn
    · intro z src hz hzt
      rw [PuzzleGame.locatedAt_congr u _ z src hb hl hr hbo]
      exact m5 z src hz hzt
  · intro hown
    subst hown
    have hst : s.board.get? t = some (some x) := hsrc
    obtain ⟨fL, fR, fB, fBoard⟩ :=
      PuzzleGame.placeOnBoard_fields s x (PuzzleGame.Source.board t) t
    have hrm : PuzzleGame.removeFromSource s (PuzzleGame.Source.board t) x
        = { s with board := s.board.set t none } := rfl
    rw [hrm] at fL fR fB
    rw [hst] at fBoard
    simp only [PuzzleGame.Source.isBank] at fB
    refine ⟨?_, hl.trans fL, hr.trans fR, ?_⟩
    · rw [hb, fBoard]
      apply List.ext_getElem?
      intro n
      simp only [Option.join]
      rw [List.set_set]
      by_cases hn : t = n
      · subst hn
        rw [List.getElem?_set_self ht, ← List.get?_eq_getElem?, hst]
      · rw [List.getElem?_set_ne hn]
    · rw [hbo, fB]
      simp

/-- C17 (amended), at `displaceReady` (piece 1 on slot 0, piece 0 dragged from
the left bank) and a drop on slot 0: piece 0 takes the slot and piece 1 goes to
the end of the bottom bank. -/
theorem PuzzleGame.move_effect_witness :
    PuzzleGame.displaceReady.board.get? 0 = some (some { id := 1 }) ∧
    PuzzleGame.displaced.board.get? 0 = some (some { id := 0 }) ∧
    PuzzleGame.displaced.leftBank = [{ id := 2 }, { id := 3 }] ∧
    PuzzleGame.displaced.bottomBank
      = [{ id := 8 }, { id := 9 }, { id := 10 }, { id := 11 }, { id := 1 }] ∧
    (((∀ y, PuzzleGame.displaceReady.board.get? 0 = some (some y) →
        y.id ≠ (⟨0⟩ : PuzzleGame.Piece).id) →
      PuzzleGame.displaced.board.get? 0 = some (some { id := 0 }) ∧
      ¬ PuzzleGame.locatedAt PuzzleGame.displaced { id := 0 } PuzzleGame.Source.left ∧
      (∀ y, PuzzleGame.displaceReady.board.get? 0 = some (some y) →
        (PuzzleGame.Source.left.isBank = true →
          PuzzleGame.displaced.bottomBank
            = (PuzzleGame.removeFromSource PuzzleGame.displaceReady PuzzleGame.Source.left
                { id := 0 }).bottomBank ++ [y]) ∧
        (∀ i, PuzzleGame.Source.left = PuzzleGame.Source.board i →
          PuzzleGame.displaced.board.get? i = some (some y))) ∧
      (PuzzleGame.displaceReady.board.get? 0 = some none →
        PuzzleGame.displaced.bottomBank
          = (PuzzleGame.removeFromSource PuzzleGame.displaceReady PuzzleGame.Source.left
              { id := 0 }).bottomBank ∧
        (∀ i, PuzzleGame.Source.left = PuzzleGame.Source.board i →
          PuzzleGame.displaced.board.get? i = some none)) ∧
      (∀ z src, z.id ≠ (⟨0⟩ : PuzzleGame.Piece).id →
        PuzzleGame.displaceReady.board.get? 0 ≠ some (some z) →
        (PuzzleGame.locatedAt PuzzleGame.displaced z src
          ↔ PuzzleGame.locatedAt PuzzleGame.displaceReady z src))) ∧
    (PuzzleGame.Source.left = PuzzleGame.Source.board 0 →
      PuzzleGame.displaced.board = PuzzleGame.displaceReady.board ∧
      PuzzleGame.displaced.leftBank = PuzzleGame.displaceReady.leftBank ∧
      PuzzleGame.displaced.rightBank = PuzzleGame.displaceReady.rightBank ∧
      PuzzleGame.displaced.bottomBank = PuzzleGame.displaceReady.bottomBank)) :=
  ⟨by decide, by decide, by decide, by decide,
   PuzzleGame.move_effect PuzzleGame.displaceReady PuzzleGame.displaced { id := 0 }
    PuzzleGame.Source.left 0 (by decide) (by decide) (Or.inl ⟨by decide, rfl⟩)⟩

/-! ## Theorems: memory game setup on small and large catalogs -/

/-- With no valid food the padding loop is never left: the pool stays empty, so
the loop condition holds at every evaluation and every amount of fuel runs
out. -/
theorem FoodMemoryGame.padPool_nil (fuel : Nat) :
    FoodMemoryGame.padPool [] fuel [] = none := by
  induction fuel with
  | zero => rfl
  | succ n ih =>
    show (if ([] : List FoodMemoryGame.Food).length < FoodMemoryGame.TOTAL_PAIRS
      then FoodMemoryGame.padPool [] n ([] ++ []) else some []) = none
    rw [if_pos (by decide)]
    exact ih

/-- On a catalog without an entry of non-empty slug the setup callback does not
finish, whatever the fuel: no state is produced. -/
theorem FoodMemoryGame.setupGameData_no_valid (foodData : List FoodMemoryGame.Food)
    (shuffle1 shuffle2 : List FoodMemoryGame.Food → List FoodMemoryGame.Food)
    (fuel : Nat) (s0 : FoodMemoryGame.State) (hcat : ∀ f ∈ foodData, f.slug = "") :
    FoodMemoryGame.setupGameData foodData shuffle1 shuffle2 fuel s0 = none := by
  have hv : foodData.filter (fun f => decide (f.slug ≠ "")) = [] := by
    rw [List.filter_eq_nil_iff]
    intro f hf
    simp [hcat f hf]
  simp only [FoodMemoryGame.setupGameData, FoodMemoryGame.selectFoods, hv,
    FoodMemoryGame.padPool_nil]

/-- C23 (as stated, refuted): on the empty catalog, and on a catalog whose
only entry has an empty slug, the setup callback (started from the freshly
mounted component, with shuffles that leave the order unchanged) produces no
state for any amount of fuel: the padding loop `while (pool.length <
TOTAL_PAIRS)` appends the empty list of valid foods for ever, so the callback
neither fails nor reaches its `catch` or `finally` part. -/
theorem FoodMemoryGame.setup_never_finishes_without_slug :
    (∀ fuel : Nat, FoodMemoryGame.padPool [] fuel [] = none) ∧
      (∀ fuel : Nat,
        FoodMemoryGame.setupGameData [] id id fuel FoodMemoryGame.initialState = none) ∧
      (∀ fuel : Nat,
        FoodMemoryGame.setupGameData FoodMemoryGame.noSlugCatalog id id fuel
          FoodMemoryGame.initialState = none) ∧
      ¬ (∃ fuel s, FoodMemoryGame.setupGameData [] id id fuel FoodMemoryGame.initialState
        = some s) := by
  have hempty : ∀ fuel : Nat,
      FoodMemoryGame.setupGameData [] id id fuel FoodMemoryGame.initialState = none :=
    fun fuel => FoodMemoryGame.setupGameData_no_valid [] id id fuel
      FoodMemoryGame.initialState (fun f hf => absurd hf (List.not_mem_nil f))
  refine ⟨FoodMemoryGame.padPool_nil, hempty, ?_, ?_⟩
  · intro fuel
    apply FoodMemoryGame.setupGameData_no_valid
    intro f hf
    have hf2 : f = { name := "Pho", slug := "", imageUrl := "/assets/pho.jpg" } := by
      simpa [FoodMemoryGame.noSlugCatalog] using hf
    rw [hf2]
  · rintro ⟨fuel, s, hs⟩
    rw [hempty fuel] at hs
    exact absurd hs (by simp)

/-- The cards of a deck, read back as catalog entries, are the shuffled
duplicated selection in order. -/
theorem FoodMemoryGame.buildDeck_map_toFood (selected : List FoodMemoryGame.Food)
    (shuffle2 : List FoodMemoryGame.Food → List FoodMemoryGame.Food) :
    (FoodMemoryGame.buildDeck selected shuffle2).map FoodMemoryGame.Card.toFood
      = shuffle2 (selected.flatMap (fun item => [item, item])) := by
  unfold FoodMemoryGame.buildDeck
  apply List.ext_getElem
  · simp
  · intro i h1 h2
    simp [FoodMemoryGame.Card.toFood]

/-- The `uniqueId`s of a deck are `0, 1, ...` in order. -/
theorem FoodMemoryGame.buildDeck_map_uniqueId (selected : List FoodMemoryGame.Food)
    (shuffle2 : List FoodMemoryGame.Food → List FoodMemoryGame.Food) :
    (FoodMemoryGame.buildDeck selected shuffle2).map FoodMemoryGame.Card.uniqueId
      = List.range (FoodMemoryGame.buildDeck selected shuffle2).length := by
  unfold FoodMemoryGame.buildDeck
  apply List.ext_getElem
  · simp
  · intro i h1 h2
    simp

/-- Every card of a deck carries the image of its catalog entry. -/
theorem FoodMemoryGame.buildDeck_imageSrc (selected : List FoodMemoryGame.Food)
    (shuffle2 : List FoodMemoryGame.Food → List FoodMemoryGame.Food)
    (c : FoodMemoryGame.Card) (hc : c ∈ FoodMemoryGame.buildDeck selected shuffle2) :
    c.imageSrc = FoodMemoryGame.getImageUrl c.toFood := by
  unfold FoodMemoryGame.buildDeck at hc
  rw [List.mem_iff_getElem] at hc
  obtain ⟨i, hi, rfl⟩ := hc
  simp [FoodMemoryGame.Card.toFood]

/-- Duplicating every entry doubles the count of every dish. -/
theorem FoodMemoryGame.count_duplicated (selected : List FoodMemoryGame.Food)
    (x : FoodMemoryGame.Food) :
    (selected.flatMap (fun item => [item, item])).count x = 2 * selected.count x := by
  induction selected with
  | nil => simp
  | cons a t ih =>
    simp only [List.flatMap_cons, List.count_append, List.count_cons, List.count_nil, ih]
    split <;> omega

/-- C24: for every catalog with at least `TOTAL_PAIRS = 8` valid entries whose
slugs are pairwise distinct, every outcome of the two shuffles and any positive
fuel, the setup returns a state.  The selection is the first 8 entries of a
permutation of the valid entries (sampling without replacement), so it holds 8
dishes with pairwise distinct slugs; the deck has 16 cards which, read as
catalog entries, are a permutation of the selection with every dish taken
twice; the card at position `i` has `uniqueId = i`, so the `uniqueId`s are
pairwise distinct. -/
theorem FoodMemoryGame.setupGameData_eight_distinct (foodData : List FoodMemoryGame.Food)
    (shuffle1 shuffle2 : List FoodMemoryGame.Food → List FoodMemoryGame.Food)
    (fuel : Nat) (s0 : FoodMemoryGame.State)
    (hbig : FoodMemoryGame.TOTAL_PAIRS
      ≤ (foodData.filter (fun f => decide (f.slug ≠ ""))).length)
    (hnodup : ((foodData.filter (fun f => decide (f.slug ≠ ""))).map
      FoodMemoryGame.Food.slug).Nodup)
    (h1 : ∀ l, (shuffle1 l).Perm l) (h2 : ∀ l, (shuffle2 l).Perm l)
    (hfuel : 0 < fuel) :
    ∃ selected s,
      FoodMemoryGame.selectFoods foodData shuffle1 fuel = some selected ∧
      FoodMemoryGame.setupGameData foodData shuffle1 shuffle2 fuel s0 = some s ∧
      selected = (shuffle1 (foodData.filter (fun f => decide (f.slug ≠ "")))).take
        FoodMemoryGame.TOTAL_PAIRS ∧
      selected.length = 8 ∧
      (selected.map FoodMemoryGame.Food.slug).Nodup ∧
      selected.Nodup ∧
      (∀ f ∈ selected, f ∈ foodData ∧ f.slug ≠ "") ∧
      s.cards.length = 16 ∧
      (s.cards.map FoodMemoryGame.Card.toFood).Perm
        (selected.flatMap (fun item => [item, item])) ∧
      (∀ f ∈ selected, (s.cards.map FoodMemoryGame.Card.toFood).count f = 2) ∧
      (∀ i (h : i < s.cards.length), (s.cards.get ⟨i, h⟩).uniqueId = i) ∧
      (s.cards.map FoodMemoryGame.Card.uniqueId).Nodup := by
  have hne : foodData.filter (fun f => decide (f.slug ≠ "")) ≠ [] := by
    intro h
    rw [h] at hbig
    exact absurd hbig (by decide)
  obtain ⟨out, ho, _, hsame⟩ := FoodMemoryGame.padPool_some _ hne fuel
    (foodData.filter (fun f => decide (f.slug ≠ ""))) hfuel (by omega)
  rw [hsame hbig] at ho
  have hsel : FoodMemoryGame.selectFoods foodData shuffle1 fuel
      = some ((shuffle1 (foodData.filter (fun f => decide (f.slug ≠ "")))).take
          FoodMemoryGame.TOTAL_PAIRS) := by
    simp only [FoodMemoryGame.selectFoods, ho]
  have hs : FoodMemoryGame.setupGameData foodData shuffle1 shuffle2 fuel s0
      = some { cards := FoodMemoryGame.buildDeck
                 ((shuffle1 (foodData.filter (fun f => decide (f.slug ≠ "")))).take
                   FoodMemoryGame.TOTAL_PAIRS) shuffle2,
               flippedCards := [],
               matchedCards := [], timeLeft := FoodMemoryGame.TIME_LIMIT,
               lives := FoodMemoryGame.MAX_LIVES, disableClick := false,
               gameState := FoodMemoryGame.GameStatus.playing, openDialog := false,
               pendingFlipBacks := s0.pendingFlipBacks } := by
    simp only [FoodMemoryGame.setupGameData, hsel]
  have hlen : ((shuffle1 (foodData.filter (fun f => decide (f.slug ≠ "")))).take
      FoodMemoryGame.TOTAL_PAIRS).length = 8 := by
    rw [List.length_take, (h1 _).length_eq]
    have : FoodMemoryGame.TOTAL_PAIRS = 8 := rfl
    omega
  have hslugs : (((shuffle1 (foodData.filter (fun f => decide (f.slug ≠ "")))).take
      FoodMemoryGame.TOTAL_PAIRS).map FoodMemoryGame.Food.slug).Nodup := by
    rw [List.map_take]
    exact (((h1 _).map FoodMemoryGame.Food.slug).nodup_iff.mpr hnodup).sublist
      (List.take_sublist _ _)
  have hdeck : ((FoodMemoryGame.buildDeck
      ((shuffle1 (foodData.filter (fun f => decide (f.slug ≠ "")))).take
        FoodMemoryGame.TOTAL_PAIRS) shuffle2).map FoodMemoryGame.Card.toFood).Perm
      (((shuffle1 (foodData.filter (fun f => decide (f.slug ≠ "")))).take
        FoodMemoryGame.TOTAL_PAIRS).flatMap (fun item => [item, item])) := by
    rw [FoodMemoryGame.buildDeck_map_toFood]
    exact h2 _
  refine ⟨_, _, hsel, hs, rfl, hlen, hslugs, hslugs.of_map _, ?_, ?_, hdeck, ?_, ?_, ?_⟩
  · intro f hf
    have hmem : f ∈ foodData.filter (fun f => decide (f.slug ≠ "")) :=
      (h1 _).subset (List.mem_of_mem_take hf)
    rw [List.mem_filter] at hmem
    exact ⟨hmem.1, by simpa using hmem.2⟩
  · show (FoodMemoryGame.buildDeck _ shuffle2).length = 16
    rw [FoodMemoryGame.length_buildDeck _ shuffle2 h2, hlen]
  · intro f hf
    show ((FoodMemoryGame.buildDeck _ shuffle2).map FoodMemoryGame.Card.toFood).count f = 2
    rw [hdeck.count_eq, FoodMemoryGame.count_duplicated,
      List.count_eq_one_of_mem (hslugs.of_map _) hf]
  · intro i h
    exact FoodMemoryGame.buildDeck_uniqueId _ shuffle2 i h
  · show ((FoodMemoryGame.buildDeck _ shuffle2).map FoodMemoryGame.Card.uniqueId).Nodup
    rw [FoodMemoryGame.buildDeck_map_uniqueId]
    exact List.nodup_range _

/-- C24, at a catalog of eight dishes with distinct slugs, the identity
shuffles and fuel 1. -/
theorem FoodMemoryGame.setupGameData_eight_distinct_witness :
    ∃ selected s,
      FoodMemoryGame.selectFoods FoodMemoryGame.eightDishes id 1 = some selected ∧
      FoodMemoryGame.setupGameData FoodMemoryGame.eightDishes id id 1
        FoodMemoryGame.initialState = some s ∧
      selected = (id (FoodMemoryGame.eightDishes.filter (fun f => decide (f.slug ≠ "")))).take
        FoodMemoryGame.TOTAL_PAIRS ∧
      selected.length = 8 ∧
      (selected.map FoodMemoryGame.Food.slug).Nodup ∧
      selected.Nodup ∧
      (∀ f ∈ selected, f ∈ FoodMemoryGame.eightDishes ∧ f.slug ≠ "") ∧
      s.cards.length = 16 ∧
      (s.cards.map FoodMemoryGame.Card.toFood).Perm
        (selected.flatMap (fun item => [item, item])) ∧
      (∀ f ∈ selected, (s.cards.map FoodMemoryGame.Card.toFood).count f = 2) ∧
      (∀ i (h : i < s.cards.length), (s.cards.get ⟨i, h⟩).uniqueId = i) ∧
      (s.cards.map FoodMemoryGame.Card.uniqueId).Nodup :=
  FoodMemoryGame.setupGameData_eight_distinct FoodMemoryGame.eightDishes id id 1
    FoodMemoryGame.initialState (by decide) (by decide)
    (fun l => List.Perm.refl l) (fun l => List.Perm.refl l) (by decide)

/-! ## Theorems: puzzle deal, selection and drag-and-drop -/

/-- The three slices `slice(0, 4)`, `slice(4, 8)`, `slice(8, 12)` of a list of
twelve entries have four entries each and give the list back when joined. -/
theorem PuzzleGame.slices_of_twelve {α : Type} (l : List α) (h : l.length = 12) :
    (l.take 4).drop 0 ++ (l.take 8).drop 4 ++ (l.take 12).drop 8 = l ∧
    ((l.take 4).drop 0).length = 4 ∧ ((l.take 8).drop 4).length = 4 ∧
    ((l.take 12).drop 8).length = 4 := by
  refine ⟨?_, ?_, ?_, ?_⟩
  · rw [List.drop_zero, List.take_of_length_le (le_of_eq h), List.drop_take]
    have h48 : l.take 4 ++ (l.drop 4).take (8 - 4) = l.take 8 := by
      have := List.take_add l 4 4
      simpa using this.symm
    rw [h48, List.take_append_drop]
  · simp only [List.drop_zero, List.length_take]; omega
  · simp only [List.length_drop, List.length_take]; omega
  · simp only [List.length_drop, List.length_take]; omega

/-- The number of places holding an id, as a sum of counts. -/
theorem PuzzleGame.occurrences_eq (s : PuzzleGame.State) (id : Nat) :
    PuzzleGame.occurrences s id
      = s.leftBank.countP (fun p => decide (p.id = id))
        + s.rightBank.countP (fun p => decide (p.id = id))
        + s.bottomBank.countP (fun p => decide (p.id = id))
        + s.board.countP (PuzzleGame.holds id) := by
  unfold PuzzleGame.occurrences
  simp only [List.countP_eq_length_filter]
  rfl

/-- Among the pieces `{ id: 0 }, ..., { id: 11 }` every id below 12 is carried
by exactly one piece. -/
theorem PuzzleGame.countP_allPieces (id : Nat) (h : id < PuzzleGame.TOTAL_PIECES) :
    ((List.range PuzzleGame.TOTAL_PIECES).map (fun i => ({ id := i } : PuzzleGame.Piece))).countP
      (fun p => decide (p.id = id)) = 1 := by
  have h12 : PuzzleGame.TOTAL_PIECES = 12 := rfl
  rw [h12] at h ⊢
  interval_cases id <;> rfl

/-- A new game deals the twelve pieces: the banks joined are a permutation of
the pieces `{ id: 0 }, ..., { id: 11 }`. -/
theorem PuzzleGame.startNewGame_banks (shuffle : List PuzzleGame.Piece → List PuzzleGame.Piece)
    (s0 : PuzzleGame.State) (h : ∀ l, (shuffle l).Perm l) :
    ((PuzzleGame.startNewGame shuffle s0).leftBank
      ++ (PuzzleGame.startNewGame shuffle s0).rightBank
      ++ (PuzzleGame.startNewGame shuffle s0).bottomBank).Perm
      ((List.range PuzzleGame.TOTAL_PIECES).map (fun i => ({ id := i } : PuzzleGame.Piece))) := by
  have hlen : (shuffle ((List.range PuzzleGame.TOTAL_PIECES).map
      (fun i => ({ id := i } : PuzzleGame.Piece)))).length = 12 := by
    rw [(h _).length_eq]; rfl
  show List.Perm (((shuffle _).take 4).drop 0 ++ ((shuffle _).take 8).drop 4
    ++ ((shuffle _).take 12).drop 8) _
  rw [(PuzzleGame.slices_of_twelve _ hlen).1]
  exact h _

/-- A new game is partitioned: every piece id below 12 occurs exactly once. -/
theorem PuzzleGame.startNewGame_partitioned
    (shuffle : List PuzzleGame.Piece → List PuzzleGame.Piece)
    (s0 : PuzzleGame.State) (h : ∀ l, (shuffle l).Perm l) :
    PuzzleGame.Partitioned (PuzzleGame.startNewGame shuffle s0) := by
  intro id hid
  have hp := (PuzzleGame.startNewGame_banks shuffle s0 h).countP_eq
    (fun p => decide (p.id = id))
  rw [PuzzleGame.countP_allPieces id hid, List.countP_append, List.countP_append] at hp
  rw [PuzzleGame.occurrences_eq]
  have hb : (PuzzleGame.startNewGame shuffle s0).board.countP (PuzzleGame.holds id) = 0 := by
    show (List.replicate PuzzleGame.TOTAL_PIECES none).countP (PuzzleGame.holds id) = 0
    rw [List.countP_eq_zero]
    intro slot hslot
    rw [List.eq_of_mem_replicate hslot]
    simp [PuzzleGame.holds]
  omega

/-- C22: for every outcome of the shuffle (a permutation) and every state the
game is started from, `startNewGame` deals exactly the piece ids `0..11`: the
ids in the three banks, joined, are a permutation of `0, ..., 11` without
repetition, each bank holds 4 pieces, no id is in two banks, all 12 board
slots are empty, `isSolved` is false, and every id occurs exactly once across
banks and board. -/
theorem PuzzleGame.startNewGame_deal (shuffle : List PuzzleGame.Piece → List PuzzleGame.Piece)
    (s0 : PuzzleGame.State) (h : ∀ l, (shuffle l).Perm l) :
    (((PuzzleGame.startNewGame shuffle s0).leftBank
      ++ (PuzzleGame.startNewGame shuffle s0).rightBank
      ++ (PuzzleGame.startNewGame shuffle s0).bottomBank).map PuzzleGame.Piece.id).Perm
      (List.range 12) ∧
    (((PuzzleGame.startNewGame shuffle s0).leftBank
      ++ (PuzzleGame.startNewGame shuffle s0).rightBank
      ++ (PuzzleGame.startNewGame shuffle s0).bottomBank).map PuzzleGame.Piece.id).Nodup ∧
    (PuzzleGame.startNewGame shuffle s0).leftBank.length = 4 ∧
    (PuzzleGame.startNewGame shuffle s0).rightBank.length = 4 ∧
    (PuzzleGame.startNewGame shuffle s0).bottomBank.length = 4 ∧
    (∀ p ∈ (PuzzleGame.startNewGame shuffle s0).leftBank,
      ∀ q ∈ (PuzzleGame.startNewGame shuffle s0).rightBank, p.id ≠ q.id) ∧
    (∀ p ∈ (PuzzleGame.startNewGame shuffle s0).leftBank,
      ∀ q ∈ (PuzzleGame.startNewGame shuffle s0).bottomBank, p.id ≠ q.id) ∧
    (∀ p ∈ (PuzzleGame.startNewGame shuffle s0).rightBank,
      ∀ q ∈ (PuzzleGame.startNewGame shuffle s0).bottomBank, p.id ≠ q.id) ∧
    (PuzzleGame.startNewGame shuffle s0).board = List.replicate 12 none ∧
    (PuzzleGame.startNewGame shuffle s0).isSolved = false ∧
    PuzzleGame.Partitioned (PuzzleGame.startNewGame shuffle s0) := by
  have hperm : (((PuzzleGame.startNewGame shuffle s0).leftBank
      ++ (PuzzleGame.startNewGame shuffle s0).rightBank
      ++ (PuzzleGame.startNewGame shuffle s0).bottomBank).map PuzzleGame.Piece.id).Perm
      (List.range 12) := by
    have hp := (PuzzleGame.startNewGame_banks shuffle s0 h).map PuzzleGame.Piece.id
    have hids : ((List.range PuzzleGame.TOTAL_PIECES).map
        (fun i => ({ id := i } : PuzzleGame.Piece))).map PuzzleGame.Piece.id
        = List.range 12 := by decide
    rw [hids] at hp
    exact hp
  have hnd := hperm.nodup_iff.mpr (List.nodup_range 12)
  have hlen : (shuffle ((List.range PuzzleGame.TOTAL_PIECES).map
      (fun i => ({ id := i } : PuzzleGame.Piece)))).length = 12 := by
    rw [(h _).length_eq]; rfl
  obtain ⟨_, h4, h8, h12⟩ := PuzzleGame.slices_of_twelve _ hlen
  have hnd2 := hnd
  rw [List.map_append, List.map_append, List.nodup_append, List.nodup_append] at hnd2
  obtain ⟨⟨_, _, hlr⟩, _, hlrb⟩ := hnd2
  refine ⟨hperm, hnd, h4, h8, h12, ?_, ?_, ?_, rfl, rfl,
    PuzzleGame.startNewGame_partitioned shuffle s0 h⟩
  · intro p hp q hq heq
    exact hlr (List.mem_map_of_mem _ hp) (heq ▸ List.mem_map_of_mem _ hq)
  · intro p hp q hq heq
    exact hlrb (List.mem_append_left _ (List.mem_map_of_mem _ hp))
      (heq ▸ List.mem_map_of_mem _ hq)
  · intro p hp q hq heq
    exact hlrb (List.mem_append_right _ (List.mem_map_of_mem _ hp))
      (heq ▸ List.mem_map_of_mem _ hq)

/-- C22, at the shuffle that reverses the order, started from the freshly
mounted component. -/
theorem PuzzleGame.startNewGame_deal_witness :
    (((PuzzleGame.startNewGame List.reverse PuzzleGame.initialState).leftBank
      ++ (PuzzleGame.startNewGame List.reverse PuzzleGame.initialState).rightBank
      ++ (PuzzleGame.startNewGame List.reverse PuzzleGame.initialState).bottomBank).map
        PuzzleGame.Piece.id).Perm (List.range 12) ∧
    (((PuzzleGame.startNewGame List.reverse PuzzleGame.initialState).leftBank
      ++ (PuzzleGame.startNewGame List.reverse PuzzleGame.initialState).rightBank
      ++ (PuzzleGame.startNewGame List.reverse PuzzleGame.initialState).bottomBank).map
        PuzzleGame.Piece.id).Nodup ∧
    (PuzzleGame.startNewGame List.reverse PuzzleGame.initialState).leftBank.length = 4 ∧
    (PuzzleGame.startNewGame List.reverse PuzzleGame.initialState).rightBank.length = 4 ∧
    (PuzzleGame.startNewGame List.reverse PuzzleGame.initialState).bottomBank.length = 4 ∧
    (∀ p ∈ (PuzzleGame.startNewGame List.reverse PuzzleGame.initialState).leftBank,
      ∀ q ∈ (PuzzleGame.startNewGame List.reverse PuzzleGame.initialState).rightBank,
        p.id ≠ q.id) ∧
    (∀ p ∈ (PuzzleGame.startNewGame List.reverse PuzzleGame.initialState).leftBank,
      ∀ q ∈ (PuzzleGame.startNewGame List.reverse PuzzleGame.initialState).bottomBank,
        p.id ≠ q.id) ∧
    (∀ p ∈ (PuzzleGame.startNewGame List.reverse PuzzleGame.initialState).rightBank,
      ∀ q ∈ (PuzzleGame.startNewGame List.reverse PuzzleGame.initialState).bottomBank,
        p.id ≠ q.id) ∧
    (PuzzleGame.startNewGame List.reverse PuzzleGame.initialState).board
      = List.replicate 12 none ∧
    (PuzzleGame.startNewGame List.reverse PuzzleGame.initialState).isSolved = false ∧
    PuzzleGame.Partitioned (PuzzleGame.startNewGame List.reverse PuzzleGame.initialState) :=
  PuzzleGame.startNewGame_deal List.reverse PuzzleGame.initialState
    (fun l => List.reverse_perm l)

/-- Filtering a bank by `p.id !== x` removes every entry with id `x` and keeps
the entries with any other id. -/
theorem PuzzleGame.countP_filter_ne (l : List PuzzleGame.Piece) (x id : Nat) :
    (l.filter (fun p => decide (p.id ≠ x))).countP (fun p => decide (p.id = id))
      = if id = x then 0 else l.countP (fun p => decide (p.id = id)) := by
  induction l with
  | nil => simp
  | cons a t ih =>
    by_cases hax : a.id = x
    · rw [List.filter_cons_of_neg (by simpa using hax), ih]
      by_cases hid : id = x
      · simp [hid]
      · have hne : ¬ a.id = id := fun h => hid (h ▸ hax)
        simp [hid, List.countP_cons, hne]
    · rw [List.filter_cons_of_pos (by simpa using hax), List.countP_cons, ih, List.countP_cons]
      by_cases hid : id = x
      · have hne : ¬ a.id = id := fun h => hax (h.trans hid)
        simp [hid, hne]
        intro h; exact absurd h hax
      · simp [hid]

/-- Writing a board slot changes the count of an id by what the slot held
before and what it holds after. -/
theorem PuzzleGame.countP_set_holds (id : Nat) (v : Option PuzzleGame.Piece) :
    ∀ (b : List (Option PuzzleGame.Piece)) (t : Nat), t < b.length →
      (b.set t v).countP (PuzzleGame.holds id)
          + (if PuzzleGame.holds id ((b.get? t).join) = true then 1 else 0)
        = b.countP (PuzzleGame.holds id) + (if PuzzleGame.holds id v = true then 1 else 0) := by
  intro b
  induction b with
  | nil => intro t ht; exact absurd ht (Nat.not_lt_zero t)
  | cons a rest ih =>
    intro t ht
    cases t with
    | zero =>
      simp only [List.set_cons_zero, List.countP_cons, List.get?_cons_zero, Option.join]
      show _ + (if PuzzleGame.holds id a = true then 1 else 0) = _
      omega
    | succ n =>
      have hn : n < rest.length := by simpa using ht
      have := ih n hn
      simp only [List.set_cons_succ, List.countP_cons, List.get?_cons_succ]
      omega

/-- The displaced piece, appended to a bank, counts once for its own id. -/
theorem PuzzleGame.countP_toList (id : Nat) (e : Option PuzzleGame.Piece) :
    e.toList.countP (fun p => decide (p.id = id))
      = if PuzzleGame.holds id e = true then 1 else 0 := by
  cases e with
  | none => rfl
  | some p =>
    by_cases h : p.id = id <;> simp [PuzzleGame.holds, Option.toList, h]

/-- After the source slot received the displaced piece, the target slot still
holds the displaced piece (also when source and target are the same slot). -/
theorem PuzzleGame.get?_set_displaced (b : List (Option PuzzleGame.Piece)) (i t : Nat)
    (hi : i < b.length) :
    ((b.set i ((b.get? t).join)).get? t).join = (b.get? t).join := by
  rw [List.get?_eq_getElem?, List.get?_eq_getElem?, List.getElem?_set]
  split
  · rename_i h
    subst h
    simp [hi]
  · rfl

/-- A placement with an accurate record keeps the partition: when the piece
`x` is rendered at `source`, the target slot exists and every id below 12
occurs once, placing `x` from `source` on the target slot leaves every id
below 12 occurring once and keeps the number of board slots. -/
theorem PuzzleGame.placeOnBoard_partitioned (s : PuzzleGame.State) (x : PuzzleGame.Piece)
    (source : PuzzleGame.Source) (t : Nat) (hP : PuzzleGame.Partitioned s)
    (hloc : PuzzleGame.locatedAt s x source) (ht : t < s.board.length) :
    PuzzleGame.Partitioned (PuzzleGame.placeOnBoard s { item := x, source := source } t) ∧
      (PuzzleGame.placeOnBoard s { item := x, source := source } t).board.length
        = s.board.length := by
  obtain ⟨hl, hr, hbo, hb⟩ := PuzzleGame.placeOnBoard_fields s x source t
  constructor
  · intro id hid
    have hsum := hP id hid
    rw [PuzzleGame.occurrences_eq] at hsum ⊢
    rw [hl, hr, hbo, hb]
    have hE := PuzzleGame.countP_set_holds id none s.board t ht
    have hX := PuzzleGame.countP_set_holds id (some x) s.board t ht
    have hnone : (if PuzzleGame.holds id none = true then 1 else 0 : Nat) = 0 := rfl
    have hsome : (if PuzzleGame.holds id (some x) = true then 1 else 0 : Nat)
        = if id = x.id then 1 else 0 := by
      by_cases h : id = x.id
      · simp [PuzzleGame.holds, h]
      · have h2 : ¬ x.id = id := fun h3 => h h3.symm
        simp [PuzzleGame.holds, h, h2]
    rw [hnone] at hE
    rw [hsome] at hX
    have hbank : ∀ bank : List PuzzleGame.Piece, x ∈ bank → id = x.id →
        0 < bank.countP (fun p => decide (p.id = id)) := by
      intro bank hmem h
      rw [List.countP_pos_iff]
      exact ⟨x, hmem, by simp [h]⟩
    cases source with
    | left =>
      simp only [PuzzleGame.removeFromSource, PuzzleGame.Source.isBank, if_true,
        List.countP_append, PuzzleGame.countP_filter_ne, PuzzleGame.countP_toList]
      generalize (if PuzzleGame.holds id (s.board.get? t).join = true then 1 else 0) = e at *
      by_cases h : id = x.id
      · have := hbank _ hloc h
        rw [if_pos h] at hX ⊢
        omega
      · rw [if_neg h] at hX ⊢
        omega
    | right =>
      simp only [PuzzleGame.removeFromSource, PuzzleGame.Source.isBank, if_true,
        List.countP_append, PuzzleGame.countP_filter_ne, PuzzleGame.countP_toList]
      generalize (if PuzzleGame.holds id (s.board.get? t).join = true then 1 else 0) = e at *
      by_cases h : id = x.id
      · have := hbank _ hloc h
        rw [if_pos h] at hX ⊢
        omega
      · rw [if_neg h] at hX ⊢
        omega
    | bottom =>
      simp only [PuzzleGame.removeFromSource, PuzzleGame.Source.isBank, if_true,
        List.countP_append, PuzzleGame.countP_filter_ne, PuzzleGame.countP_toList]
      generalize (if PuzzleGame.holds id (s.board.get? t).join = true then 1 else 0) = e at *
      by_cases h : id = x.id
      · have := hbank _ hloc h
        rw [if_pos h] at hX ⊢
        omega
      · rw [if_neg h] at hX ⊢
        omega
    | board i =>
      have hi : i < s.board.length := by
        by_contra hge
        have hnone2 : s.board.get? i = none := by
          rw [List.get?_eq_getElem?]
          exact List.getElem?_eq_none (by omega)
        have hloc2 : s.board.get? i = some (some x) := hloc
        rw [hnone2] at hloc2
        exact absurd hloc2 (by simp)
      have hsrc : (s.board.get? i).join = some x := by
        have hloc2 : s.board.get? i = some (some x) := hloc
        rw [hloc2]; rfl
      have h1 := PuzzleGame.countP_set_holds id ((s.board.get? t).join) s.board i hi
      have h2 := PuzzleGame.countP_set_holds id (some x)
        (s.board.set i ((s.board.get? t).join)) t (by rw [List.length_set]; exact ht)
      rw [PuzzleGame.get?_set_displaced s.board i t hi] at h2
      rw [hsrc] at h1
      simp only [PuzzleGame.removeFromSource, PuzzleGame.Source.isBank, List.countP_append,
        Bool.false_eq_true, if_false, List.countP_nil, Nat.add_zero]
      generalize (if PuzzleGame.holds id (s.board.get? t).join = true then 1 else 0) = e at *
      generalize (if PuzzleGame.holds id (some x) = true then 1 else 0) = f at *
      omega
  · rw [hb]
    cases source <;> simp

/-- The banks and the board after a drag-and-drop move are those of the
placement of the dragged piece, recorded with the source of the drag. -/
theorem PuzzleGame.dragDrop_fields (s : PuzzleGame.State) (x : PuzzleGame.Piece)
    (source : PuzzleGame.Source) (t : Nat) :
    (PuzzleGame.dragDrop s x source t).board
        = (PuzzleGame.placeOnBoard s { item := x, source := source } t).board ∧
      (PuzzleGame.dragDrop s x source t).leftBank
        = (PuzzleGame.placeOnBoard s { item := x, source := source } t).leftBank ∧
      (PuzzleGame.dragDrop s x source t).rightBank
        = (PuzzleGame.placeOnBoard s { item := x, source := source } t).rightBank ∧
      (PuzzleGame.dragDrop s x source t).bottomBank
        = (PuzzleGame.placeOnBoard s { item := x, source := source } t).bottomBank := by
  obtain ⟨h1, h2, h3, h4, _⟩ := PuzzleGame.placeOnBoard_records s
    { item := x, source := source } t (some { item := x, source := source }) s.selectedPiece
  exact ⟨h1, h2, h3, h4⟩

/-- C29: in every state reached from a new game (any shuffle outcome) by
drag-and-drop moves, each drag starting on a piece where it is rendered (its
bank, or the board slot it occupies) and ending on any of the twelve board
slots (an empty slot, an occupied slot, or the slot of the piece itself),
every piece id `0..11` occurs exactly once across the three banks and the
board, and the board still has twelve slots. -/
theorem PuzzleGame.drag_moves_keep_partition (s : PuzzleGame.State)
    (h : PuzzleGame.DragReachable s) :
    (∀ id, id < 12 → PuzzleGame.occurrences s id = 1) ∧ s.board.length = 12 := by
  induction h with
  | start shuffle s0 hperm =>
    exact ⟨PuzzleGame.startNewGame_partitioned shuffle s0 hperm, rfl⟩
  | move s x source t _ hloc ht ih =>
    obtain ⟨hP, hlen⟩ := ih
    have ht2 : t < s.board.length := by
      rw [hlen]; exact ht
    obtain ⟨hP2, hlen2⟩ := PuzzleGame.placeOnBoard_partitioned s x source t hP hloc ht2
    obtain ⟨hb, hl, hr, hbo⟩ := PuzzleGame.dragDrop_fields s x source t
    constructor
    · intro id hid
      have := hP2 id hid
      rw [PuzzleGame.occurrences_eq] at this ⊢
      rw [hb, hl, hr, hbo]
      exact this
    · rw [hb, hlen2, hlen]

/-- C29, at a game of four moves that includes a drop on an occupied slot and
a drop of a piece on its own slot. -/
theorem PuzzleGame.drag_moves_keep_partition_witness :
    PuzzleGame.DragReachable PuzzleGame.fourDrags ∧
      (∀ id, id < 12 → PuzzleGame.occurrences PuzzleGame.fourDrags id = 1) ∧
      PuzzleGame.fourDrags.board.length = 12 :=
  have hr : PuzzleGame.DragReachable PuzzleGame.fourDrags :=
    PuzzleGame.DragReachable.move _ _ _ _
      (PuzzleGame.DragReachable.move _ _ _ _
        (PuzzleGame.DragReachable.move _ _ _ _
          (PuzzleGame.DragReachable.move _ _ _ _
            (PuzzleGame.DragReachable.start id PuzzleGame.initialState
              (fun l => List.Perm.refl l))
            (by decide) (by decide))
          (by decide) (by decide))
        (by decide) (by decide))
      (by decide) (by decide)
  ⟨hr, PuzzleGame.drag_moves_keep_partition PuzzleGame.fourDrags hr⟩

/-- C21 (as stated, refuted): in the reachable unsolved state `boardClickReady`
piece 0 (left bank) is selected and piece 1 lies on board slot 0.  A click on
piece 1, which is not the selected piece, does not make piece 1 the selected
piece: the click also reaches the handler of slot 0, which places the selected
piece 0 on that slot, sends piece 1 to the bottom bank, and leaves no piece
selected. -/
theorem PuzzleGame.board_piece_click_places_selection :
    PuzzleGame.Reachable PuzzleGame.boardClickReady ∧
      PuzzleGame.boardClickReady.isSolved = false ∧
      PuzzleGame.boardClickReady.selectedPiece
        = some { item := { id := 0 }, source := PuzzleGame.Source.left } ∧
      PuzzleGame.Event.enabled PuzzleGame.boardClickReady
        (PuzzleGame.Event.boardPieceClick { id := 1 } 0) ∧
      (PuzzleGame.step PuzzleGame.boardClickReady
        (PuzzleGame.Event.boardPieceClick { id := 1 } 0)).selectedPiece = none ∧
      (PuzzleGame.step PuzzleGame.boardClickReady
        (PuzzleGame.Event.boardPieceClick { id := 1 } 0)).selectedPiece
        ≠ some { item := { id := 1 }, source := PuzzleGame.Source.board 0 } ∧
      (PuzzleGame.step PuzzleGame.boardClickReady
        (PuzzleGame.Event.boardPieceClick { id := 1 } 0)).board.get? 0
        = some (some { id := 0 }) ∧
      (PuzzleGame.step PuzzleGame.boardClickReady
        (PuzzleGame.Event.boardPieceClick { id := 1 } 0)).bottomBank
        = [{ id := 8 }, { id := 9 }, { id := 10 }, { id := 11 }, { id := 1 }] :=
  ⟨(PuzzleGame.reachable_run PuzzleGame.boardClickMoves PuzzleGame.orderedDeal
      PuzzleGame.orderedDeal_reachable (by decide)).2,
   by decide, by decide, PuzzleGame.offered_enabled _ _ (by decide), by decide, by decide,
   by decide, by decide⟩

/-- C21 (amended): the selection is one record.  In a solved puzzle a click on
a piece, in a bank or on the board, changes nothing.  In an unsolved puzzle
`handlePieceClick` (the whole effect of a click on a bank piece) is a toggle
that changes only the selection: it clears the selection when the clicked piece
has the id of the selected piece, and otherwise makes the clicked piece, with
its source, the selected piece.  A click on a piece lying on board slot `i`
also reaches the handler of that slot: with no piece selected it selects the
clicked piece with source slot `i`; with a piece selected (the clicked one or
another) it places the selected piece on slot `i` and leaves no piece
selected. -/
theorem PuzzleGame.piece_click_effect (s : PuzzleGame.State) (piece : PuzzleGame.Piece)
    (source : PuzzleGame.Source) (i : Nat) :
    (s.isSolved = true →
      PuzzleGame.handlePieceClick s piece source = s ∧
      PuzzleGame.handleBoardPieceClick s piece i = s) ∧
    (s.isSolved = false →
      (∀ sel, s.selectedPiece = some sel → sel.item.id = piece.id →
        PuzzleGame.handlePieceClick s piece source = { s with selectedPiece := none }) ∧
      (∀ sel, s.selectedPiece = some sel → sel.item.id ≠ piece.id →
        PuzzleGame.handlePieceClick s piece source
          = { s with selectedPiece := some { item := piece, source := source } }) ∧
      (s.selectedPiece = none →
        PuzzleGame.handlePieceClick s piece source
          = { s with selectedPiece := some { item := piece, source := source } }) ∧
      (s.selectedPiece = none →
        PuzzleGame.handleBoardPieceClick s piece i
          = { s with selectedPiece
                := some { item := piece, source := PuzzleGame.Source.board i } }) ∧
      (∀ sel, s.selectedPiece = some sel →
        PuzzleGame.handleBoardPieceClick s piece i
          = { PuzzleGame.placeOnBoard s sel i with selectedPiece := none })) := by
  constructor
  · intro hs
    constructor
    · simp only [PuzzleGame.handlePieceClick, hs, if_true]
    · simp only [PuzzleGame.handleBoardPieceClick, hs, if_true]
  · intro hs
    have hne : ¬ (s.isSolved = true) := by rw [hs]; decide
    refine ⟨?_, ?_, ?_, ?_, ?_⟩
    · intro sel hsel hid
      simp only [PuzzleGame.handlePieceClick, hsel, if_neg hne, if_pos hid]
    · intro sel hsel hid
      simp only [PuzzleGame.handlePieceClick, hsel, if_neg hne, if_neg hid]
    · intro hsel
      simp only [PuzzleGame.handlePieceClick, hsel, if_neg hne]
    · intro hsel
      simp only [PuzzleGame.handleBoardPieceClick, PuzzleGame.handlePieceClick, hsel, if_neg hne]
    · intro sel hsel
      simp only [PuzzleGame.handleBoardPieceClick, PuzzleGame.handleBoardClick, hsel,
        if_neg hne]

/-- C21 (amended), at the state `boardClickReady`, where piece 0 is selected:
a click on piece 0 in the left bank clears the selection, a click on piece 2 in
the left bank selects piece 2, and a click on piece 1 on slot 0 places piece
0 there. -/
theorem PuzzleGame.piece_click_effect_witness :
    PuzzleGame.handlePieceClick PuzzleGame.boardClickReady { id := 0 } PuzzleGame.Source.left
        = { PuzzleGame.boardClickReady with selectedPiece := none } ∧
      PuzzleGame.handlePieceClick PuzzleGame.boardClickReady { id := 2 } PuzzleGame.Source.left
        = { PuzzleGame.boardClickReady with
            selectedPiece := some { item := { id := 2 }, source := PuzzleGame.Source.left } } ∧
      PuzzleGame.handleBoardPieceClick PuzzleGame.boardClickReady { id := 1 } 0
        = { PuzzleGame.placeOnBoard PuzzleGame.boardClickReady
              { item := { id := 0 }, source := PuzzleGame.Source.left } 0 with
            selectedPiece := none } :=
  ⟨((PuzzleGame.piece_click_effect PuzzleGame.boardClickReady { id := 0 }
      PuzzleGame.Source.left 0).2 (by decide)).1
      { item := { id := 0 }, source := PuzzleGame.Source.left } (by decide) (by decide),
   ((PuzzleGame.piece_click_effect PuzzleGame.boardClickReady { id := 2 }
      PuzzleGame.Source.left 0).2 (by decide)).2.1
      { item := { id := 0 }, source := PuzzleGame.Source.left } (by decide) (by decide),
   ((PuzzleGame.piece_click_effect PuzzleGame.boardClickReady { id := 1 }
      (PuzzleGame.Source.board 0) 0).2 (by decide)).2.2.2.2 _ (by decide)⟩

/-! ## Theorems: highlight effect and manual page changes -/

/-- A highlight id found by `findIndex` is a non-empty string, and the list it
is found in is not empty. -/
theorem Comments.findIndex_some (comments : List Comments.Comment) (hId : String) (idx : Nat)
    (h : Comments.findIndex comments hId = some idx) :
    hId ≠ "" ∧ comments.length ≠ 0 ∧ idx < comments.length := by
  unfold Comments.findIndex at h
  dsimp only at h
  by_cases hlt : comments.findIdx (fun c => toString c.id == hId) < comments.length
  · rw [if_pos hlt] at h
    have hidx : comments.findIdx (fun c => toString c.id == hId) = idx := by
      simpa using h
    refine ⟨?_, by omega, by omega⟩
    have hget := List.findIdx_getElem (w := hlt)
    have heq : toString (comments[comments.findIdx (fun c => toString c.id == hId)]).id = hId := by
      simpa using hget
    rw [← heq]
    exact Comments.toString_nat_ne_empty _
  · rw [if_neg hlt] at h
    exact absurd h (by simp)

/-- C30: let the highlight id of the URL match a comment of the loaded list,
`idx` being the index `findIndex` returns.  On `DetailPage`, and on `BlogPage`
in the topic view, the highlight effect sets the page to
`ceil((idx + 1) / 10)` whatever the current page is; so when the reader
changes the page with the pagination control to any `v`, the effect, which
runs again because `interact.page` changed, brings the page back to that
target page; and the effect leaves the state unchanged exactly when the page
is the target page, the only stable page. -/
theorem Comments.highlight_overrides_page (comments : List Comments.Comment) (hId : String)
    (idx : Nat) (hfind : Comments.findIndex comments hId = some idx) :
    Comments.targetPage idx = ⌈((idx + 1 : ℕ) : ℚ) / 10⌉₊ ∧
    (∀ s : DetailPage.State, s.comments = comments →
      (DetailPage.highlightEffect s (some hId)).interact.page = Comments.targetPage idx ∧
      (∀ v, (DetailPage.highlightEffect (DetailPage.changePage s v) (some hId)).interact.page
        = Comments.targetPage idx) ∧
      (DetailPage.highlightEffect s (some hId) = s ↔
        s.interact.page = Comments.targetPage idx)) ∧
    (∀ s : BlogPage.State, s.comments = comments →
      s.viewMode = BlogPage.ViewMode.forum_detail →
      (BlogPage.highlightEffect s (some hId)).interact.page = Comments.targetPage idx ∧
      (∀ v, (BlogPage.highlightEffect (BlogPage.changePage s v) (some hId)).interact.page
        = Comments.targetPage idx) ∧
      (BlogPage.highlightEffect s (some hId) = s ↔
        s.interact.page = Comments.targetPage idx)) := by
  obtain ⟨hne, hlen, _⟩ := Comments.findIndex_some comments hId idx hfind
  have hceil : Comments.targetPage idx = ⌈((idx + 1 : ℕ) : ℚ) / 10⌉₊ := by
    rw [Comments.ceil_div_ten]
    rfl
  have hD : ∀ s : DetailPage.State, s.comments = comments →
      DetailPage.highlightEffect s (some hId)
        = { s with interact := { s.interact with page := Comments.targetPage idx } } := by
    intro s hs
    subst hs
    unfold DetailPage.highlightEffect
    dsimp only
    rw [if_pos ⟨hne, hlen⟩, hfind]
  have hB : ∀ s : BlogPage.State, s.comments = comments →
      s.viewMode = BlogPage.ViewMode.forum_detail →
      BlogPage.highlightEffect s (some hId)
        = if s.interact.page ≠ Comments.targetPage idx then
            { s with interact := { s.interact with page := Comments.targetPage idx } }
          else s := by
    intro s hs hv
    subst hs
    unfold BlogPage.highlightEffect
    dsimp only
    rw [if_pos ⟨hne, hv, hlen⟩, hfind]
  refine ⟨hceil, ?_, ?_⟩
  · intro s hs
    refine ⟨?_, ?_, ?_⟩
    · rw [hD s hs]
    · intro v
      rw [hD (DetailPage.changePage s v) hs]
    · rw [hD s hs]
      constructor
      · intro h
        have := congrArg (fun u : DetailPage.State => u.interact.page) h
        exact this.symm
      · intro h
        rw [← h]
  · intro s hs hv
    have hpage : ∀ u : BlogPage.State, u.comments = comments →
        u.viewMode = BlogPage.ViewMode.forum_detail →
        (BlogPage.highlightEffect u (some hId)).interact.page = Comments.targetPage idx := by
      intro u hu hvu
      rw [hB u hu hvu]
      by_cases hp : u.interact.page = Comments.targetPage idx
      · rw [if_neg (by simpa using hp)]
        exact hp
      · rw [if_pos hp]
    refine ⟨hpage s hs hv, ?_, ?_⟩
    · intro v
      exact hpage (BlogPage.changePage s v) hs hv
    · constructor
      · intro h
        rw [← hpage s hs hv, h]
      · intro h
        rw [hB s hs hv, if_neg (by simpa using h)]

/-- C30, at the 23 comments of `sampleComments` and the highlight id "114"
(index 14, target page 2): a reader of either page who moves to page 3 is
brought back to page 2. -/
theorem Comments.highlight_overrides_page_witness :
    (DetailPage.highlightEffect (DetailPage.changePage DetailPage.onPageThree 3)
        (some "114")).interact.page = 2 ∧
    (BlogPage.highlightEffect (BlogPage.changePage BlogPage.onPageThree 3)
        (some "114")).interact.page = 2 ∧
    Comments.targetPage 14 = ⌈((14 + 1 : ℕ) : ℚ) / 10⌉₊ ∧
    (∀ s : DetailPage.State, s.comments = Comments.sampleComments →
      (DetailPage.highlightEffect s (some "114")).interact.page = Comments.targetPage 14 ∧
      (∀ v, (DetailPage.highlightEffect (DetailPage.changePage s v) (some "114")).interact.page
        = Comments.targetPage 14) ∧
      (DetailPage.highlightEffect s (some "114") = s ↔
        s.interact.page = Comments.targetPage 14)) ∧
    (∀ s : BlogPage.State, s.comments = Comments.sampleComments →
      s.viewMode = BlogPage.ViewMode.forum_detail →
      (BlogPage.highlightEffect s (some "114")).interact.page = Comments.targetPage 14 ∧
      (∀ v, (BlogPage.highlightEffect (BlogPage.changePage s v) (some "114")).interact.page
        = Comments.targetPage 14) ∧
      (BlogPage.highlightEffect s (some "114") = s ↔
        s.interact.page = Comments.targetPage 14)) :=
  ⟨by decide, by decide,
   Comments.highlight_overrides_page Comments.sampleComments "114" 14 (by decide)⟩

/-! ## Theorems: hangman end of round, rounds without letters, name splitting -/

/-- A guess keeps the invariant of won rounds: the status becomes 'won' only
in the branch that has checked that every A–Z character is guessed. -/
theorem HangmanGame.handleGuess_wonInv (s : HangmanGame.State) (letter : Char)
    (h : HangmanGame.WonInv s) : HangmanGame.WonInv (HangmanGame.handleGuess s letter) := by
  by_cases hp : s.status = HangmanGame.Status.playing
  · by_cases hrep : s.guessedLetters.contains letter = true
    · have e : HangmanGame.handleGuess s letter
          = { s with wrongCount := s.wrongCount + 1,
                     status := if s.wrongCount + 1 ≥ HangmanGame.MAX_WRONG
                       then HangmanGame.Status.lost else s.status } := by
        unfold HangmanGame.handleGuess
        rw [if_neg (by simp [hp]), if_pos hrep]
      rw [e]
      intro hw
      dsimp only at hw
      split_ifs at hw
      rw [hp] at hw
      exact absurd hw (by decide)
    · by_cases hin : s.targetWord.toList.contains letter = false
      · have e : HangmanGame.handleGuess s letter
            = { s with guessedLetters := s.guessedLetters ++ [letter],
                       wrongCount := s.wrongCount + 1,
                       status := if s.wrongCount + 1 ≥ HangmanGame.MAX_WRONG
                         then HangmanGame.Status.lost else s.status } := by
          unfold HangmanGame.handleGuess
          rw [if_neg (by simp [hp]), if_neg hrep]
          dsimp only
          rw [if_pos hin]
        rw [e]
        intro hw
        dsimp only at hw
        split_ifs at hw
        rw [hp] at hw
        exact absurd hw (by decide)
      · have e : HangmanGame.handleGuess s letter
            = { s with guessedLetters := s.guessedLetters ++ [letter],
                       status := if s.targetWord.toList.all
                           (fun char => !(HangmanGame.isAZ char)
                             || (s.guessedLetters ++ [letter]).contains char) = true
                         then HangmanGame.Status.won else s.status } := by
          unfold HangmanGame.handleGuess
          rw [if_neg (by simp [hp]), if_neg hrep]
          dsimp only
          rw [if_neg hin]
        rw [e]
        intro hw c hc haz
        dsimp only at hw hc ⊢
        by_cases hall : s.targetWord.toList.all
            (fun char => !(HangmanGame.isAZ char)
              || (s.guessedLetters ++ [letter]).contains char) = true
        · have := List.all_eq_true.mp hall c hc
          simpa [haz] using this
        · rw [if_neg hall, hp] at hw
          exact absurd hw (by decide)
  · have e : HangmanGame.handleGuess s letter = s := by
      unfold HangmanGame.handleGuess
      rw [if_pos hp]
    rw [e]
    exact h

/-- A hint keeps the invariant of won rounds. -/
theorem HangmanGame.useHint_wonInv (s : HangmanGame.State) (random : Nat)
    (h : HangmanGame.WonInv s) : HangmanGame.WonInv (HangmanGame.useHint s random) := by
  unfold HangmanGame.useHint
  split
  · exact h
  · split
    · exact HangmanGame.handleGuess_wonInv s _ h
    · exact h

/-- C27: in every reachable state whose status is 'won', every A–Z character
of the target word is in `guessedLetters`, so every letter box shows its
character (`showChar` is true at every position) and none is marked missing;
in every reachable state whose status is 'lost', every letter box shows its
character, and a box is marked missing exactly when its character is a letter
A–Z that is not in `guessedLetters`. -/
theorem HangmanGame.terminal_reveals_answer (s : HangmanGame.State)
    (hr : HangmanGame.Reachable s) :
    (s.status = HangmanGame.Status.won →
      (∀ c ∈ s.targetWord.toList, HangmanGame.isAZ c = true → c ∈ s.guessedLetters) ∧
      (∀ c ∈ s.targetWord.toList,
        HangmanGame.showChar s c = true ∧ HangmanGame.isMissing s c = false)) ∧
    (s.status = HangmanGame.Status.lost →
      ∀ c ∈ s.targetWord.toList,
        HangmanGame.showChar s c = true ∧
        (HangmanGame.isMissing s c = true ↔
          (HangmanGame.isAZ c = true ∧ c ∉ s.guessedLetters))) := by
  have hinv : HangmanGame.WonInv s := by
    induction hr with
    | start toUpperCase name =>
      intro hw
      exact absurd hw (by simp [HangmanGame.startNewGame])
    | guess s letter _ ih => exact HangmanGame.handleGuess_wonInv s letter ih
    | hint s random _ ih => exact HangmanGame.useHint_wonInv s random ih
  constructor
  · intro hw
    refine ⟨hinv hw, ?_⟩
    intro c hc
    constructor
    · unfold HangmanGame.showChar HangmanGame.isGuessed HangmanGame.isSpace
      by_cases haz : HangmanGame.isAZ c = true
      · have := hinv hw c hc haz
        simp [this]
      · simp [haz]
    · unfold HangmanGame.isMissing
      simp [hw]
  · intro hl c _
    constructor
    · unfold HangmanGame.showChar
      simp [hl]
    · unfold HangmanGame.isMissing HangmanGame.isGuessed HangmanGame.isSpace
      simp [hl]
      tauto

/-- C27, at the lost round `lostRound` (target word "BEEF NOODLE", only `B`
guessed among its letters). -/
theorem HangmanGame.terminal_reveals_answer_witness :
    HangmanGame.lostRound.status = HangmanGame.Status.lost ∧
    HangmanGame.isMissing HangmanGame.lostRound 'E' = true ∧
    HangmanGame.isMissing HangmanGame.lostRound 'B' = false ∧
    HangmanGame.isMissing HangmanGame.lostRound ' ' = false ∧
    (HangmanGame.lostRound.status = HangmanGame.Status.won →
      (∀ c ∈ HangmanGame.lostRound.targetWord.toList, HangmanGame.isAZ c = true →
        c ∈ HangmanGame.lostRound.guessedLetters) ∧
      (∀ c ∈ HangmanGame.lostRound.targetWord.toList,
        HangmanGame.showChar HangmanGame.lostRound c = true ∧
        HangmanGame.isMissing HangmanGame.lostRound c = false)) ∧
    (HangmanGame.lostRound.status = HangmanGame.Status.lost →
      ∀ c ∈ HangmanGame.lostRound.targetWord.toList,
        HangmanGame.showChar HangmanGame.lostRound c = true ∧
        (HangmanGame.isMissing HangmanGame.lostRound c = true ↔
          (HangmanGame.isAZ c = true ∧ c ∉ HangmanGame.lostRound.guessedLetters))) :=
  ⟨by decide, by decide, by decide, by decide,
   HangmanGame.terminal_reveals_answer HangmanGame.lostRound
    (HangmanGame.Reachable.guess _ _ (HangmanGame.Reachable.guess _ _
      (HangmanGame.Reachable.guess _ _ (HangmanGame.Reachable.guess _ _
        (HangmanGame.Reachable.guess _ _
          (HangmanGame.Reachable.start HangmanGame.asciiUpper "Phở – Beef Noodle"))))))⟩

/-- Every key of `KEYBOARD` is a letter A–Z. -/
theorem HangmanGame.keyboard_isAZ (c : Char) (h : HangmanGame.KEYBOARD.contains c = true) :
    HangmanGame.isAZ c = true := by
  have hall : ∀ k ∈ HangmanGame.KEYBOARD, HangmanGame.isAZ k = true := by decide
  exact hall c (by simpa using h)

/-- In a round that is being played on a target word without a letter A–Z, a
guess of a letter A–Z adds 1 to `wrongCount`, loses the round exactly when the
new count reaches `MAX_WRONG`, and leaves the target word and `hintUsed` as
they are. -/
theorem HangmanGame.handleGuess_no_letter (s : HangmanGame.State) (letter : Char)
    (hno : ∀ c ∈ s.targetWord.toList, HangmanGame.isAZ c = false)
    (hletter : HangmanGame.isAZ letter = true)
    (hp : s.status = HangmanGame.Status.playing) :
    (HangmanGame.handleGuess s letter).wrongCount = s.wrongCount + 1 ∧
      (HangmanGame.handleGuess s letter).status
        = (if s.wrongCount + 1 ≥ HangmanGame.MAX_WRONG then HangmanGame.Status.lost
           else HangmanGame.Status.playing) ∧
      (HangmanGame.handleGuess s letter).targetWord = s.targetWord ∧
      (HangmanGame.handleGuess s letter).hintUsed = s.hintUsed := by
  have hnotin : s.targetWord.toList.contains letter = false := by
    by_contra hc
    have hmem : letter ∈ s.targetWord.toList := by simpa using hc
    have := hno letter hmem
    rw [hletter] at this
    exact absurd this (by decide)
  unfold HangmanGame.handleGuess
  rw [if_neg (by simp [hp])]
  by_cases hrep : s.guessedLetters.contains letter = true
  · rw [if_pos hrep, hp]
    exact ⟨rfl, rfl, rfl, rfl⟩
  · rw [if_neg hrep]
    dsimp only
    rw [if_pos hnotin, hp]
    exact ⟨rfl, rfl, rfl, rfl⟩

/-- On a target word without a letter A–Z the hint does nothing. -/
theorem HangmanGame.useHint_no_letter (s : HangmanGame.State) (random : Nat)
    (hno : ∀ c ∈ s.targetWord.toList, HangmanGame.isAZ c = false) :
    HangmanGame.useHint s random = s := by
  have hnil : HangmanGame.unguessed s = [] := by
    unfold HangmanGame.unguessed
    rw [List.filter_eq_nil_iff]
    intro c hc
    simp [hno c hc]
  unfold HangmanGame.useHint
  rw [hnil]
  split
  · rfl
  · rfl

/-- The state of a round without letters after `n` guesses: the counter is
`min n 4`, the round is lost from the fourth guess on and played before, and
the hint is unused. -/
theorem HangmanGame.run_no_letter (es : List HangmanGame.Event) :
    ∀ (s : HangmanGame.State) (n : Nat),
      (∀ c ∈ s.targetWord.toList, HangmanGame.isAZ c = false) →
      (∀ e ∈ es, HangmanGame.Event.offered e = true) →
      s.hintUsed = false → s.wrongCount = min n 4 →
      s.status = (if 4 ≤ n then HangmanGame.Status.lost else HangmanGame.Status.playing) →
      (HangmanGame.run s es).targetWord = s.targetWord ∧
      (HangmanGame.run s es).hintUsed = false ∧
      (HangmanGame.run s es).wrongCount = min (n + HangmanGame.guessCount es) 4 ∧
      (HangmanGame.run s es).status
        = (if 4 ≤ n + HangmanGame.guessCount es then HangmanGame.Status.lost
           else HangmanGame.Status.playing) := by
  induction es with
  | nil =>
    intro s n _ _ hh hw hs
    exact ⟨rfl, hh, hw, hs⟩
  | cons e es ih =>
    intro s n hno hoff hh hw hs
    have hoff2 : ∀ e2 ∈ es, HangmanGame.Event.offered e2 = true :=
      fun e2 he2 => hoff e2 (List.mem_cons_of_mem _ he2)
    cases e with
    | hint random =>
      have e1 : HangmanGame.run s (HangmanGame.Event.hint random :: es)
          = HangmanGame.run s es := by
        show HangmanGame.run (HangmanGame.useHint s random) es = _
        rw [HangmanGame.useHint_no_letter s random hno]
      rw [e1]
      exact ih s n hno hoff2 hh hw hs
    | guess letter =>
      have hkey : HangmanGame.isAZ letter = true :=
        HangmanGame.keyboard_isAZ letter (hoff _ (List.mem_cons_self _ _))
      have hcount : n + HangmanGame.guessCount (HangmanGame.Event.guess letter :: es)
          = (n + 1) + HangmanGame.guessCount es := by
        show n + (HangmanGame.guessCount es + 1) = _
        omega
      rw [hcount]
      show (HangmanGame.run (HangmanGame.handleGuess s letter) es).targetWord = _ ∧
        (HangmanGame.run (HangmanGame.handleGuess s letter) es).hintUsed = _ ∧
        (HangmanGame.run (HangmanGame.handleGuess s letter) es).wrongCount = _ ∧
        (HangmanGame.run (HangmanGame.handleGuess s letter) es).status = _
      by_cases hn : 4 ≤ n
      · have hterm : HangmanGame.handleGuess s letter = s := by
          unfold HangmanGame.handleGuess
          rw [if_pos (by rw [hs, if_pos hn]; decide)]
        rw [hterm]
        exact ih s (n + 1) hno hoff2 hh (by omega) (by rw [hs, if_pos hn, if_pos (by omega)])
      · have hp : s.status = HangmanGame.Status.playing := by rw [hs, if_neg hn]
        obtain ⟨h1, h2, h3, h4⟩ := HangmanGame.handleGuess_no_letter s letter hno hkey hp
        have := ih (HangmanGame.handleGuess s letter) (n + 1) (by rw [h3]; exact hno) hoff2
          (by rw [h4]; exact hh) (by rw [h1, hw]; omega)
          (by
            rw [h2, hw]
            unfold HangmanGame.MAX_WRONG
            by_cases h4n : 4 ≤ n + 1
            · rw [if_pos (by omega), if_pos h4n]
            · rw [if_neg (by omega), if_neg h4n])
        rw [h3] at this
        exact this

/-- C28: let the target word of a new round contain no letter A–Z.  After any
sequence of keyboard guesses (letters A–Z) and hints the status is not 'won';
`hintUsed` is still false and a hint leaves the state as it is; `wrongCount`
is the number of guesses made, capped at 4, so every guess of a round that is
being played adds 1 to it; and the round is lost exactly from the fourth guess
on, being played before. -/
theorem HangmanGame.round_without_letters (toUpperCase : String → String) (name : String)
    (es : List HangmanGame.Event)
    (hno : ∀ c ∈ (HangmanGame.startNewGame toUpperCase name).targetWord.toList,
      HangmanGame.isAZ c = false)
    (hoff : ∀ e ∈ es, HangmanGame.Event.offered e = true) :
    (HangmanGame.run (HangmanGame.startNewGame toUpperCase name) es).status
        ≠ HangmanGame.Status.won ∧
      (HangmanGame.run (HangmanGame.startNewGame toUpperCase name) es).hintUsed = false ∧
      (∀ random,
        HangmanGame.useHint (HangmanGame.run (HangmanGame.startNewGame toUpperCase name) es)
            random
          = HangmanGame.run (HangmanGame.startNewGame toUpperCase name) es) ∧
      (HangmanGame.run (HangmanGame.startNewGame toUpperCase name) es).wrongCount
        = min (HangmanGame.guessCount es) 4 ∧
      ((HangmanGame.run (HangmanGame.startNewGame toUpperCase name) es).status
          = HangmanGame.Status.lost ↔ 4 ≤ HangmanGame.guessCount es) ∧
      ((HangmanGame.run (HangmanGame.startNewGame toUpperCase name) es).status
          = HangmanGame.Status.playing ↔ HangmanGame.guessCount es < 4) ∧
      (∀ letter, HangmanGame.KEYBOARD.contains letter = true →
        (HangmanGame.run (HangmanGame.startNewGame toUpperCase name) es).status
          = HangmanGame.Status.playing →
        (HangmanGame.handleGuess
            (HangmanGame.run (HangmanGame.startNewGame toUpperCase name) es) letter).wrongCount
          = (HangmanGame.run (HangmanGame.startNewGame toUpperCase name) es).wrongCount
            + 1) := by
  obtain ⟨ht, hh, hw, hs⟩ := HangmanGame.run_no_letter es
    (HangmanGame.startNewGame toUpperCase name) 0 hno hoff rfl rfl rfl
  rw [Nat.zero_add] at hw hs
  have hno2 : ∀ c ∈ (HangmanGame.run (HangmanGame.startNewGame toUpperCase name)
      es).targetWord.toList, HangmanGame.isAZ c = false := by
    rw [ht]; exact hno
  refine ⟨?_, hh, ?_, hw, ?_, ?_, ?_⟩
  · rw [hs]
    split_ifs <;> decide
  · intro random
    exact HangmanGame.useHint_no_letter _ random hno2
  · rw [hs]
    by_cases h4 : 4 ≤ HangmanGame.guessCount es
    · rw [if_pos h4]
      exact ⟨fun _ => h4, fun _ => rfl⟩
    · rw [if_neg h4]
      exact ⟨fun h => absurd h (by decide), fun h => absurd h h4⟩
  · rw [hs]
    by_cases h4 : 4 ≤ HangmanGame.guessCount es
    · rw [if_pos h4]
      exact ⟨fun h => absurd h (by decide), fun h => absurd h4 (by omega)⟩
    · rw [if_neg h4]
      exact ⟨fun _ => by omega, fun _ => rfl⟩
  · intro letter hkey hp
    exact (HangmanGame.handleGuess_no_letter _ letter hno2
      (HangmanGame.keyboard_isAZ letter hkey) hp).1

/-- C28, at the round `accentRound` (answer of two accented letters and a
space) and the guesses `O`, `O` again, `A`, `B` with a hint in between: the
round is lost at the fourth guess. -/
theorem HangmanGame.round_without_letters_witness :
    (HangmanGame.run HangmanGame.accentRound HangmanGame.accentMoves).status
        = HangmanGame.Status.lost ∧
      (HangmanGame.run HangmanGame.accentRound HangmanGame.accentMoves).wrongCount = 4 ∧
      (HangmanGame.run HangmanGame.accentRound HangmanGame.accentMoves).status
        ≠ HangmanGame.Status.won ∧
      (HangmanGame.run HangmanGame.accentRound HangmanGame.accentMoves).hintUsed = false ∧
      (∀ random,
        HangmanGame.useHint (HangmanGame.run HangmanGame.accentRound HangmanGame.accentMoves)
            random
          = HangmanGame.run HangmanGame.accentRound HangmanGame.accentMoves) ∧
      (HangmanGame.run HangmanGame.accentRound HangmanGame.accentMoves).wrongCount
        = min (HangmanGame.guessCount HangmanGame.accentMoves) 4 ∧
      ((HangmanGame.run HangmanGame.accentRound HangmanGame.accentMoves).status
          = HangmanGame.Status.lost ↔ 4 ≤ HangmanGame.guessCount HangmanGame.accentMoves) ∧
      ((HangmanGame.run HangmanGame.accentRound HangmanGame.accentMoves).status
          = HangmanGame.Status.playing ↔ HangmanGame.guessCount HangmanGame.accentMoves < 4) ∧
      (∀ letter, HangmanGame.KEYBOARD.contains letter = true →
        (HangmanGame.run HangmanGame.accentRound HangmanGame.accentMoves).status
          = HangmanGame.Status.playing →
        (HangmanGame.handleGuess
            (HangmanGame.run HangmanGame.accentRound HangmanGame.accentMoves) letter).wrongCount
          = (HangmanGame.run HangmanGame.accentRound HangmanGame.accentMoves).wrongCount
            + 1) :=
  ⟨by decide, by decide,
   HangmanGame.round_without_letters HangmanGame.asciiUpper "Ốc – Ô Ố" HangmanGame.accentMoves
    (by decide) (by decide)⟩

/-- Dropping a prefix by a test twice is dropping it once. -/
theorem HangmanGame.dropWhile_dropWhile {α : Type} (p : α → Bool) (l : List α) :
    (l.dropWhile p).dropWhile p = l.dropWhile p := by
  induction l with
  | nil => rfl
  | cons a t ih =>
    by_cases h : p a = true
    · rw [List.dropWhile_cons_of_pos h]; exact ih
    · rw [List.dropWhile_cons_of_neg h, List.dropWhile_cons_of_neg h]

/-- A list whose first entry fails the test is left alone by `dropWhile`, also
after entries were removed from its end. -/
theorem HangmanGame.dropWhile_reverse_dropWhile {α : Type} (p : α → Bool) (l : List α)
    (h : l.dropWhile p = l) :
    ((l.reverse.dropWhile p).reverse).dropWhile p = (l.reverse.dropWhile p).reverse := by
  cases l with
  | nil => rfl
  | cons a t =>
    have ha : ¬ p a = true := by
      intro hpa
      rw [List.dropWhile_cons_of_pos hpa] at h
      have := congrArg List.length h
      have hle := (List.dropWhile_suffix p (l := t)).length_le
      simp at this
      omega
    -- the kept part is a prefix of `a :: t`
    have hpre : (((a :: t).reverse.dropWhile p).reverse) <+: (a :: t) := by
      have hs := List.dropWhile_suffix p (l := (a :: t).reverse)
      have := List.reverse_prefix.mpr hs
      simpa using this
    obtain ⟨r, hr⟩ := hpre
    cases hk : ((a :: t).reverse.dropWhile p).reverse with
    | nil => rfl
    | cons b u =>
      rw [hk] at hr
      have hb : b = a := by
        have := congrArg List.head? hr
        simpa using this
      rw [hb, List.dropWhile_cons_of_neg ha]

/-- The method `trim` is idempotent. -/
theorem HangmanGame.trim_trim (s : String) :
    HangmanGame.trim (HangmanGame.trim s) = HangmanGame.trim s := by
  unfold HangmanGame.trim
  have h1 := HangmanGame.dropWhile_reverse_dropWhile HangmanGame.isJsWhitespace
    (s.toList.dropWhile HangmanGame.isJsWhitespace)
    (HangmanGame.dropWhile_dropWhile _ _)
  show String.mk (((((s.toList.dropWhile HangmanGame.isJsWhitespace).reverse.dropWhile
    HangmanGame.isJsWhitespace).reverse).dropWhile HangmanGame.isJsWhitespace).reverse.dropWhile
      HangmanGame.isJsWhitespace).reverse = _
  rw [h1, List.reverse_reverse, HangmanGame.dropWhile_dropWhile]

/-- A list without separator is split into itself. -/
theorem HangmanGame.splitParts_of_no_sep (sep : Char → Bool) (l : List Char)
    (h : ∀ c ∈ l, sep c = false) : HangmanGame.splitParts sep l = [l] := by
  induction l with
  | nil => rfl
  | cons c cs ih =>
    have hc : sep c = false := h c (List.mem_cons_self _ _)
    have hcs := ih (fun x hx => h x (List.mem_cons_of_mem _ hx))
    simp only [HangmanGame.splitParts, hc, hcs, Bool.false_eq_true, if_false]

/-- The first piece of a split ends at the first separator; the other pieces
are the split of what follows it. -/
theorem HangmanGame.splitParts_append (sep : Char → Bool) (pre : List Char) (c : Char)
    (rest : List Char) (hpre : ∀ x ∈ pre, sep x = false) (hc : sep c = true) :
    HangmanGame.splitParts sep (pre ++ c :: rest) = pre :: HangmanGame.splitParts sep rest := by
  induction pre with
  | nil => simp only [List.nil_append, HangmanGame.splitParts, hc, if_true]
  | cons a t ih =>
    have ha : sep a = false := hpre a (List.mem_cons_self _ _)
    have ht := ih (fun x hx => hpre x (List.mem_cons_of_mem _ hx))
    show HangmanGame.splitParts sep (a :: (t ++ c :: rest)) = _
    simp only [HangmanGame.splitParts, ha, ht, Bool.false_eq_true, if_false]

/-- What `dropWhile` leaves starts with an entry that fails the test. -/
theorem HangmanGame.dropWhile_head {α : Type} (p : α → Bool) (l : List α) (c : α)
    (rest : List α) (h : l.dropWhile p = c :: rest) : p c = false := by
  induction l with
  | nil => exact absurd h (by simp)
  | cons a t ih =>
    by_cases ha : p a = true
    · rw [List.dropWhile_cons_of_pos ha] at h
      exact ih h
    · rw [List.dropWhile_cons_of_neg ha] at h
      have hac : a = c := by
        have := congrArg List.head? h
        simpa using this
      rw [← hac]
      simpa using ha

/-- The pieces `parts` of a name with at most one separator: the name itself
when it has no separator, and otherwise the text before and the text after the
separator. -/
theorem HangmanGame.splitParts_name (name : String)
    (hcount : HangmanGame.separatorCount name ≤ 1) :
    (HangmanGame.separatorCount name = 0 ∧
      HangmanGame.textBeforeSeparator name = name ∧
      HangmanGame.textAfterSeparator name = "" ∧
      (HangmanGame.splitParts HangmanGame.isSeparator name.toList).map String.mk = [name]) ∨
    (HangmanGame.separatorCount name = 1 ∧
      (HangmanGame.splitParts HangmanGame.isSeparator name.toList).map String.mk
        = [HangmanGame.textBeforeSeparator name, HangmanGame.textAfterSeparator name]) := by
  have hsplit := List.takeWhile_append_dropWhile (fun c => !(HangmanGame.isSeparator c))
    name.toList
  have hpre : ∀ x ∈ name.toList.takeWhile (fun c => !(HangmanGame.isSeparator c)),
      HangmanGame.isSeparator x = false := by
    intro x hx
    have := List.mem_takeWhile_imp hx
    simpa using this
  cases hd : name.toList.dropWhile (fun c => !(HangmanGame.isSeparator c)) with
  | nil =>
    left
    rw [hd, List.append_nil] at hsplit
    have hall : ∀ x ∈ name.toList, HangmanGame.isSeparator x = false := by
      rw [← hsplit]; exact hpre
    refine ⟨?_, ?_, ?_, ?_⟩
    · unfold HangmanGame.separatorCount
      rw [List.length_eq_zero, List.filter_eq_nil_iff]
      intro x hx
      simp [hall x hx]
    · unfold HangmanGame.textBeforeSeparator
      rw [hsplit]
      rfl
    · unfold HangmanGame.textAfterSeparator
      rw [hd]
      rfl
    · rw [HangmanGame.splitParts_of_no_sep _ _ hall]
      rfl
  | cons c rest =>
    right
    rw [hd] at hsplit
    have hc : HangmanGame.isSeparator c = true := by
      have := HangmanGame.dropWhile_head _ _ c rest hd
      simpa using this
    have hcnt : HangmanGame.separatorCount name
        = 1 + (rest.filter HangmanGame.isSeparator).length := by
      unfold HangmanGame.separatorCount
      rw [← hsplit, List.filter_append, List.filter_cons_of_pos hc, List.length_append,
        List.length_cons]
      have h0 : (name.toList.takeWhile (fun c => !(HangmanGame.isSeparator c))).filter
          HangmanGame.isSeparator = [] := by
        rw [List.filter_eq_nil_iff]
        intro x hx
        simp [hpre x hx]
      rw [h0]
      simp
      omega
    have hrest : ∀ x ∈ rest, HangmanGame.isSeparator x = false := by
      have h0 : rest.filter HangmanGame.isSeparator = [] := by
        rw [← List.length_eq_zero]; omega
      rw [List.filter_eq_nil_iff] at h0
      intro x hx
      simpa using h0 x hx
    refine ⟨by omega, ?_⟩
    have hparts : HangmanGame.splitParts HangmanGame.isSeparator name.toList
        = [name.toList.takeWhile (fun c => !(HangmanGame.isSeparator c)), rest] := by
      rw [← HangmanGame.splitParts_of_no_sep HangmanGame.isSeparator rest hrest,
        ← HangmanGame.splitParts_append HangmanGame.isSeparator _ c rest hpre hc, hsplit]
    rw [hparts]
    unfold HangmanGame.textBeforeSeparator HangmanGame.textAfterSeparator
    rw [hd]
    rfl

/-- C25 (as stated, refuted): the dish name "Pho -" has a separator, the text
before it is "Pho " and the text after it is empty, yet the answer is not
the upper-cased trimmed text after the separator (the empty string): the
answer falls back to the hint and is "PHO".  And for the name
"Com rang - Stir-fried rice" the answer is "STIR", the text between the first
and the second separator, not the text after the first one. -/
theorem HangmanGame.answer_is_not_text_after_separator :
    HangmanGame.separatorCount "Pho -" = 1 ∧
      HangmanGame.textBeforeSeparator "Pho -" = "Pho " ∧
      HangmanGame.textAfterSeparator "Pho -" = "" ∧
      (HangmanGame.startNewGame HangmanGame.asciiUpper "Pho -").vietnameseName = "Pho" ∧
      (HangmanGame.startNewGame HangmanGame.asciiUpper "Pho -").targetWord = "PHO" ∧
      (HangmanGame.startNewGame HangmanGame.asciiUpper "Pho -").targetWord
        ≠ HangmanGame.asciiUpper (HangmanGame.trim (HangmanGame.textAfterSeparator "Pho -")) ∧
      HangmanGame.textAfterSeparator "Com rang - Stir-fried rice" = " Stir-fried rice" ∧
      (HangmanGame.startNewGame HangmanGame.asciiUpper
        "Com rang - Stir-fried rice").targetWord = "STIR" := by
  refine ⟨by decide, by decide, by decide, by decide, by decide, by decide, by decide,
    by decide⟩

/-- The test `/[A-Z]/` in terms of the character code. -/
theorem HangmanGame.isAZ_iff (c : Char) :
    HangmanGame.isAZ c = true ↔ 65 ≤ c.toNat ∧ c.toNat ≤ 90 := by
  unfold HangmanGame.isAZ
  rw [decide_eq_true_iff, Char.le_def, Char.le_def]
  rfl

set_option maxRecDepth 100000 in
/-- Among the first 128 characters, the upper-case form of a letter is a letter
A–Z. -/
theorem HangmanGame.isAZ_toUpper_ascii :
    ∀ n, n < 128 → (Char.ofNat n).isAlpha = true →
      HangmanGame.isAZ (Char.ofNat n).toUpper = true := by
  decide

/-- The upper-case form of an ASCII letter is a letter A–Z. -/
theorem HangmanGame.isAZ_toUpper (c : Char) (h : c.isAlpha = true) :
    HangmanGame.isAZ c.toUpper = true := by
  have hlt : c.toNat < 128 := by
    unfold Char.isAlpha Char.isUpper Char.isLower at h
    simp only [Bool.or_eq_true, Bool.and_eq_true, decide_eq_true_eq, ge_iff_le] at h
    have h2 : c.val ≤ 90 ∨ c.val ≤ 122 := by
      rcases h with h | h
      · exact Or.inl h.2
      · exact Or.inr h.2
    have h3 : c.val.toNat ≤ 90 ∨ c.val.toNat ≤ 122 := by
      rcases h2 with h | h
      · exact Or.inl (UInt32.le_def.mp h)
      · exact Or.inr (UInt32.le_def.mp h)
    show c.val.toNat < 128
    omega
  have := HangmanGame.isAZ_toUpper_ascii c.toNat hlt
  rw [Char.ofNat_toNat] at this
  exact this h

/-- Every letter A–Z is a key of `KEYBOARD`. -/
theorem HangmanGame.keyboard_of_isAZ (c : Char) (h : HangmanGame.isAZ c = true) :
    HangmanGame.KEYBOARD.contains c = true := by
  have hall : ∀ n, n < 91 → 65 ≤ n → HangmanGame.KEYBOARD.contains (Char.ofNat n) = true := by
    decide
  rw [HangmanGame.isAZ_iff] at h
  have := hall c.toNat (by omega) h.1
  rw [Char.ofNat_toNat] at this
  exact this

/-- Guessing, one after the other, distinct unguessed letters of the target
word that cover all its A–Z characters wins the round without a wrong
guess. -/
theorem HangmanGame.guessAll_wins (todo : List Char) :
    ∀ s : HangmanGame.State, s.status = HangmanGame.Status.playing → todo ≠ [] →
      todo.Nodup →
      (∀ c ∈ todo, c ∈ s.targetWord.toList ∧ HangmanGame.isAZ c = true
        ∧ c ∉ s.guessedLetters) →
      (∀ c ∈ s.targetWord.toList, HangmanGame.isAZ c = true →
        c ∈ s.guessedLetters ∨ c ∈ todo) →
      (HangmanGame.guessAll s todo).status = HangmanGame.Status.won ∧
        (HangmanGame.guessAll s todo).wrongCount = s.wrongCount := by
  induction todo with
  | nil => intro s _ h; exact absurd rfl h
  | cons a rest ih =>
    intro s hplay _ hnd htodo hcover
    obtain ⟨hain, _, hanew⟩ := htodo a (List.mem_cons_self _ _)
    obtain ⟨hg, ht, hrest⟩ := HangmanGame.handleGuess_fresh s a hplay hanew
    obtain ⟨hw, hwon, hgo⟩ := hrest hain
    have hrun : HangmanGame.guessAll s (a :: rest)
        = HangmanGame.guessAll (HangmanGame.handleGuess s a) rest := rfl
    rw [hrun]
    cases rest with
    | nil =>
      refine ⟨?_, hw⟩
      show (HangmanGame.handleGuess s a).status = _
      rw [hwon]
      intro c hc haz
      rw [hg]
      rcases hcover c hc haz with h | h
      · exact List.mem_append_left _ h
      · exact List.mem_append_right _ h
    | cons b r =>
      have hnd2 : ¬ a ∈ b :: r ∧ (b :: r).Nodup := List.nodup_cons.mp hnd
      have hnotwon : (HangmanGame.handleGuess s a).status ≠ HangmanGame.Status.won := by
        intro hwin
        obtain ⟨hbin, hbaz, hbnew⟩ := htodo b (List.mem_cons_of_mem _ (List.mem_cons_self _ _))
        have := hwon.mp hwin b hbin hbaz
        rw [hg, List.mem_append, List.mem_singleton] at this
        rcases this with h | h
        · exact hbnew h
        · exact hnd2.1 (h ▸ List.mem_cons_self _ _)
      have hplay2 := hgo hnotwon
      have := ih (HangmanGame.handleGuess s a) hplay2 (by simp) hnd2.2
        (by
          intro c hc
          obtain ⟨h1, h2, h3⟩ := htodo c (List.mem_cons_of_mem _ hc)
          refine ⟨by rw [ht]; exact h1, h2, ?_⟩
          rw [hg, List.mem_append, List.mem_singleton]
          rintro (h | h)
          · exact h3 h
          · exact hnd2.1 (h ▸ hc))
        (by
          intro c hc haz
          rw [ht] at hc
          rw [hg]
          rcases hcover c hc haz with h | h
          · exact Or.inl (List.mem_append_left _ h)
          · rcases List.mem_cons.mp h with h2 | h2
            · exact Or.inl (List.mem_append_right _ (by rw [h2]; exact List.mem_singleton_self _))
            · exact Or.inr h2)
      rw [this.2, hw]
      exact ⟨this.1, rfl⟩

/-- C26 (as stated, refuted): for the dish name "Phở 24 – 24/7" round setup
returns the answer "24/7", which contains no letter A–Z, and the round stays
in play with that answer; no sequence of keyboard guesses and hints wins
it. -/
theorem HangmanGame.answer_without_letter :
    HangmanGame.numberRound.vietnameseName = "Phở 24" ∧
      HangmanGame.numberRound.targetWord = "24/7" ∧
      HangmanGame.numberRound.status = HangmanGame.Status.playing ∧
      (∀ c ∈ HangmanGame.numberRound.targetWord.toList, HangmanGame.isAZ c = false) ∧
      ¬ (∃ c ∈ HangmanGame.numberRound.targetWord.toList, HangmanGame.isAZ c = true) ∧
      (∀ es : List HangmanGame.Event, (∀ e ∈ es, HangmanGame.Event.offered e = true) →
        (HangmanGame.run HangmanGame.numberRound es).status ≠ HangmanGame.Status.won) := by
  have hno : ∀ c ∈ HangmanGame.numberRound.targetWord.toList, HangmanGame.isAZ c = false := by
    decide
  refine ⟨by decide, by decide, by decide, hno, by decide, ?_⟩
  intro es hoff
  obtain ⟨_, _, _, hs⟩ := HangmanGame.run_no_letter es HangmanGame.numberRound 0 hno hoff
    rfl rfl rfl
  rw [hs]
  split_ifs <;> decide

/-- C26 (amended): round setup does not validate the answer, it is the
upper-cased answer text whatever that contains.  When `toUpperCase` turns ASCII
letters into their upper-case forms and the answer text of the name contains an
ASCII letter, the target word contains a letter A–Z and the round is winnable:
the distinct A–Z letters of the target word are keys of the keyboard, and
guessing them one after the other wins the round without a wrong guess. -/
theorem HangmanGame.answer_with_letter_winnable (toUpperCase : String → String) (name : String)
    (hup : ∀ (t : String) (c : Char), c ∈ t.toList → c.isAlpha = true →
      c.toUpper ∈ (toUpperCase t).toList)
    (hletter : ∃ c ∈ (HangmanGame.answerText name).toList, c.isAlpha = true) :
    (HangmanGame.startNewGame toUpperCase name).targetWord
        = toUpperCase (HangmanGame.answerText name) ∧
      (∃ c ∈ (HangmanGame.startNewGame toUpperCase name).targetWord.toList,
        HangmanGame.isAZ c = true) ∧
      (∀ c ∈ HangmanGame.targetLetters (HangmanGame.startNewGame toUpperCase name),
        HangmanGame.KEYBOARD.contains c = true) ∧
      (HangmanGame.guessAll (HangmanGame.startNewGame toUpperCase name)
        (HangmanGame.targetLetters (HangmanGame.startNewGame toUpperCase name))).status
        = HangmanGame.Status.won ∧
      (HangmanGame.guessAll (HangmanGame.startNewGame toUpperCase name)
        (HangmanGame.targetLetters (HangmanGame.startNewGame toUpperCase name))).wrongCount
        = 0 := by
  have htarget : (HangmanGame.startNewGame toUpperCase name).targetWord
      = toUpperCase (HangmanGame.answerText name) := rfl
  have hex : ∃ c ∈ (HangmanGame.startNewGame toUpperCase name).targetWord.toList,
      HangmanGame.isAZ c = true := by
    obtain ⟨c, hc, halpha⟩ := hletter
    exact ⟨c.toUpper, by rw [htarget]; exact hup _ c hc halpha,
      HangmanGame.isAZ_toUpper c halpha⟩
  have hmem : ∀ c, c ∈ HangmanGame.targetLetters (HangmanGame.startNewGame toUpperCase name) ↔
      c ∈ (HangmanGame.startNewGame toUpperCase name).targetWord.toList
        ∧ HangmanGame.isAZ c = true := by
    intro c
    unfold HangmanGame.targetLetters
    rw [List.mem_dedup, List.mem_filter]
  have hwin := HangmanGame.guessAll_wins
    (HangmanGame.targetLetters (HangmanGame.startNewGame toUpperCase name))
    (HangmanGame.startNewGame toUpperCase name) rfl
    (by
      obtain ⟨c, hc, haz⟩ := hex
      exact List.ne_nil_of_mem ((hmem c).mpr ⟨hc, haz⟩))
    (List.nodup_dedup _)
    (by
      intro c hc
      obtain ⟨h1, h2⟩ := (hmem c).mp hc
      exact ⟨h1, h2, List.not_mem_nil c⟩)
    (by
      intro c hc haz
      exact Or.inr ((hmem c).mpr ⟨hc, haz⟩))
  refine ⟨htarget, hex, ?_, hwin.1, hwin.2⟩
  intro c hc
  exact HangmanGame.keyboard_of_isAZ c ((hmem c).mp hc).2

/-- C26 (amended), at the dish name "Phở – Beef" and ASCII upper-casing: the
answer is "BEEF" and the guesses `B`, `E`, `F` win the round. -/
theorem HangmanGame.answer_with_letter_winnable_witness :
    (HangmanGame.startNewGame HangmanGame.asciiUpper "Phở – Beef").targetWord = "BEEF" ∧
      HangmanGame.targetLetters (HangmanGame.startNewGame HangmanGame.asciiUpper "Phở – Beef")
        = ['B', 'E', 'F'] ∧
      ((HangmanGame.startNewGame HangmanGame.asciiUpper "Phở – Beef").targetWord
        = HangmanGame.asciiUpper (HangmanGame.answerText "Phở – Beef") ∧
      (∃ c ∈ (HangmanGame.startNewGame HangmanGame.asciiUpper "Phở – Beef").targetWord.toList,
        HangmanGame.isAZ c = true) ∧
      (∀ c ∈ HangmanGame.targetLetters
          (HangmanGame.startNewGame HangmanGame.asciiUpper "Phở – Beef"),
        HangmanGame.KEYBOARD.contains c = true) ∧
      (HangmanGame.guessAll (HangmanGame.startNewGame HangmanGame.asciiUpper "Phở – Beef")
        (HangmanGame.targetLetters
          (HangmanGame.startNewGame HangmanGame.asciiUpper "Phở – Beef"))).status
        = HangmanGame.Status.won ∧
      (HangmanGame.guessAll (HangmanGame.startNewGame HangmanGame.asciiUpper "Phở – Beef")
        (HangmanGame.targetLetters
          (HangmanGame.startNewGame HangmanGame.asciiUpper "Phở – Beef"))).wrongCount
        = 0) :=
  ⟨by decide, by decide,
   HangmanGame.answer_with_letter_winnable HangmanGame.asciiUpper "Phở – Beef"
    (fun _ _ hc _ => List.mem_map_of_mem _ hc) ⟨'e', by decide, by decide⟩⟩

/-- The first piece of a split is the text before the first separator, for
every list of characters. -/
theorem HangmanGame.splitParts_head (sep : Char → Bool) (l : List Char) :
    ∃ rest, HangmanGame.splitParts sep l = l.takeWhile (fun c => !(sep c)) :: rest := by
  induction l with
  | nil => exact ⟨[], rfl⟩
  | cons c cs ih =>
    obtain ⟨rest, hrest⟩ := ih
    by_cases hc : sep c = true
    · refine ⟨HangmanGame.splitParts sep cs, ?_⟩
      simp only [HangmanGame.splitParts, hc, if_true]
      rw [List.takeWhile_cons_of_neg (by simp [hc])]
    · refine ⟨rest, ?_⟩
      have hc2 : sep c = false := by simpa using hc
      rw [List.takeWhile_cons_of_pos (by simp [hc2])]
      simp only [HangmanGame.splitParts, hc2, hrest, Bool.false_eq_true, if_false]

/-- The hint of a new round is the trimmed text before the first separator,
for every dish name. -/
theorem HangmanGame.startNewGame_hint (toUpperCase : String → String) (name : String) :
    (HangmanGame.startNewGame toUpperCase name).vietnameseName
      = HangmanGame.trim (HangmanGame.textBeforeSeparator name) := by
  obtain ⟨rest, hrest⟩ := HangmanGame.splitParts_head HangmanGame.isSeparator name.toList
  unfold HangmanGame.startNewGame HangmanGame.textBeforeSeparator
  simp only [hrest]
  rfl

/-- C25 (amended): for every dish name, round setup returns a fresh round
(nothing guessed, no wrong guess, 'playing', hint unused) whose hint is the
trimmed text before the first hyphen or en dash (the whole name, trimmed, when
there is none).  For every dish name with at most one separator, the answer is
the upper-cased trimmed text after the separator when that text is not empty,
and the upper-cased hint when it is empty; and when the name has no separator
the hint is the trimmed name and the answer is that same string upper-cased. -/
theorem HangmanGame.startNewGame_split (toUpperCase : String → String) (name : String) :
    (HangmanGame.startNewGame toUpperCase name).vietnameseName
        = HangmanGame.trim (HangmanGame.textBeforeSeparator name) ∧
      (HangmanGame.startNewGame toUpperCase name).guessedLetters = [] ∧
      (HangmanGame.startNewGame toUpperCase name).wrongCount = 0 ∧
      (HangmanGame.startNewGame toUpperCase name).status = HangmanGame.Status.playing ∧
      (HangmanGame.startNewGame toUpperCase name).hintUsed = false ∧
      (HangmanGame.separatorCount name ≤ 1 →
        (HangmanGame.textAfterSeparator name ≠ "" →
          (HangmanGame.startNewGame toUpperCase name).targetWord
            = toUpperCase (HangmanGame.trim (HangmanGame.textAfterSeparator name))) ∧
        (HangmanGame.textAfterSeparator name = "" →
          (HangmanGame.startNewGame toUpperCase name).targetWord
            = toUpperCase (HangmanGame.startNewGame toUpperCase name).vietnameseName)) ∧
      (HangmanGame.separatorCount name = 0 →
        (HangmanGame.startNewGame toUpperCase name).vietnameseName = HangmanGame.trim name ∧
        (HangmanGame.startNewGame toUpperCase name).targetWord
          = toUpperCase (HangmanGame.trim name)) := by
  have hv := HangmanGame.startNewGame_hint toUpperCase name
  have hanswer : ∀ hcount : HangmanGame.separatorCount name ≤ 1,
      (HangmanGame.textAfterSeparator name ≠ "" →
        (HangmanGame.startNewGame toUpperCase name).targetWord
          = toUpperCase (HangmanGame.trim (HangmanGame.textAfterSeparator name))) ∧
      (HangmanGame.textAfterSeparator name = "" →
        (HangmanGame.startNewGame toUpperCase name).targetWord
          = toUpperCase (HangmanGame.trim (HangmanGame.textBeforeSeparator name))) ∧
      (HangmanGame.separatorCount name = 0 → HangmanGame.textBeforeSeparator name = name) := by
    intro hcount
    rcases HangmanGame.splitParts_name name hcount with ⟨h0, hb, ha, hparts⟩ | ⟨h1, hparts⟩
    · have ht : (HangmanGame.startNewGame toUpperCase name).targetWord
          = toUpperCase (HangmanGame.trim name) := by
        unfold HangmanGame.startNewGame
        simp only [hparts]
        show toUpperCase (HangmanGame.trim (HangmanGame.trim name)) = _
        rw [HangmanGame.trim_trim]
      exact ⟨fun h => absurd ha h, fun _ => by rw [ht, hb], fun _ => hb⟩
    · refine ⟨?_, ?_, fun h => absurd h (by omega)⟩
      · intro hne
        unfold HangmanGame.startNewGame
        simp only [hparts]
        show toUpperCase (HangmanGame.trim
          (if HangmanGame.textAfterSeparator name ≠ "" then HangmanGame.textAfterSeparator name
           else HangmanGame.trim (HangmanGame.textBeforeSeparator name))) = _
        rw [if_pos hne]
      · intro he
        unfold HangmanGame.startNewGame
        simp only [hparts]
        show toUpperCase (HangmanGame.trim
          (if HangmanGame.textAfterSeparator name ≠ "" then HangmanGame.textAfterSeparator name
           else HangmanGame.trim (HangmanGame.textBeforeSeparator name))) = _
        rw [if_neg (by simpa using he), HangmanGame.trim_trim]
  refine ⟨hv, rfl, rfl, rfl, rfl, ?_, ?_⟩
  · intro hcount
    obtain ⟨h1, h2, _⟩ := hanswer hcount
    exact ⟨h1, fun he => by rw [hv]; exact h2 he⟩
  · intro h0
    obtain ⟨_, h2, h3⟩ := hanswer (by omega)
    have hb := h3 h0
    have ha : HangmanGame.textAfterSeparator name = "" := by
      rcases HangmanGame.splitParts_name name (by omega) with ⟨_, _, ha, _⟩ | ⟨h1, _⟩
      · exact ha
      · omega
    refine ⟨by rw [hv, hb], ?_⟩
    have := h2 ha
    rw [hb] at this
    exact this

/-- C25 (amended), at the dish name "Phở – Beef" (one separator): the hint is
"Phở" and the answer is "BEEF", the upper-cased trimmed text after the
separator; and at the name "Com rang - Stir-fried rice" (two separators) the
hint is still the trimmed text before the first separator. -/
theorem HangmanGame.startNewGame_split_witness :
    HangmanGame.separatorCount "Phở – Beef" ≤ 1 ∧
      HangmanGame.textAfterSeparator "Phở – Beef" ≠ "" ∧
      (HangmanGame.startNewGame HangmanGame.asciiUpper "Phở – Beef").vietnameseName = "Phở" ∧
      (HangmanGame.startNewGame HangmanGame.asciiUpper "Phở – Beef").targetWord = "BEEF" ∧
      (HangmanGame.startNewGame HangmanGame.asciiUpper "Phở – Beef").vietnameseName
        = HangmanGame.trim (HangmanGame.textBeforeSeparator "Phở – Beef") ∧
      (HangmanGame.startNewGame HangmanGame.asciiUpper "Phở – Beef").targetWord
        = HangmanGame.asciiUpper (HangmanGame.trim (HangmanGame.textAfterSeparator "Phở – Beef")) ∧
      HangmanGame.separatorCount "Com rang - Stir-fried rice" = 2 ∧
      (HangmanGame.startNewGame HangmanGame.asciiUpper
          "Com rang - Stir-fried rice").vietnameseName
        = HangmanGame.trim (HangmanGame.textBeforeSeparator "Com rang - Stir-fried rice") :=
  ⟨by decide, by decide, by decide, by decide,
   (HangmanGame.startNewGame_split HangmanGame.asciiUpper "Phở – Beef").1,
   ((HangmanGame.startNewGame_split HangmanGame.asciiUpper "Phở – Beef").2.2.2.2.2.1
      (by decide)).1 (by decide),
   by decide,
   (HangmanGame.startNewGame_split HangmanGame.asciiUpper "Com rang - Stir-fried rice").1⟩

/-- C23 (amended): setup has no failing outcome; its only provision for a
short catalog is padding by cycling.  For every catalog with at least one
entry of non-empty slug, every outcome of the shuffles and fuel above
`TOTAL_PAIRS`, the setup callback terminates and returns a fresh round with a
deck of 16 cards.  For a catalog with no such entry the padding loop is never
left, whatever the fuel, so no state is produced.  Hence the callback
terminates for some fuel exactly when the catalog has an entry of non-empty
slug. -/
theorem FoodMemoryGame.setup_terminates_iff_valid (foodData : List FoodMemoryGame.Food)
    (shuffle1 shuffle2 : List FoodMemoryGame.Food → List FoodMemoryGame.Food)
    (s0 : FoodMemoryGame.State)
    (h1 : ∀ l, (shuffle1 l).Perm l) (h2 : ∀ l, (shuffle2 l).Perm l) :
    ((∃ f ∈ foodData, f.slug ≠ "") →
      ∀ fuel, FoodMemoryGame.TOTAL_PAIRS < fuel →
        ∃ s, FoodMemoryGame.setupGameData foodData shuffle1 shuffle2 fuel s0 = some s ∧
          s.cards.length = 16 ∧
          s.gameState = FoodMemoryGame.GameStatus.playing ∧
          s.lives = FoodMemoryGame.MAX_LIVES ∧ s.timeLeft = FoodMemoryGame.TIME_LIMIT ∧
          s.flippedCards = [] ∧ s.matchedCards = [] ∧ s.disableClick = false) ∧
    ((∀ f ∈ foodData, f.slug = "") →
      ∀ fuel, FoodMemoryGame.setupGameData foodData shuffle1 shuffle2 fuel s0 = none) ∧
    ((∃ fuel s, FoodMemoryGame.setupGameData foodData shuffle1 shuffle2 fuel s0 = some s) ↔
      ∃ f ∈ foodData, f.slug ≠ "") := by
  have hyes : (∃ f ∈ foodData, f.slug ≠ "") →
      ∀ fuel, FoodMemoryGame.TOTAL_PAIRS < fuel →
        ∃ s, FoodMemoryGame.setupGameData foodData shuffle1 shuffle2 fuel s0 = some s ∧
          s.cards.length = 16 ∧
          s.gameState = FoodMemoryGame.GameStatus.playing ∧
          s.lives = FoodMemoryGame.MAX_LIVES ∧ s.timeLeft = FoodMemoryGame.TIME_LIMIT ∧
          s.flippedCards = [] ∧ s.matchedCards = [] ∧ s.disableClick = false := by
    intro hcat fuel hfuel
    obtain ⟨selected, hsel, hlen, _⟩ :=
      FoodMemoryGame.selectFoods_some foodData shuffle1 fuel hcat h1 hfuel
    have hs : FoodMemoryGame.setupGameData foodData shuffle1 shuffle2 fuel s0
        = some { cards := FoodMemoryGame.buildDeck selected shuffle2, flippedCards := [],
                 matchedCards := [], timeLeft := FoodMemoryGame.TIME_LIMIT,
                 lives := FoodMemoryGame.MAX_LIVES, disableClick := false,
                 gameState := FoodMemoryGame.GameStatus.playing, openDialog := false,
                 pendingFlipBacks := s0.pendingFlipBacks } := by
      simp only [FoodMemoryGame.setupGameData, hsel]
    refine ⟨_, hs, ?_, rfl, rfl, rfl, rfl, rfl, rfl⟩
    show (FoodMemoryGame.buildDeck selected shuffle2).length = 16
    rw [FoodMemoryGame.length_buildDeck selected shuffle2 h2, hlen]
    rfl
  have hno : (∀ f ∈ foodData, f.slug = "") →
      ∀ fuel, FoodMemoryGame.setupGameData foodData shuffle1 shuffle2 fuel s0 = none :=
    fun hcat fuel =>
      FoodMemoryGame.setupGameData_no_valid foodData shuffle1 shuffle2 fuel s0 hcat
  refine ⟨hyes, hno, ?_, ?_⟩
  · rintro ⟨fuel, s, hs⟩
    by_contra hnone
    have hall : ∀ f ∈ foodData, f.slug = "" := by
      intro f hf
      by_contra hne
      exact hnone ⟨f, hf, hne⟩
    rw [hno hall fuel] at hs
    exact absurd hs (by simp)
  · intro hcat
    obtain ⟨s, hs, _⟩ := hyes hcat (FoodMemoryGame.TOTAL_PAIRS + 1) (by omega)
    exact ⟨_, s, hs⟩

/-- C23 (amended), at the catalog of one dish followed by an entry without
slug, the identity shuffles and fuel 9: the setup returns a round with 16
cards. -/
theorem FoodMemoryGame.setup_terminates_iff_valid_witness :
    ∃ s, FoodMemoryGame.setupGameData
        ({ name := "Pho", slug := "pho", imageUrl := "" } :: FoodMemoryGame.noSlugCatalog)
        id id 9 FoodMemoryGame.initialState = some s ∧
      s.cards.length = 16 ∧
      s.gameState = FoodMemoryGame.GameStatus.playing ∧
      s.lives = FoodMemoryGame.MAX_LIVES ∧ s.timeLeft = FoodMemoryGame.TIME_LIMIT ∧
      s.flippedCards = [] ∧ s.matchedCards = [] ∧ s.disableClick = false :=
  (FoodMemoryGame.setup_terminates_iff_valid
    ({ name := "Pho", slug := "pho", imageUrl := "" } :: FoodMemoryGame.noSlugCatalog)
    id id FoodMemoryGame.initialState (fun l => List.Perm.refl l) (fun l => List.Perm.refl l)).1
    ⟨{ name := "Pho", slug := "pho", imageUrl := "" }, by decide, by decide⟩ 9 (by decide)

/-- C11 (failing input): a mismatch (cards 0 and 2 of `eightDishesGame`)
schedules a flip-back; RESET is pressed before it fires, and the setup callback
leaves it pending (`resetWhilePending` is the state it returns).  In the new
round cards 0 and 2 are tapped, a mismatch again: lives drops from 15 to 14,
the game stays 'playing', both cards are flipped, input is disabled and the
flip-back of this pair is scheduled behind the old one (`secondMismatch`).
The old flip-back fires next (`clearedEarly`): `flippedCards` is cleared and
input is enabled again while the flip-back of the pair itself is still
pending, that is before its 800 ms delay has expired.  Card 4, tapped then, is
flipped alone, and the late flip-back turns that card down as well. -/
theorem FoodMemoryGame.stale_flip_back_clears_pair_early :
    FoodMemoryGame.Reachable FoodMemoryGame.mismatchFlipped ∧
      FoodMemoryGame.mismatchFlipped.pendingFlipBacks = 1 ∧
      FoodMemoryGame.setupGameData FoodMemoryGame.eightDishes id id 9
          FoodMemoryGame.mismatchFlipped
        = some FoodMemoryGame.resetWhilePending ∧
      FoodMemoryGame.Reachable FoodMemoryGame.secondMismatch ∧
      FoodMemoryGame.secondMismatch.gameState = FoodMemoryGame.GameStatus.playing ∧
      FoodMemoryGame.secondMismatch.lives = 14 ∧
      FoodMemoryGame.secondMismatch.flippedCards
        = [FoodMemoryGame.plainCard "pho" 0, FoodMemoryGame.plainCard "banh_mi" 2] ∧
      FoodMemoryGame.secondMismatch.disableClick = true ∧
      FoodMemoryGame.secondMismatch.pendingFlipBacks = 2 ∧
      FoodMemoryGame.Reachable FoodMemoryGame.clearedEarly ∧
      FoodMemoryGame.clearedEarly.flippedCards = [] ∧
      FoodMemoryGame.clearedEarly.disableClick = false ∧
      FoodMemoryGame.clearedEarly.pendingFlipBacks = 1 ∧
      FoodMemoryGame.plainCard "bun_cha" 4 ∈ FoodMemoryGame.clearedEarly.cards ∧
      (FoodMemoryGame.handleCardClick FoodMemoryGame.clearedEarly
        (FoodMemoryGame.plainCard "bun_cha" 4)).flippedCards
        = [FoodMemoryGame.plainCard "bun_cha" 4] ∧
      (FoodMemoryGame.flipBackTimeout
        (FoodMemoryGame.handleCardClick FoodMemoryGame.clearedEarly
          (FoodMemoryGame.plainCard "bun_cha" 4))).flippedCards = [] := by
  have hm : FoodMemoryGame.Reachable FoodMemoryGame.mismatchFlipped :=
    FoodMemoryGame.Reachable.tap _ _
      (FoodMemoryGame.Reachable.tap _ _ FoodMemoryGame.eightDishesGame_reachable (by decide))
      (by decide)
  have hreset : FoodMemoryGame.setupGameData FoodMemoryGame.eightDishes id id 9
      FoodMemoryGame.mismatchFlipped = some FoodMemoryGame.resetWhilePending := by
    decide
  have hr : FoodMemoryGame.Reachable FoodMemoryGame.resetWhilePending :=
    FoodMemoryGame.Reachable.reset FoodMemoryGame.eightDishes id id 9
      FoodMemoryGame.mismatchFlipped _ hm (fun l => List.Perm.refl l)
      (fun l => List.Perm.refl l) hreset
  have hs : FoodMemoryGame.Reachable FoodMemoryGame.secondMismatch :=
    FoodMemoryGame.Reachable.tap _ _ (FoodMemoryGame.Reachable.tap _ _ hr (by decide))
      (by decide)
  exact ⟨hm, by decide, hreset, hs, by decide, by decide, by decide, by decide, by decide,
    FoodMemoryGame.Reachable.flipBack _ hs, by decide, by decide, by decide, by decide,
    by decide, by decide⟩
